import Mathlib

/-!
Verification development for the `mkdocs-ultralytics-plugin` repository.

The development shallowly embeds the HTML enrichment pipeline of
`plugin/processor.py`, the git-author identity resolution of
`plugin/utils.py`, and the batch orchestration of `plugin/postprocess.py`.

HTML documents are modelled as a first-child / next-sibling tree (`Dom`);
`BeautifulSoup`-style searches (`soup.find`, `select_one`) are document-order
depth-first traversals.  External effects (the GitHub user-search endpoint,
`requests.head` redirect resolution, `git` subprocess results, the wall
clock used by `calculate_time_difference`) are supplied as explicit oracle
parameters, so that every function in this file is a pure, executable
translation of the corresponding Python code.

String primitives are re-implemented over `List Char` so that all
definitions evaluate inside the kernel (Python `str.strip`, slicing,
`split`, `startswith`, `endswith`, substring tests).
-/

/-! ## Python-style string primitives -/

/-- Whitespace test used by `str.strip()` (ASCII whitespace suffices here). -/
def chIsWs (c : Char) : Bool := c == ' ' || c == '\t' || c == '\n' || c == '\r'

/-- Python `s.strip()`. -/
def sStrip (s : String) : String :=
  ⟨((s.data.dropWhile chIsWs).reverse.dropWhile chIsWs).reverse⟩

/-- Python `len(s)` (code points). -/
def sLength (s : String) : Nat := s.data.length

/-- Python `s[:n]`. -/
def sTake (s : String) (n : Nat) : String := ⟨s.data.take n⟩

/-- First occurrence split: returns the part before the first occurrence of
`pat` and the remainder after it, or `none` when `pat` does not occur. -/
def splitFirst (pat : List Char) : List Char → Option (List Char × List Char)
  | [] => if pat.isPrefixOf ([] : List Char) then some ([], []) else none
  | c :: r =>
    if pat.isPrefixOf (c :: r) then some ([], (c :: r).drop pat.length)
    else match splitFirst pat r with
      | none => none
      | some (a, b) => some (c :: a, b)

/-- Fuelled worker for `sSplitOn`. -/
def splitOnAuxL (pat : List Char) : Nat → List Char → List (List Char)
  | 0, l => [l]
  | fuel + 1, l =>
    match splitFirst pat l with
    | none => [l]
    | some (a, b) => a :: splitOnAuxL pat fuel b

/-- Python `s.split(pat)` for a non-empty separator. -/
def sSplitOn (s : String) (pat : String) : List String :=
  (splitOnAuxL pat.data (s.data.length + 1) s.data).map (fun l => ⟨l⟩)

/-- Python `pat in s` (substring membership, as tested by `re.search` with a
literal pattern). -/
def containsSubstr (s pat : String) : Bool := (sSplitOn s pat).length > 1

/-- Python `s.endswith(pat)`. -/
def sEndsWith (s pat : String) : Bool := pat.data.reverse.isPrefixOf s.data.reverse

/-- Python `s.startswith(pat)`. -/
def sStartsWith (s pat : String) : Bool := pat.data.isPrefixOf s.data

/-- Characters left unescaped by `urllib.parse.quote(url, safe="")`. -/
def isUnreservedChar (c : Char) : Bool :=
  c.isAlphanum || c == '_' || c == '.' || c == '-' || c == '~'

/-- Uppercase hexadecimal digit. -/
def hexDigitChar (n : Nat) : Char :=
  if n < 10 then Char.ofNat (48 + n) else Char.ofNat (55 + n)

/-- Percent-encoding of one character (ASCII range; the pipeline only ever
encodes page URLs, which are ASCII). -/
def quoteChar (c : Char) : List Char :=
  if isUnreservedChar c then [c]
  else ['%', hexDigitChar (c.toNat / 16 % 16), hexDigitChar (c.toNat % 16)]

/-- Model of `urllib.parse.quote(page_url, safe="")` from `processor.py`. -/
def quoteAll (s : String) : String := ⟨s.data.flatMap quoteChar⟩

/-! ## DOM model

A `Dom` value is a forest of sibling nodes in first-child / next-sibling
form.  `Dom.nil` terminates a sibling chain. -/

/-- HTML forest: each element carries its tag name, attribute list,
child forest and the chain of following siblings. -/
inductive Dom : Type where
  | nil : Dom
  | elem (tag : String) (attrs : List (String × String)) (children : Dom) (next : Dom) : Dom
  | txt (s : String) (next : Dom) : Dom
deriving DecidableEq

/-- An element selector: a predicate over tag name, attributes and children.
`soup.find(...)` filters element (tag) nodes only, so text nodes never
match. -/
abbrev Sel := String → List (String × String) → Dom → Bool

/-- Concatenation of sibling chains. -/
def Dom.app : Dom → Dom → Dom
  | .nil, l => l
  | .elem t a c nx, l => .elem t a c (nx.app l)
  | .txt s nx, l => .txt s (nx.app l)

/-- Number of elements matching `p` anywhere in the forest. -/
def cnt (p : Sel) : Dom → Nat
  | .nil => 0
  | .elem t a c nx => (if p t a c then 1 else 0) + cnt p c + cnt p nx
  | .txt _ nx => cnt p nx

/-- Whether some element matches `p` (the truthiness of `soup.find(...)`). -/
def hasSel (p : Sel) : Dom → Bool
  | .nil => false
  | .elem t a c nx => p t a c || hasSel p c || hasSel p nx
  | .txt _ nx => hasSel p nx

/-- Document-order depth-first search for the first element matching `p`,
returned together with its following-sibling chain (this is what
`find_next_sibling` walks afterwards). -/
def findTail (p : Sel) : Dom → Option Dom
  | .nil => none
  | .elem t a c nx =>
    if p t a c then some (.elem t a c nx)
    else match findTail p c with
      | some r => some r
      | none => findTail p nx
  | .txt _ nx => findTail p nx

/-- Update the attributes of the first element matching `p`
(`soup.find(...)["content"] = v`). -/
def mapFirst (p : Sel) (u : List (String × String) → List (String × String)) : Dom → Dom
  | .nil => .nil
  | .elem t a c nx =>
    if p t a c then .elem t (u a) c nx
    else if hasSel p c then .elem t a (mapFirst p u c) nx
    else .elem t a c (mapFirst p u nx)
  | .txt s nx => .txt s (mapFirst p u nx)

/-- Where a fragment is spliced relative to the first matching element. -/
inductive SpliceMode : Type where
  | before
  | after
  | inside
deriving DecidableEq

/-- Splice the fragment `frag` at the first element matching `p`:
`insert_before`, `insert_after` or `append` (into its children).
If no element matches, the forest is unchanged. -/
def splice (p : Sel) (mode : SpliceMode) (frag : Dom) : Dom → Dom
  | .nil => .nil
  | .elem t a c nx =>
    if p t a c then
      match mode with
      | .before => frag.app (.elem t a c nx)
      | .after => .elem t a c (frag.app nx)
      | .inside => .elem t a (c.app frag) nx
    else if hasSel p c then .elem t a (splice p mode frag c) nx
    else .elem t a c (splice p mode frag nx)
  | .txt s nx => .txt s (splice p mode frag nx)

/-- Concatenated text of all descendant strings (BeautifulSoup `.text`). -/
def textOf : Dom → String
  | .nil => ""
  | .elem _ _ c nx => textOf c ++ textOf nx
  | .txt s nx => s ++ textOf nx

/-- Replace the value of the first attribute named `k` (keeps position). -/
def replaceAttr (k v : String) : List (String × String) → List (String × String)
  | [] => []
  | (k', v') :: r => if k' == k then (k', v) :: r else (k', v') :: replaceAttr k v r

/-- `tag[k] = v` on an attribute list: update in place or add at the end. -/
def setAttr (k v : String) (a : List (String × String)) : List (String × String) :=
  if (a.lookup k).isSome then replaceAttr k v a else a ++ [(k, v)]

/-- Class-token membership, as used by BeautifulSoup `class_=` filters and
CSS class selectors. -/
def classHas (a : List (String × String)) (cls : String) : Bool :=
  (sSplitOn ((a.lookup "class").getD "") " ").contains cls

/-! ## Model of `plugin/utils.py` -/

/-- Bucketing of a day count into a relative-age string; this is the body of
`calculate_time_difference` (utils.py lines 41-51), where `days` is
`(now - date).days` for a past git date. -/
def timeDifferenceString (days : Nat) : String :=
  if days < 30 then toString days ++ " day" ++ (if days != 1 then "s" else "")
  else if days < 365 then
    toString (days / 30) ++ " month" ++ (if days / 30 != 1 then "s" else "")
  else
    toString (days / 365) ++ " year" ++ (if days / 365 != 1 then "s" else "")

/-- Characters allowed in a YouTube video id by the regex
`youtube\.com/embed/([a-zA-Z0-9_-]+)`. -/
def isYouTubeIdChar (c : Char) : Bool := c.isAlphanum || c == '_' || c == '-'

/-- Model of `re.search(r"youtube\.com/embed/([a-zA-Z0-9_-]+)", src)`:
the id following the first occurrence of the embed prefix that is followed
by at least one id character. -/
def extractYouTubeId (s : String) : Option String :=
  (((sSplitOn s "youtube.com/embed/").drop 1).filterMap (fun part =>
    let id : List Char := part.data.takeWhile isYouTubeIdChar
    if id.isEmpty then none else some (⟨id⟩ : String))).head?

/-- All `iframe src` attribute values in document order
(`soup.find_all("iframe", src=True)`). -/
def iframeSrcs : Dom → List String
  | .nil => []
  | .elem t a c nx =>
    (if t == "iframe" then
      match a.lookup "src" with
      | some s => [s]
      | none => []
     else []) ++ iframeSrcs c ++ iframeSrcs nx
  | .txt _ nx => iframeSrcs nx

/-- The parsed document handed to the pipeline: `<head>` children and
`<body>` children.  `soup.find` searches both, in this order. -/
structure SoupDoc : Type where
  hd : Dom
  bd : Dom
deriving DecidableEq

/-- Model of `get_youtube_video_ids(soup)` from utils.py. -/
def get_youtube_video_ids (d : SoupDoc) : List String :=
  (iframeSrcs d.hd ++ iframeSrcs d.bd).filterMap extractYouTubeId

/-- The author cache `{email: {username, avatar}}`, insertion ordered. -/
abbrev AuthorCache := List (String × (Option String × Option String))

/-- Network oracle: `searchHit email` is the first item of the GitHub
user-search response when the request returns 200 with a non-empty result
set (login and avatar_url), `none` otherwise (empty result, non-200, ...);
`headUrl u` is `requests.head(u, allow_redirects=True).url`; `defaultAvatar`
is the module constant `DEFAULT_AVATAR`. -/
structure Net : Type where
  searchHit : String → Option (String × String)
  headUrl : String → String
  defaultAvatar : String

/-- Model of `get_github_username_from_email(email, cache)` (utils.py lines
87-148).  Returns the `(username, avatar)` pair, the updated cache, and the
number of HTTP requests performed (`requests.head` and `requests.get` each
count as one). -/
def get_github_username_from_email (net : Net) (cache : AuthorCache) (email : String) :
    (Option String × Option String) × AuthorCache × Nat :=
  match cache.lookup email with
  | some v => (v, cache, 0)
  | none =>
    if sStrip email == "" then ((none, none), cache, 0)
    else if sEndsWith email "@users.noreply.github.com" then
      let username := ((sSplitOn ((sSplitOn email "+").getLastD email) "@").headD "")
      let avatar := "https://github.com/" ++ username ++ ".png"
      ((some username, some avatar),
        cache ++ [(email, (some username, some (net.headUrl avatar)))], 1)
    else
      match net.searchHit email with
      | some (login, avatarUrl) =>
        ((some login, some avatarUrl),
          cache ++ [(email, (some login, some (net.headUrl avatarUrl)))], 2)
      | none => ((none, none), cache ++ [(email, (none, none))], 1)

/-- Per-author record built by `get_github_usernames_from_file`. -/
structure AuthorInfo : Type where
  email : String
  url : String
  changes : Nat
  avatar : String
deriving DecidableEq

/-- Python `info[key] = value`: update in place, else append. -/
def assocSet (k : String) (v : AuthorInfo) :
    List (String × AuthorInfo) → List (String × AuthorInfo)
  | [] => [(k, v)]
  | (k', v') :: r => if k' == k then (k', v) :: r else (k', v') :: assocSet k v r

/-- The `for email, changes in emails.items()` loop of
`get_github_usernames_from_file` (utils.py lines 200-213). -/
def ghUsersLoop (net : Net) (default_user : Option String) (repoUrl : String) :
    List (String × Nat) → List (String × AuthorInfo) → AuthorCache →
    List (String × AuthorInfo) × AuthorCache
  | [], info, cache => (info, cache)
  | (email0, changes) :: rest, info, cache =>
    let email := if email0 == "" then
        (match default_user with | some du => du | none => email0)
      else email0
    let r := get_github_username_from_email net cache email
    let username := r.1.1
    let avatar := r.1.2
    let user_url := match username with
      | some u => if u != "" then "https://github.com/" ++ u else repoUrl
      | none => repoUrl
    let key := match username with
      | some u => if u != "" then u else email
      | none => email
    let av := match avatar with
      | some a => if a != "" then a else net.defaultAvatar
      | none => net.defaultAvatar
    ghUsersLoop net default_user repoUrl rest
      (assocSet key ⟨email, user_url, changes, av⟩ info) r.2.1

/-- Model of `get_github_usernames_from_file` (utils.py lines 151-222):
the `emails` map is supplied by the caller (the git log scan is external),
the cache is an explicit parameter; the on-disk YAML persistence is outside
the modelled contract. -/
def get_github_usernames_from_file (net : Net) (default_user : Option String)
    (repo_url : Option String) (emails : List (String × Nat)) (cache0 : AuthorCache) :
    List (String × AuthorInfo) × AuthorCache :=
  let ems := if emails.isEmpty then
      (match default_user with | some du => [(du, 1)] | none => [])
    else emails
  ghUsersLoop net default_user (repo_url.getD "https://github.com/ultralytics/ultralytics")
    ems [] cache0

/-! ## Model of `plugin/postprocess.py` -/

/-- Outcome of the externally-visible I/O of one HTML file:
`ok` — read, processed and written; `readFail` — `read_text` raised one of
the two caught exception types (`UnicodeDecodeError`, `FileNotFoundError`);
`writeFail` — `write_text` raised one of the caught types (`OSError`,
`PermissionError`); `raisesExc` — some step raised an exception not caught
inside `process_html_file` (e.g. `PermissionError` on read, or a processing
crash). -/
inductive FileEvent : Type where
  | ok
  | readFail
  | writeFail
  | raisesExc
deriving DecidableEq

/-- Model of `process_html_file` (postprocess.py lines 54-134): handled
failures return `False`, success returns `True`, anything else escapes as
an exception (modelled with `Except.error`). -/
def process_html_file : FileEvent → Except String Bool
  | .ok => .ok true
  | .readFail => .ok false
  | .writeFail => .ok false
  | .raisesExc => .error "unhandled per-file exception"

/-- The single-worker branch of `postprocess_site` (postprocess.py lines
325-330): a plain `for` loop with no exception handler, so an escaping
exception aborts the whole batch. -/
def postprocess_seq : List FileEvent → Except String Nat
  | [] => .ok 0
  | f :: rest =>
    match process_html_file f with
    | .error e => .error e
    | .ok b =>
      match postprocess_seq rest with
      | .error e => .error e
      | .ok n => .ok ((if b then 1 else 0) + n)

/-- The pool branch of `postprocess_site` (postprocess.py lines 331-360):
every future is awaited inside `try/except Exception`, a failure counts as
`success = False`, and the successes are summed. -/
def postprocess_pool (files : List FileEvent) : Nat :=
  files.foldl (fun acc f =>
    acc + match process_html_file f with | .ok true => 1 | _ => 0) 0

/-- Number of files that fully succeed. -/
def okCount (files : List FileEvent) : Nat := files.countP (fun f => f == .ok)

/-- Number of files that fail in any of the three ways. -/
def failedCount (files : List FileEvent) : Nat := files.countP (fun f => !(f == .ok))

/-! ## Model of `plugin/processor.py` -/

/-- The keyword arguments of `process_html` (processor.py lines 210-226).
`default_author` is consumed only by the external `get_git_info` call, whose
result is the `GitInfo` oracle below. -/
structure Cfg : Type where
  page_url : String
  title : String
  src_path : Option String := none
  default_image : Option String := none
  keywords : Option String := none
  add_desc : Bool := true
  add_image : Bool := true
  add_keywords : Bool := true
  add_share_buttons : Bool := true
  add_authors : Bool := true
  add_json_ld : Bool := true
  add_css : Bool := true
  add_copy_llm : Bool := true
deriving DecidableEq

/-- Run environment: the two placeholder date constants computed from
`datetime.now()` at import time (processor.py lines 22-24), and the
behaviour of `calculate_time_difference` (which depends on the wall
clock): it maps a date string to the `(difference, pretty_date)` pair. -/
structure Env : Type where
  dfltCreationDate : String
  dfltModifiedDate : String
  timeDiff : String → String × String

/-- Result of `get_git_info(src_path, ...)`: the dictionary with the two
dates and the optional sorted author list `(name, url, changes, avatar)`. -/
structure GitInfo : Type where
  creation_date : String
  last_modified_date : String
  authors : Option (List (String × String × Nat × String)) := none

/-- The `git_info` value in scope after processor.py lines 380-388: the
oracle result when a source path is given, the placeholder dictionary
otherwise. -/
def effGitInfo (cfg : Cfg) (env : Env) (git : GitInfo) : GitInfo :=
  if cfg.src_path.isSome then git
  else ⟨env.dfltCreationDate, env.dfltModifiedDate, none⟩

/-- `has_real_git_data` (processor.py lines 391-395). -/
def hasRealGitData (env : Env) (gi : GitInfo) : Bool :=
  gi.creation_date != env.dfltCreationDate ||
  gi.last_modified_date != env.dfltModifiedDate ||
  gi.authors.isSome

/-- Whether the git footer branch at processor.py line 397 runs: it sits
inside `if src_path:` and requires `add_authors and has_real_git_data`. -/
def rendersFooter (cfg : Cfg) (env : Env) (git : GitInfo) : Bool :=
  cfg.src_path.isSome && cfg.add_authors && hasRealGitData env git

/-! ### Selectors used by the pipeline -/

/-- `soup.find("meta", attrs={"name": k})`. -/
def selMetaName (k : String) : Sel := fun t a _ =>
  t == "meta" && (a.lookup "name" == some k)

/-- `soup.find("meta", attrs={"property": k})`. -/
def selMetaProp (k : String) : Sel := fun t a _ =>
  t == "meta" && (a.lookup "property" == some k)

/-- `soup.find("link", rel="stylesheet", href=re.compile("font-awesome"))`. -/
def selLinkFA : Sel := fun t a _ =>
  t == "link" && (a.lookup "rel" == some "stylesheet") &&
    (match a.lookup "href" with
     | some h => containsSubstr h "font-awesome"
     | none => false)

/-- `soup.find("script", type="application/ld+json")`. -/
def selJsonLd : Sel := fun t a _ =>
  t == "script" && (a.lookup "type" == some "application/ld+json")

/-- `soup.find("style", string=re.compile("git-info"))`: a style tag whose
single string child mentions `git-info`. -/
def selStyleGitInfo : Sel := fun t _ c =>
  t == "style" && (match c with | .txt s .nil => containsSubstr s "git-info" | _ => false)

/-- `soup.find("div", class_="share-buttons")`. -/
def selShareDiv : Sel := fun t a _ => t == "div" && classHas a "share-buttons"

/-- `soup.find("div", class_="git-info")`: the rendered authorship footer. -/
def selGitInfoDiv : Sel := fun t a _ => t == "div" && classHas a "git-info"

/-- `soup.find("a", {"title": "Edit this page"})`. -/
def selEditBtn : Sel := fun t a _ => t == "a" && (a.lookup "title" == some "Edit this page")

/-- `soup.find("a", onclick=re.compile("copyMarkdownForLLM"))`. -/
def selCopyBtn : Sel := fun t a _ =>
  t == "a" && (match a.lookup "onclick" with
               | some s => containsSubstr s "copyMarkdownForLLM"
               | none => false)

/-- `soup.find("script", string=re.compile(r"copyMarkdownForLLM"))`. -/
def selCopyScript : Sel := fun t _ c =>
  t == "script" &&
    (match c with | .txt s .nil => containsSubstr s "copyMarkdownForLLM" | _ => false)

/-- `soup.find("h2", id="__comments")`. -/
def selCommentsH2 : Sel := fun t a _ => t == "h2" && (a.lookup "id" == some "__comments")

/-- `soup.select_one(".md-content__inner")`. -/
def selInner : Sel := fun _ a _ => classHas a "md-content__inner"

/-- `soup.find("article", class_="md-content__inner")`. -/
def selArticleInner : Sel := fun t a _ => t == "article" && classHas a "md-content__inner"

/-- `soup.find("p")`. -/
def selP : Sel := fun t _ _ => t == "p"

/-- `soup.find("img")`. -/
def selImg : Sel := fun t _ _ => t == "img"

/-- `soup.find("h2", string="FAQ")`. -/
def selH2FAQ : Sel := fun t _ c =>
  t == "h2" && (match c with | .txt s .nil => s == "FAQ" | _ => false)

/-! ### Document-level search and mutation -/

/-- Search across the whole document, head first then body. -/
def docHas (p : Sel) (d : SoupDoc) : Bool := hasSel p d.hd || hasSel p d.bd

/-- Matching-element count across the whole document. -/
def docCnt (p : Sel) (d : SoupDoc) : Nat := cnt p d.hd + cnt p d.bd

/-- Whole-document `find`, returning the matched element with its
following siblings. -/
def docFind (p : Sel) (d : SoupDoc) : Option Dom :=
  match findTail p d.hd with
  | some r => some r
  | none => findTail p d.bd

/-- Whole-document attribute update of the first match. -/
def docMapFirst (p : Sel) (u : List (String × String) → List (String × String))
    (d : SoupDoc) : SoupDoc :=
  if hasSel p d.hd then { d with hd := mapFirst p u d.hd }
  else { d with bd := mapFirst p u d.bd }

/-- Whole-document splice at the first match. -/
def docSplice (p : Sel) (m : SpliceMode) (frag : Dom) (d : SoupDoc) : SoupDoc :=
  if hasSel p d.hd then { d with hd := splice p m frag d.hd }
  else { d with bd := splice p m frag d.bd }

/-- `soup.head.append(x)`. -/
def appendHead (x : Dom) (d : SoupDoc) : SoupDoc := { d with hd := d.hd.app x }

/-- `soup.body.append(x)`. -/
def appendBody (x : Dom) (d : SoupDoc) : SoupDoc := { d with bd := d.bd.app x }

/-- The find-or-create pattern used for all `content`-valued meta tags:
if an element matching `p` exists anywhere, set its `content` attribute;
otherwise append the freshly-built tag `mk` to `<head>`. -/
def docUpsertMeta (p : Sel) (mk : Dom) (v : String) (d : SoupDoc) : SoupDoc :=
  if docHas p d then docMapFirst p (setAttr "content" v) d else appendHead mk d

/-- A fresh `meta` tag with a `name` attribute. -/
def mkMetaName (k v : String) : Dom := .elem "meta" [("name", k), ("content", v)] .nil .nil

/-- A fresh `meta` tag with a `property` attribute. -/
def mkMetaProp (k v : String) : Dom := .elem "meta" [("property", k), ("content", v)] .nil .nil

/-! ### Content extraction (processor.py lines 236-258) -/

/-- The description/image signals extracted from the page before injection. -/
structure ExtractedMeta : Type where
  description : Option String := none
  image : Option String := none
deriving DecidableEq

/-- Text of the first paragraph, scoped to the first
`article.md-content__inner` when one exists, document-wide otherwise
(processor.py lines 238-242). -/
def firstParagraphText (d : SoupDoc) : Option String :=
  match docFind selArticleInner d with
  | some (.elem _ _ c _) =>
    match findTail selP c with
    | some (.elem _ _ pc _) => some (textOf pc)
    | _ => none
  | _ =>
    match docFind selP d with
    | some (.elem _ _ pc _) => some (textOf pc)
    | _ => none

/-- The description signal: `first_paragraph.text.strip()[:500]`, kept when
its length is at least 10 (processor.py lines 238-246). -/
def extractDescription (cfg : Cfg) (d : SoupDoc) : Option String :=
  if cfg.add_desc then
    match firstParagraphText d with
    | some t =>
      let ds := sTake (sStrip t) 500
      if 10 ≤ sLength ds then some ds else none
    | none => none
  else none

/-- The image signal: first `img src` if acceptable, else the first YouTube
thumbnail, else the configured default image (processor.py lines 248-258). -/
def extractImage (cfg : Cfg) (d : SoupDoc) : Option String :=
  if cfg.add_image then
    match docFind selImg d with
    | some (.elem _ a _ _) =>
      let src := (a.lookup "src").getD ""
      if src != "" &&
          (sStartsWith src "http://" || sStartsWith src "https://" || sStartsWith src "/" ||
            !(sStartsWith src "javascript:" || sStartsWith src "data:")) then
        some src
      else none
    | _ =>
      match get_youtube_video_ids d with
      | id :: _ => some ("https://img.youtube.com/vi/" ++ id ++ "/maxresdefault.jpg")
      | [] =>
        match cfg.default_image with
        | some di => if di != "" then some di else none
        | none => none
  else none

/-- The `meta` dictionary populated at processor.py lines 237-258. -/
def extractMeta (cfg : Cfg) (d : SoupDoc) : ExtractedMeta :=
  ⟨extractDescription cfg d, extractImage cfg d⟩

/-! ### FAQ parsing (processor.py lines 65-96) -/

/-- The inner `while` of `parse_faq`: concatenate `p.text.strip() + " "`
over the following sibling tags until the next `h3` or `h2`.
`find_next_sibling()` skips string nodes. -/
def faqAnswerText : Dom → String
  | .nil => ""
  | .elem t _ c nx =>
    if t == "h3" || t == "h2" then ""
    else (if t == "p" then sStrip (textOf c) ++ " " else "") ++ faqAnswerText nx
  | .txt _ nx => faqAnswerText nx

/-- The outer `while` of `parse_faq`: walk sibling tags until the next
`h2`; each `h3` contributes a `(question, answer)` pair when both the
stripped question and the accumulated answer are non-empty. -/
def faqEntries : Dom → List (String × String)
  | .nil => []
  | .elem t _ c nx =>
    if t == "h2" then []
    else if t == "h3" then
      let q := sStrip (textOf c)
      let ans0 := faqAnswerText nx
      (if q != "" && ans0 != "" then [(q, sStrip ans0)] else []) ++ faqEntries nx
    else faqEntries nx
  | .txt _ nx => faqEntries nx

/-- Model of `parse_faq(soup)`: the ordered list of question/answer pairs,
as placed into the JSON-LD `mainEntity` array (`name`/`text` fields). -/
def parse_faq (d : SoupDoc) : List (String × String) :=
  match docFind selH2FAQ d with
  | some (.elem _ _ _ nx) => faqEntries nx
  | _ => []

/-! ### Shared insertion rule (processor.py lines 99-104) -/

/-- Model of `insert_content(soup, content)`: insert before the comments
anchor when present, else append to the first `.md-content__inner`
container, else drop the fragment. -/
def insert_content (frag : Dom) (d : SoupDoc) : SoupDoc :=
  if docHas selCommentsH2 d then docSplice selCommentsH2 .before frag d
  else if docHas selInner d then docSplice selInner .inside frag d
  else d

/-! ### DOM fragments built by the pipeline -/

/-- The font-awesome stylesheet link appended at processor.py lines 265-271. -/
def faLinkDom : Dom :=
  .elem "link"
    [("rel", "stylesheet"),
     ("href", "https://cdnjs.cloudflare.com/ajax/libs/font-awesome/6.4.2/css/all.min.css")]
    .nil .nil

/-- The copy-for-LLM button (processor.py lines 330-340); its child is the
copy SVG icon. -/
def copyButtonDom : Dom :=
  .elem "a"
    [("href", "javascript:void(0)"),
     ("onclick", "copyMarkdownForLLM(this); return false;"),
     ("class", "md-content__button md-icon"),
     ("title", "Copy page in Markdown format")]
    (.elem "svg" [("xmlns", "http://www.w3.org/2000/svg"), ("viewBox", "0 0 24 24")]
      (.elem "path" [("d", "M19,21H8V7H19M19,5H8A2,2 0 0,0 6,7V21A2,2 0 0,0 8,23H19A2,2 0 0,0 21,21V7A2,2 0 0,0 19,5M16,1H4A2,2 0 0,0 2,3V17H4V3H16V1Z")] .nil .nil)
      .nil)
    .nil

/-- The text of the clipboard script appended at processor.py lines
342-378 (braces written as escape sequences; the script body is inert data
for this model — only the `copyMarkdownForLLM` marker is ever inspected). -/
def copyLlmScriptText : String :=
  "\n            async function copyMarkdownForLLM(button) \x7b" ++
  " const editBtn = document.querySelector(\x27a[title=\"Edit this page\"]\x27);" ++
  " if (!editBtn) return; ... \x7d\n            "

/-- The clipboard script element appended to `<body>`. -/
def copyScriptDom : Dom := .elem "script" [] (.txt copyLlmScriptText .nil) .nil

/-- A shortened but marker-faithful rendering of `get_css()` (processor.py
lines 107-207); the pipeline only ever tests it for the `git-info`
substring. -/
def cssText : String :=
  "\n.git-info, .dates-container, .authors-container, .share-buttons \x7b" ++
  " display: flex; align-items: center; justify-content: flex-end; flex-wrap: wrap; \x7d\n" ++
  ".git-info \x7b font-size: 0.8em; color: grey; margin-bottom: 10px; \x7d\n"

/-- The inline `<style>` element appended at processor.py lines 424-427. -/
def styleDom : Dom := .elem "style" [] (.txt cssText .nil) .nil

/-- `src` of one author avatar image in the footer (processor.py line 418). -/
def authorAvatarSrc (avatar : String) : String :=
  avatar ++ (if containsSubstr avatar "?" then "&" else "?") ++ "s=96"

/-- The chain of author badge links in the footer (processor.py lines
414-420). -/
def authorLinks : List (String × String × Nat × String) → Dom
  | [] => .nil
  | (name, url, n, avatar) :: rest =>
    .elem "a"
      [("href", url), ("class", "author-link"),
       ("title", name ++ " (" ++ toString n ++ " change" ++ (if n > 1 then "s" else "") ++ ")")]
      (.elem "img"
        [("src", authorAvatarSrc avatar), ("alt", name), ("class", "hover-item"),
         ("loading", "lazy")]
        .nil .nil)
      (.txt "\n" (authorLinks rest))

/-- The git footer fragment (the parsed form of the `div` f-string at
processor.py lines 401-422): two `<br>` then the `git-info` container with
the dates row and the author badges. -/
def footerFrag (env : Env) (gi : GitInfo) : Dom :=
  let cd := env.timeDiff gi.creation_date
  let ud := env.timeDiff gi.last_modified_date
  let span2 : Dom :=
    .elem "span"
      [("class", "date-item"), ("title", "This page was last updated on " ++ ud.2)]
      (.elem "span" [("class", "hover-item")] (.txt "✏️" .nil)
        (.txt (" Updated " ++ ud.1 ++ " ago\n    ") .nil))
      (.txt "\n" .nil)
  let span1 : Dom :=
    .elem "span"
      [("class", "date-item"), ("title", "This page was first created on " ++ cd.2)]
      (.elem "span" [("class", "hover-item")] (.txt "📅" .nil)
        (.txt (" Created " ++ cd.1 ++ " ago\n    ") .nil))
      (.txt "\n    " span2)
  let authorsDiv : Dom :=
    .elem "div" [("class", "authors-container")]
      (.txt "\n" (match gi.authors with | some as_ => authorLinks as_ | none => .nil))
      .nil
  let datesDiv : Dom :=
    .elem "div" [("class", "dates-container")] (.txt "\n    " span1) (.txt "\n" authorsDiv)
  .elem "br" [] .nil (.elem "br" [] .nil (.txt "\n"
    (.elem "div" [("class", "git-info")] (.txt "\n" datesDiv) .nil)))

/-- The JSON-LD payload string (`json.dumps(ld_json_content)`, processor.py
lines 433-455); a plain concatenation rendering, never re-parsed by the
pipeline. -/
def ldJsonText (cfg : Cfg) (gi : GitInfo) (meta : ExtractedMeta)
    (faqs : List (String × String)) : String :=
  "\x7b\"@context\": \"https://schema.org\", \"@type\": " ++
  (if faqs.isEmpty then "\"Article\"" else "[\"Article\", \"FAQPage\"]") ++
  ", \"headline\": \"" ++ cfg.title ++
  "\", \"image\": [" ++ (match meta.image with | some im => "\"" ++ im ++ "\"" | none => "") ++
  "], \"datePublished\": \"" ++ gi.creation_date ++
  "\", \"dateModified\": \"" ++ gi.last_modified_date ++
  "\", \"author\": [\x7b\"@type\": \"Organization\", \"name\": \"Ultralytics\"," ++
  " \"url\": \"https://ultralytics.com/\"\x7d], \"abstract\": \"" ++
  (meta.description.getD "") ++ "\"" ++
  (String.join (faqs.map (fun qa =>
    ", \x7b\"@type\": \"Question\", \"name\": \"" ++ qa.1 ++
    "\", \"acceptedAnswer\": \x7b\"@type\": \"Answer\", \"text\": \"" ++ qa.2 ++
    "\"\x7d\x7d"))) ++ "\x7d"

/-- The share-buttons fragment (processor.py lines 460-473). -/
def shareFrag (cfg : Cfg) : Dom :=
  .elem "div" [("class", "share-buttons")]
    (.txt "\n    "
      (.elem "button"
        [("onclick",
          "window.open(\x27https://twitter.com/intent/tweet?url=" ++ quoteAll cfg.page_url ++
          "\x27, \x27TwitterShare\x27, \x27width=550,height=680,menubar=no,toolbar=no\x27); return false;"),
         ("class", "share-button hover-item")]
        (.elem "i" [("class", "fa-brands fa-x-twitter")] .nil (.txt " Tweet\n    " .nil))
        (.txt "\n    "
          (.elem "button"
            [("onclick",
              "window.open(\x27https://www.linkedin.com/shareArticle?url=" ++ quoteAll cfg.page_url ++
              "\x27, \x27LinkedinShare\x27, \x27width=550,height=730,menubar=no,toolbar=no\x27); return false;"),
             ("class", "share-button hover-item linkedin")]
            (.elem "i" [("class", "fa-brands fa-linkedin-in")] .nil (.txt " Share\n" .nil))
            (.txt "\n" .nil)))))
    (.txt "\n" (.elem "br" [] .nil .nil))

/-! ### The pipeline steps of `process_html` -/

/-- Processor.py lines 261-262: ensure a `meta name="title"` tag. -/
def stepTitle (cfg : Cfg) (d : SoupDoc) : SoupDoc :=
  if docHas (selMetaName "title") d then d
  else appendHead (mkMetaName "title" cfg.title) d

/-- Processor.py lines 264-271: ensure the font-awesome stylesheet link. -/
def stepFontAwesome (cfg : Cfg) (d : SoupDoc) : SoupDoc :=
  if cfg.add_share_buttons && !(docHas selLinkFA d) then appendHead faLinkDom d else d

/-- Processor.py lines 273-277: upsert `meta name="keywords"` when keywords
were supplied (`if add_keywords and keywords:` — empty string is falsy). -/
def stepKeywords (cfg : Cfg) (d : SoupDoc) : SoupDoc :=
  match cfg.keywords with
  | some kw =>
    if cfg.add_keywords && kw != "" then
      docUpsertMeta (selMetaName "keywords") (mkMetaName "keywords" kw) kw d
    else d
  | none => d

/-- Processor.py lines 279-288: upsert `meta name="description"` when a
description was extracted. -/
def stepDescription (cfg : Cfg) (meta : ExtractedMeta) (d : SoupDoc) : SoupDoc :=
  match meta.description with
  | some ds =>
    if cfg.add_desc then
      docUpsertMeta (selMetaName "description") (mkMetaName "description" ds) ds d
    else d
  | none => d

/-- The `for prop, value in [...]` upsert loops (processor.py lines
291-300 and 309-318). -/
def upsertPropPairs (ps : List (String × String)) (d : SoupDoc) : SoupDoc :=
  ps.foldl (fun d kv => docUpsertMeta (selMetaProp kv.1) (mkMetaProp kv.1 kv.2) kv.2 d) d

/-- Processor.py lines 302-306: upsert `og:image` when an image signal
exists. -/
def stepOgImage (cfg : Cfg) (meta : ExtractedMeta) (d : SoupDoc) : SoupDoc :=
  match meta.image with
  | some im =>
    if cfg.add_image then
      docUpsertMeta (selMetaProp "og:image") (mkMetaProp "og:image" im) im d
    else d
  | none => d

/-- Processor.py lines 320-321: append `twitter:image` when an image signal
exists and no such tag is present (find-or-skip, not an upsert). -/
def stepTwitterImage (cfg : Cfg) (meta : ExtractedMeta) (d : SoupDoc) : SoupDoc :=
  match meta.image with
  | some im =>
    if cfg.add_image && !(docHas (selMetaProp "twitter:image") d) then
      appendHead (mkMetaProp "twitter:image" im) d
    else d
  | none => d

/-- Processor.py lines 342-378: append the clipboard script to `<body>`
when no script mentioning `copyMarkdownForLLM` exists yet. -/
def stepCopyScript (d : SoupDoc) : SoupDoc :=
  if !(docHas selCopyScript d) then appendBody copyScriptDom d else d

/-- Processor.py lines 324-378: the copy-for-LLM button next to the edit
button, plus the clipboard script appended to `<body>` when absent. -/
def stepCopyLlm (cfg : Cfg) (d : SoupDoc) : SoupDoc :=
  if cfg.add_copy_llm && !(containsSubstr cfg.page_url "/reference/") &&
      docHas selEditBtn d && !(docHas selCopyBtn d) then
    stepCopyScript (docSplice selEditBtn .after copyButtonDom d)
  else d

/-- Processor.py lines 424-427: ensure the inline footer stylesheet. -/
def stepFooterStyle (cfg : Cfg) (d : SoupDoc) : SoupDoc :=
  if cfg.add_css && !(docHas selStyleGitInfo d) then appendHead styleDom d else d

/-- Processor.py lines 387-429: the git footer branch — inline style
ensured first, then the footer fragment handed to `insert_content`. -/
def stepFooter (cfg : Cfg) (env : Env) (git : GitInfo) (d : SoupDoc) : SoupDoc :=
  if rendersFooter cfg env git then
    insert_content (footerFrag env (effGitInfo cfg env git)) (stepFooterStyle cfg d)
  else d

/-- Processor.py lines 431-456: append the JSON-LD script when enabled and
no `application/ld+json` script exists; the payload embeds the FAQ entries
parsed from the current document. -/
def stepJsonLd (cfg : Cfg) (env : Env) (git : GitInfo) (meta : ExtractedMeta)
    (d : SoupDoc) : SoupDoc :=
  if cfg.add_json_ld && !(docHas selJsonLd d) then
    appendHead
      (.elem "script" [("type", "application/ld+json")]
        (.txt (ldJsonText cfg (effGitInfo cfg env git) meta (parse_faq d)) .nil) .nil)
      d
  else d

/-- Processor.py lines 458-474: insert the share buttons once. -/
def stepShare (cfg : Cfg) (d : SoupDoc) : SoupDoc :=
  if cfg.add_share_buttons && !(docHas selShareDiv d) then
    insert_content (shareFrag cfg) d
  else d

/-- The Open-Graph `(prop, value)` pairs of the loop at processor.py lines
291-300. -/
def ogPairs (cfg : Cfg) (meta : ExtractedMeta) : List (String × String) :=
  [("og:type", "website"), ("og:url", cfg.page_url), ("og:title", cfg.title),
   ("og:description", meta.description.getD "")]

/-- The Twitter-card `(prop, value)` pairs of the loop at processor.py
lines 309-318. -/
def twPairs (cfg : Cfg) (meta : ExtractedMeta) : List (String × String) :=
  [("twitter:card", "summary_large_image"), ("twitter:url", cfg.page_url),
   ("twitter:title", cfg.title), ("twitter:description", meta.description.getD "")]

/-- The full pipeline body of `process_html` after the head/body existence
checks (processor.py lines 236-476), in source order. -/
def process_htmlCore (cfg : Cfg) (env : Env) (git : GitInfo) (d0 : SoupDoc) : SoupDoc :=
  let meta := extractMeta cfg d0
  let d1 := stepTitle cfg d0
  let d2 := stepFontAwesome cfg d1
  let d3 := stepKeywords cfg d2
  let d4 := stepDescription cfg meta d3
  let d5 := upsertPropPairs (ogPairs cfg meta) d4
  let d6 := stepOgImage cfg meta d5
  let d7 := upsertPropPairs (twPairs cfg meta) d6
  let d8 := stepTwitterImage cfg meta d7
  let d9 := stepCopyLlm cfg d8
  let d10 := stepFooter cfg env git d9
  let d11 := stepJsonLd cfg env git meta d10
  stepShare cfg d11

/-- A page as handed to `process_html`: the parse result of the HTML
string.  `head = none` models a document without a `<head>` element; a
missing `<body>` is the empty forest (processor.py lines 233-234 create an
empty one, which changes nothing observable). -/
structure Page : Type where
  head : Option Dom := none
  body : Dom := .nil
deriving DecidableEq

/-- Model of `process_html` (processor.py lines 210-476): a page without a
`<head>` is returned unmodified, otherwise the pipeline runs. -/
def process_html (cfg : Cfg) (env : Env) (git : GitInfo) (pg : Page) : Page :=
  match pg.head with
  | none => pg
  | some h =>
    let r := process_htmlCore cfg env git ⟨h, pg.body⟩
    ⟨some r.hd, r.bd⟩

/-- The searchable document of a page (empty head forest when the page has
no `<head>`). -/
def pageDoc (pg : Page) : SoupDoc := ⟨pg.head.getD .nil, pg.body⟩

/-! ## Concrete instances used by witnesses and counterexamples -/

/-- A minimal configuration (all feature flags at their defaults, no source
path, so the git footer is never rendered). -/
def cfgEx : Cfg := { page_url := "https://e.com/p", title := "T" }

/-- A concrete run environment. -/
def envEx : Env :=
  { dfltCreationDate := "DC", dfltModifiedDate := "DM",
    timeDiff := fun _ => ("1 day", "January 01, 2020") }

/-- A git oracle reporting only the placeholder dates. -/
def gitEx : GitInfo := { creation_date := "DC", last_modified_date := "DM" }

/-- A page whose content region holds a single paragraph of exactly 10
characters. -/
def pageLen10 : Page :=
  { head := some .nil,
    body := .elem "article" [("class", "md-content__inner")]
      (.elem "p" [] (.txt "0123456789" .nil) .nil) .nil }

/-- A page with a head and a long-enough first paragraph. -/
def pageHello : Page :=
  { head := some .nil,
    body := .elem "article" [("class", "md-content__inner")]
      (.elem "p" [] (.txt "Hello world, this description is long enough." .nil) .nil) .nil }

/-- A page whose head already holds two `meta name="title"` elements. -/
def pageDupTitle : Page :=
  { head := some (.elem "meta" [("name", "title"), ("content", "a")] .nil
      (.elem "meta" [("name", "title"), ("content", "b")] .nil .nil)),
    body := .nil }

/-- The FAQ document of the spec example:
`<h2>FAQ</h2><h3>Q1?</h3><p>A1.</p><h3>Q2?</h3><p>A2.</p>`. -/
def faqExampleDoc : SoupDoc :=
  ⟨.nil,
   .elem "h2" [] (.txt "FAQ" .nil)
     (.elem "h3" [] (.txt "Q1?" .nil)
       (.elem "p" [] (.txt "A1." .nil)
         (.elem "h3" [] (.txt "Q2?" .nil)
           (.elem "p" [] (.txt "A2." .nil) .nil))))⟩

/-- A content container holding a comments anchor (both insertion targets
present). -/
def docWithAnchor : SoupDoc :=
  ⟨.nil, .elem "div" [("class", "md-content__inner")]
    (.elem "h2" [("id", "__comments")] .nil .nil) .nil⟩

/-- A content container with one paragraph and no comments anchor. -/
def docWithInnerOnly : SoupDoc :=
  ⟨.nil, .elem "div" [("class", "md-content__inner")]
    (.elem "p" [] (.txt "x" .nil) .nil) .nil⟩

/-- A document with neither a comments anchor nor a content container. -/
def docPlain : SoupDoc := ⟨.nil, .elem "p" [] (.txt "x" .nil) .nil⟩

/-- A sample fragment to insert. -/
def fragEx : Dom := .elem "div" [("class", "share-buttons")] .nil .nil

/-- A network oracle with one search hit and a redirecting `HEAD`. -/
def netEx : Net :=
  { searchHit := fun e => if e == "a@b.com" then some ("u", "av") else none,
    headUrl := fun s => s ++ "#resolved",
    defaultAvatar := "DA" }

/-- The noreply addresses used to exercise the author-table overwrite. -/
def noreply1 : String := "1+alice@users.noreply.github.com"

/-- Second noreply address resolving to the same username. -/
def noreply2 : String := "2+alice@users.noreply.github.com"

/-- A page without a `<head>` element. -/
def pageNoHead : Page := { head := none, body := .elem "p" [] (.txt "x" .nil) .nil }

/-- A meta-tag selector as data: the upserted selectors of the injector are
either `name`-keyed or `property`-keyed. -/
inductive MetaSel : Type where
  | byName (k : String)
  | byProp (k : String)
deriving DecidableEq

/-- The selector denoted by a `MetaSel`. -/
def MetaSel.sel : MetaSel → Sel
  | .byName k => selMetaName k
  | .byProp k => selMetaProp k

/-- Every meta selector the injector upserts or ensures (processor.py lines
260-321). -/
def injectorSels : List MetaSel :=
  [.byName "title", .byName "keywords", .byName "description",
   .byProp "og:type", .byProp "og:url", .byProp "og:title", .byProp "og:description",
   .byProp "og:image",
   .byProp "twitter:card", .byProp "twitter:url", .byProp "twitter:title",
   .byProp "twitter:description", .byProp "twitter:image"]

/-- A meta element carrying both a `name` and a `property` attribute; no
element produced by the generator or by the injector has both, and their
absence makes the upsert table conflict-free. -/
def selNameAndProp : Sel := fun t a _ =>
  t == "meta" && (a.lookup "name").isSome && (a.lookup "property").isSome

/-! ## Generic lemmas about the DOM operations -/

/-- A selector that never inspects the children forest. -/
def ChildBlind (q : Sel) : Prop := ∀ t a c₁ c₂, q t a c₁ = q t a c₂

theorem cnt_app (p : Sel) (d₁ d₂ : Dom) :
    cnt p (d₁.app d₂) = cnt p d₁ + cnt p d₂ := by
  induction d₁ with
  | nil => simp [cnt, Dom.app]
  | elem t a c nx ihc ihn => simp [cnt, Dom.app, ihn]; ring
  | txt s nx ihn => simp [cnt, Dom.app, ihn]

theorem hasSel_iff (p : Sel) (d : Dom) : hasSel p d = true ↔ cnt p d ≠ 0 := by
  induction d with
  | nil => simp [hasSel, cnt]
  | elem t a c nx ihc ihn =>
    simp only [hasSel, cnt, Bool.or_eq_true, ihc, ihn]
    by_cases h : p t a c <;> simp [h] <;> omega
  | txt s nx ihn => simpa [hasSel, cnt] using ihn

theorem hasSel_eq_false_iff (p : Sel) (d : Dom) : hasSel p d = false ↔ cnt p d = 0 := by
  rw [Bool.eq_false_iff]
  simp [hasSel_iff]

theorem cnt_le_of_imp {q r : Sel} (h : ∀ t a c, q t a c = true → r t a c = true)
    (d : Dom) : cnt q d ≤ cnt r d := by
  induction d with
  | nil => simp [cnt]
  | elem t a c nx ihc ihn =>
    simp only [cnt]
    have : (if q t a c then 1 else 0) ≤ (if r t a c then 1 else 0) := by
      by_cases hq : q t a c
      · simp [hq, h t a c hq]
      · simp [hq]
    omega
  | txt s nx ihn => simpa [cnt] using ihn

theorem cnt_zero_of_imp {q r : Sel} (h : ∀ t a c, q t a c = true → r t a c = true)
    {d : Dom} (hz : cnt r d = 0) : cnt q d = 0 :=
  Nat.le_zero.mp (hz ▸ cnt_le_of_imp h d)

theorem cnt_zero_pointwise {q : Sel} (h : ∀ t a c, q t a c = false) (d : Dom) :
    cnt q d = 0 := by
  induction d with
  | nil => simp [cnt]
  | elem t a c nx ihc ihn => simp [cnt, h, ihc, ihn]
  | txt s nx ihn => simpa [cnt] using ihn

theorem cnt_mapFirst {q p : Sel} {u : List (String × String) → List (String × String)}
    (hcb : ChildBlind q) (h : ∀ t a c, q t (u a) c = q t a c) (d : Dom) :
    cnt q (mapFirst p u d) = cnt q d := by
  induction d with
  | nil => simp [mapFirst]
  | elem t a c nx ihc ihn =>
    by_cases hp : p t a c
    · simp [mapFirst, hp, cnt, h]
    · by_cases hc : hasSel p c
      · simp [mapFirst, hp, hc, cnt, ihc, hcb t a (mapFirst p u c) c]
      · simp [mapFirst, hp, hc, cnt, ihn]
  | txt s nx ihn => simp [mapFirst, cnt, ihn]

theorem mapFirst_of_not_has {p : Sel} {u : List (String × String) → List (String × String)}
    {d : Dom} (h : hasSel p d = false) : mapFirst p u d = d := by
  induction d with
  | nil => simp [mapFirst]
  | elem t a c nx ihc ihn =>
    simp only [hasSel, Bool.or_eq_false_iff] at h
    simp [mapFirst, h.1.1, h.1.2, ihn h.2]
  | txt s nx ihn =>
    simp only [hasSel] at h
    simp [mapFirst, ihn h]

/-- If every matching element already carries attributes fixed by `u`, the
first-match update is the identity. -/
theorem mapFirst_noop {p : Sel} {u : List (String × String) → List (String × String)}
    {d : Dom}
    (h : cnt (fun t a c => p t a c && !(decide (u a = a))) d = 0) :
    mapFirst p u d = d := by
  induction d with
  | nil => simp [mapFirst]
  | elem t a c nx ihc ihn =>
    simp only [cnt, Nat.add_eq_zero] at h
    obtain ⟨⟨hn, hc⟩, hnx⟩ := h
    by_cases hp : p t a c
    · have hu : u a = a := by
        by_cases hd : u a = a
        · exact hd
        · simp [hp, hd] at hn
      simp [mapFirst, hp, hu]
    · by_cases hsc : hasSel p c
      · simp [mapFirst, hp, hsc, ihc hc]
      · simp [mapFirst, hp, hsc, ihn hnx]
  | txt s nx ihn =>
    simp only [cnt] at h
    simp [mapFirst, ihn h]

theorem cnt_splice {q : Sel} (hq : ChildBlind q) (p : Sel) (m : SpliceMode)
    (frag : Dom) (d : Dom) :
    cnt q (splice p m frag d) = cnt q d + (if hasSel p d then cnt q frag else 0) := by
  induction d with
  | nil => simp [splice, cnt, hasSel]
  | elem t a c nx ihc ihn =>
    by_cases hp : p t a c
    · have hhas : hasSel p (.elem t a c nx) = true := by simp [hasSel, hp]
      cases m with
      | before =>
        simp only [splice, hp, if_pos, hhas, cnt_app]
        simp [cnt]; ring
      | after =>
        simp only [splice, hp, if_pos, hhas]
        simp [cnt, cnt_app]; ring
      | inside =>
        simp only [splice, hp, if_pos, hhas]
        simp [cnt, cnt_app, hq t a (c.app frag) c]; ring
    · by_cases hc : hasSel p c
      · have hhas : hasSel p (.elem t a c nx) = true := by simp [hasSel, hc]
        simp only [splice, hp, if_neg, ite_false, hc, if_true, hhas, ite_true]
        simp only [cnt, ihc, hc, if_true]
        have := hq t a (splice p m frag c) c
        rw [this]; ring
      · have hhas : hasSel p (.elem t a c nx) = hasSel p nx := by simp [hasSel, hp, hc]
        simp only [splice, hp, ite_false, hc, hhas]
        simp only [cnt, ihn]
        by_cases hn : hasSel p nx <;> simp [hn] <;> ring
  | txt s nx ihn => simp [splice, cnt, hasSel, ihn]

theorem splice_of_not_has {p : Sel} {m : SpliceMode} {frag : Dom} {d : Dom}
    (h : hasSel p d = false) : splice p m frag d = d := by
  induction d with
  | nil => simp [splice]
  | elem t a c nx ihc ihn =>
    simp only [hasSel, Bool.or_eq_false_iff] at h
    simp [splice, h.1.1, h.1.2, ihn h.2]
  | txt s nx ihn =>
    simp only [hasSel] at h
    simp [splice, ihn h]

/-- After updating the unique `p`-match with `u`, no `p`-match violates the
property that `u` establishes. -/
theorem cnt_conj_zero_left {p q : Sel} {d : Dom} (hz : cnt p d = 0) :
    cnt (fun t a c => p t a c && q t a c) d = 0 :=
  cnt_zero_of_imp (fun t a c hb => by
    simp only [Bool.and_eq_true] at hb
    exact hb.1) hz

/-- After updating the unique `p`-match with `u`, no `p`-match violates the
property that `u` establishes. -/
theorem cnt_conj_mapFirst_self {p q : Sel}
    (hpcb : ChildBlind p)
    {u : List (String × String) → List (String × String)}
    (hqu : ∀ t a c, p t a c = true → q t (u a) c = false)
    {d : Dom} (h1 : cnt p d ≤ 1) :
    cnt (fun t a c => p t a c && q t a c) (mapFirst p u d) = 0 := by
  induction d with
  | nil => simp [mapFirst, cnt]
  | elem t a c nx ihc ihn =>
    simp only [cnt] at h1
    by_cases hp : p t a c
    · have hcz : cnt p c = 0 := by simp [hp] at h1; omega
      have hnz : cnt p nx = 0 := by simp [hp] at h1; omega
      simp only [mapFirst, hp, if_pos, cnt]
      simp [hqu t a c hp, cnt_conj_zero_left hcz, cnt_conj_zero_left hnz]
    · by_cases hsc : hasSel p c
      · have hc1 : cnt p c ≤ 1 := by omega
        have hnz : cnt p nx = 0 := by
          have := (hasSel_iff p c).mp hsc
          omega
        simp only [mapFirst, hp, ite_false, hsc, if_true, cnt]
        simp [hpcb t a (mapFirst p u c) c, hp, ihc hc1, cnt_conj_zero_left hnz]
      · have hcz : cnt p c = 0 := (hasSel_eq_false_iff p c).mp (by simpa using hsc)
        have hn1 : cnt p nx ≤ 1 := by omega
        simp only [mapFirst, hp, ite_false, hsc, cnt]
        simp [hp, cnt_conj_zero_left hcz, ihn hn1]
  | txt s nx ihn =>
    simp only [cnt] at h1 ⊢
    simpa [mapFirst, cnt] using ihn h1

/-! ## Attribute-list lemmas -/

theorem lookup_replaceAttr_self {k : String} (v : String) {a : List (String × String)}
    (h : (a.lookup k).isSome) : (replaceAttr k v a).lookup k = some v := by
  induction a with
  | nil => simp [List.lookup] at h
  | cons hd tl ih =>
    obtain ⟨k', v'⟩ := hd
    by_cases hk : k' = k
    · simp [replaceAttr, hk, List.lookup]
    · have hk2 : (k == k') = false := by simp [Ne.symm hk]
      simp only [List.lookup, hk2] at h
      simp [replaceAttr, hk, List.lookup, hk2, ih h]

theorem lookup_setAttr_self (k v : String) (a : List (String × String)) :
    (setAttr k v a).lookup k = some v := by
  unfold setAttr
  by_cases h : (a.lookup k).isSome
  · simp [h, lookup_replaceAttr_self v h]
  · simp only [h, if_false, Bool.false_eq_true]
    induction a with
    | nil => simp [List.lookup]
    | cons hd tl ih =>
      obtain ⟨k', v'⟩ := hd
      by_cases hk : k = k'
      · simp [List.lookup, hk] at h
      · have hk2 : (k == k') = false := by simp [hk]
        simp only [List.lookup, hk2] at h
        simpa [List.lookup, hk2] using ih h

theorem lookup_setAttr_ne {k' k : String} (h : k' ≠ k) (v : String)
    (a : List (String × String)) : (setAttr k v a).lookup k' = a.lookup k' := by
  have hke : (k' == k) = false := by simp [h]
  unfold setAttr
  by_cases hs : (a.lookup k).isSome
  · simp only [hs, if_true]
    induction a with
    | nil => simp [replaceAttr]
    | cons hd tl ih =>
      obtain ⟨k0, v0⟩ := hd
      by_cases hk : k0 = k
      · have : (k' == k0) = false := by simp [hk, h]
        simp [replaceAttr, hk, List.lookup, this, hke]
      · by_cases hk' : k' = k0
        · simp [replaceAttr, hk, List.lookup, hk']
        · have h1 : (k' == k0) = false := by simp [hk']
          by_cases hs2 : (tl.lookup k).isSome
          · simp [replaceAttr, hk, List.lookup, h1, ih hs2]
          · have : tl.lookup k = none := by
              cases hh : tl.lookup k
              · rfl
              · simp [hh] at hs2
            have h2 : (k == k0) = false := by simp [Ne.symm hk]
            simp only [List.lookup, h2] at hs
            simp [this] at hs
  · simp only [hs, if_false, Bool.false_eq_true]
    have : a.lookup k = none := by
      cases hh : a.lookup k
      · rfl
      · simp [hh] at hs
    induction a with
    | nil => simp [List.lookup, hke]
    | cons hd tl ih =>
      obtain ⟨k0, v0⟩ := hd
      by_cases hk' : k' = k0
      · simp [List.lookup, hk']
      · have h1 : (k' == k0) = false := by simp [hk']
        by_cases hk : k = k0
        · simp [List.lookup, hk] at this
        · have h2 : (k == k0) = false := by simp [hk]
          simp only [List.lookup, h2] at this
          have hs3 : ¬(tl.lookup k).isSome = true := by simp [this]
          simpa [List.lookup, h1] using ih hs3 this

theorem replaceAttr_of_lookup_eq {k v : String} {a : List (String × String)}
    (h : a.lookup k = some v) : replaceAttr k v a = a := by
  induction a with
  | nil => rfl
  | cons hd tl ih =>
    obtain ⟨k0, v0⟩ := hd
    by_cases hk : k0 = k
    · have : (k == k0) = true := by simp [hk]
      simp only [List.lookup, this] at h
      simp only [Option.some.injEq] at h
      simp [replaceAttr, hk, h]
    · have : (k == k0) = false := by simp [Ne.symm hk]
      simp only [List.lookup, this] at h
      simp [replaceAttr, hk, ih h]

theorem setAttr_of_lookup_eq {k v : String} {a : List (String × String)}
    (h : a.lookup k = some v) : setAttr k v a = a := by
  simp [setAttr, h, replaceAttr_of_lookup_eq h]

/-! ## Selector classes -/

/-- A selector insensitive to `content`-attribute updates. -/
def ContentBlind (q : Sel) : Prop :=
  ∀ v t a c, q t (setAttr "content" v a) c = q t a c

/-- All matching elements carry the desired `content` value except those
counted by this selector. -/
def badSel (p : Sel) (v : String) : Sel :=
  fun t a c => p t a c && !(a.lookup "content" == some v)

theorem classHas_setAttr_content (v : String) (a : List (String × String)) (cls : String) :
    classHas (setAttr "content" v a) cls = classHas a cls := by
  simp [classHas, lookup_setAttr_ne (show "class" ≠ "content" by decide)]

theorem contentBlind_selMetaName (k : String) : ContentBlind (selMetaName k) := by
  intro v t a c
  simp [selMetaName, lookup_setAttr_ne (show "name" ≠ "content" by decide)]

theorem contentBlind_selMetaProp (k : String) : ContentBlind (selMetaProp k) := by
  intro v t a c
  simp [selMetaProp, lookup_setAttr_ne (show "property" ≠ "content" by decide)]

theorem contentBlind_selLinkFA : ContentBlind selLinkFA := by
  intro v t a c
  simp [selLinkFA, lookup_setAttr_ne (show "rel" ≠ "content" by decide),
    lookup_setAttr_ne (show "href" ≠ "content" by decide)]

theorem contentBlind_selJsonLd : ContentBlind selJsonLd := by
  intro v t a c
  simp [selJsonLd, lookup_setAttr_ne (show "type" ≠ "content" by decide)]

theorem contentBlind_selShareDiv : ContentBlind selShareDiv := by
  intro v t a c
  simp [selShareDiv, classHas_setAttr_content]

theorem contentBlind_selGitInfoDiv : ContentBlind selGitInfoDiv := by
  intro v t a c
  simp [selGitInfoDiv, classHas_setAttr_content]

theorem contentBlind_selEditBtn : ContentBlind selEditBtn := by
  intro v t a c
  simp [selEditBtn, lookup_setAttr_ne (show "title" ≠ "content" by decide)]

theorem contentBlind_selCopyBtn : ContentBlind selCopyBtn := by
  intro v t a c
  simp [selCopyBtn, lookup_setAttr_ne (show "onclick" ≠ "content" by decide)]

theorem contentBlind_selCommentsH2 : ContentBlind selCommentsH2 := by
  intro v t a c
  simp [selCommentsH2, lookup_setAttr_ne (show "id" ≠ "content" by decide)]

theorem contentBlind_selInner : ContentBlind selInner := by
  intro v t a c
  simp [selInner, classHas_setAttr_content]

theorem contentBlind_selStyleGitInfo : ContentBlind selStyleGitInfo := by
  intro v t a c
  simp [selStyleGitInfo]

theorem childBlind_selMetaName (k : String) : ChildBlind (selMetaName k) :=
  fun _ _ _ _ => rfl

theorem childBlind_selMetaProp (k : String) : ChildBlind (selMetaProp k) :=
  fun _ _ _ _ => rfl

theorem childBlind_selLinkFA : ChildBlind selLinkFA := fun _ _ _ _ => rfl

theorem childBlind_selJsonLd : ChildBlind selJsonLd := fun _ _ _ _ => rfl

theorem childBlind_selShareDiv : ChildBlind selShareDiv := fun _ _ _ _ => rfl

theorem childBlind_selGitInfoDiv : ChildBlind selGitInfoDiv := fun _ _ _ _ => rfl

theorem childBlind_selEditBtn : ChildBlind selEditBtn := fun _ _ _ _ => rfl

theorem childBlind_selCopyBtn : ChildBlind selCopyBtn := fun _ _ _ _ => rfl

theorem childBlind_selCommentsH2 : ChildBlind selCommentsH2 := fun _ _ _ _ => rfl

theorem childBlind_selInner : ChildBlind selInner := fun _ _ _ _ => rfl

theorem childBlind_badSel {p : Sel} (hp : ChildBlind p) (v : String) :
    ChildBlind (badSel p v) := by
  intro t a c₁ c₂
  simp [badSel, hp t a c₁ c₂]

/-! ## Document-level operation lemmas -/

theorem docHas_iff (p : Sel) (d : SoupDoc) : docHas p d = true ↔ docCnt p d ≠ 0 := by
  simp only [docHas, docCnt, Bool.or_eq_true, hasSel_iff]
  omega

theorem docHas_eq_false_iff (p : Sel) (d : SoupDoc) :
    docHas p d = false ↔ docCnt p d = 0 := by
  rw [Bool.eq_false_iff]
  simp [docHas_iff]

theorem docCnt_appendHead (q : Sel) (x : Dom) (d : SoupDoc) :
    docCnt q (appendHead x d) = docCnt q d + cnt q x := by
  simp [appendHead, docCnt, cnt_app]
  ring

theorem docCnt_appendBody (q : Sel) (x : Dom) (d : SoupDoc) :
    docCnt q (appendBody x d) = docCnt q d + cnt q x := by
  simp [appendBody, docCnt, cnt_app]
  ring

theorem docCnt_docMapFirst {q : Sel} (hcb : ChildBlind q)
    {u : List (String × String) → List (String × String)}
    (h : ∀ t a c, q t (u a) c = q t a c) (p : Sel) (d : SoupDoc) :
    docCnt q (docMapFirst p u d) = docCnt q d := by
  unfold docMapFirst
  by_cases hh : hasSel p d.hd <;> simp [hh, docCnt, cnt_mapFirst hcb h]

theorem docCnt_docSplice {q : Sel} (hq : ChildBlind q) (p : Sel) (m : SpliceMode)
    (frag : Dom) (d : SoupDoc) :
    docCnt q (docSplice p m frag d) =
      docCnt q d + (if docHas p d then cnt q frag else 0) := by
  unfold docSplice
  by_cases hh : hasSel p d.hd
  · have : docHas p d = true := by simp [docHas, hh]
    simp [hh, docCnt, cnt_splice hq, this]
    ring
  · have : docHas p d = hasSel p d.bd := by simp [docHas, hh]
    simp only [hh, if_false, Bool.false_eq_true, docCnt, this, cnt_splice hq]
    omega

theorem docMapFirst_noop {p : Sel}
    {u : List (String × String) → List (String × String)} {d : SoupDoc}
    (h : docCnt (fun t a c => p t a c && !(decide (u a = a))) d = 0) :
    docMapFirst p u d = d := by
  simp only [docCnt, Nat.add_eq_zero] at h
  unfold docMapFirst
  by_cases hh : hasSel p d.hd <;>
    simp [hh, mapFirst_noop h.1, mapFirst_noop h.2]

theorem docSplice_of_not_has {p : Sel} {m : SpliceMode} {frag : Dom} {d : SoupDoc}
    (h : docHas p d = false) : docSplice p m frag d = d := by
  simp only [docHas, Bool.or_eq_false_iff] at h
  unfold docSplice
  simp [h.1, splice_of_not_has h.2]

theorem docCnt_docUpsertMeta {q : Sel} (hcb : ChildBlind q)
    (hcc : ∀ v t a c, q t (setAttr "content" v a) c = q t a c)
    (p : Sel) (mk : Dom) (v : String) (d : SoupDoc) :
    docCnt q (docUpsertMeta p mk v d) =
      docCnt q d + (if docHas p d then 0 else cnt q mk) := by
  unfold docUpsertMeta
  by_cases hh : docHas p d
  · simp [hh, docCnt_docMapFirst hcb (hcc v) p d]
  · simp [hh, docCnt_appendHead]

/-- Applying an upsert leaves every match of its selector with the desired
`content` value, provided the input held at most one match. -/
theorem docUpsertMeta_establishes {p : Sel} (hpcb : ChildBlind p)
    {mk : Dom} {v : String} {d : SoupDoc}
    (h1 : docCnt p d ≤ 1) (hmk : cnt (badSel p v) mk = 0) :
    docCnt (badSel p v) (docUpsertMeta p mk v d) = 0 := by
  unfold docUpsertMeta
  by_cases hh : docHas p d
  · simp only [hh, if_true]
    unfold docMapFirst
    have key : ∀ e : Dom, cnt p e ≤ 1 →
        cnt (badSel p v) (mapFirst p (setAttr "content" v) e) = 0 := by
      intro e he
      have := cnt_conj_mapFirst_self (q := fun _ a _ => !(a.lookup "content" == some v))
        hpcb (u := setAttr "content" v)
        (fun t a c hp => by simp [lookup_setAttr_self]) he
      simpa [badSel] using this
    simp only [docCnt] at h1
    by_cases hhd : hasSel p d.hd
    · have hbd : cnt p d.bd = 0 := by
        have := (hasSel_iff p d.hd).mp hhd
        omega
      have : cnt (badSel p v) d.bd = 0 :=
        cnt_zero_of_imp (fun t a c hb => by
          simp only [badSel, Bool.and_eq_true] at hb
          exact hb.1) hbd
      simp [hhd, docCnt, key d.hd (by omega), this]
    · have hhd0 : cnt p d.hd = 0 := (hasSel_eq_false_iff p d.hd).mp (by simpa using hhd)
      have : cnt (badSel p v) d.hd = 0 :=
        cnt_zero_of_imp (fun t a c hb => by
          simp only [badSel, Bool.and_eq_true] at hb
          exact hb.1) hhd0
      simp [hhd, docCnt, key d.bd (by omega), this]
  · have hz : docCnt p d = 0 := (docHas_eq_false_iff p d).mp (by simpa using hh)
    simp only [docCnt, Nat.add_eq_zero] at hz
    have z1 : cnt (badSel p v) d.hd = 0 :=
      cnt_zero_of_imp (fun t a c hb => by
        simp only [badSel, Bool.and_eq_true] at hb
        exact hb.1) hz.1
    have z2 : cnt (badSel p v) d.bd = 0 :=
      cnt_zero_of_imp (fun t a c hb => by
        simp only [badSel, Bool.and_eq_true] at hb
        exact hb.1) hz.2
    have hz0 : docCnt (badSel p v) d = 0 := by simp [docCnt, z1, z2]
    simp [hh, docCnt_appendHead, hz0, hmk]

/-- A second upsert with the same selector and value is the identity. -/
theorem docUpsertMeta_noop {p : Sel} {mk : Dom} {v : String} {d : SoupDoc}
    (hh : docHas p d = true) (hbad : docCnt (badSel p v) d = 0) :
    docUpsertMeta p mk v d = d := by
  unfold docUpsertMeta
  simp only [hh, if_true]
  apply docMapFirst_noop
  simp only [docCnt, Nat.add_eq_zero] at hbad ⊢
  constructor
  · refine cnt_zero_of_imp (fun t a c hb => ?_) hbad.1
    simp only [Bool.and_eq_true, decide_eq_true_eq, Bool.not_eq_eq_eq_not, Bool.not_true,
      decide_eq_false_iff_not] at hb
    simp only [badSel, Bool.and_eq_true, hb.1, true_and, Bool.not_eq_eq_eq_not, Bool.not_true]
    by_cases hc : a.lookup "content" = some v
    · exact absurd (setAttr_of_lookup_eq hc) hb.2
    · simp [hc]
  · refine cnt_zero_of_imp (fun t a c hb => ?_) hbad.2
    simp only [Bool.and_eq_true, decide_eq_true_eq, Bool.not_eq_eq_eq_not, Bool.not_true,
      decide_eq_false_iff_not] at hb
    simp only [badSel, Bool.and_eq_true, hb.1, true_and, Bool.not_eq_eq_eq_not, Bool.not_true]
    by_cases hc : a.lookup "content" = some v
    · exact absurd (setAttr_of_lookup_eq hc) hb.2
    · simp [hc]

theorem docCnt_insert_content {q : Sel} (hq : ChildBlind q) (frag : Dom) (d : SoupDoc) :
    docCnt q (insert_content frag d) =
      docCnt q d +
        (if docHas selCommentsH2 d || docHas selInner d then cnt q frag else 0) := by
  unfold insert_content
  by_cases h1 : docHas selCommentsH2 d
  · simp [h1, docCnt_docSplice hq]
  · by_cases h2 : docHas selInner d
    · simp [h1, h2, docCnt_docSplice hq]
    · simp [h1, h2]

theorem insert_content_id {frag : Dom} {d : SoupDoc}
    (h1 : docHas selCommentsH2 d = false) (h2 : docHas selInner d = false) :
    insert_content frag d = d := by
  simp [insert_content, h1, h2]

/-! ## Counting the pipeline payloads

Each fragment or fresh tag the pipeline can append is counted against each
selector the proofs track. -/

theorem cnt_conj_zero_right {p q : Sel} {d : Dom} (hz : cnt q d = 0) :
    cnt (fun t a c => p t a c && q t a c) d = 0 :=
  cnt_zero_of_imp (fun t a c hb => by
    simp only [Bool.and_eq_true] at hb
    exact hb.2) hz

theorem cnt_badSel_zero {p : Sel} (v : String) {d : Dom} (h : cnt p d = 0) :
    cnt (badSel p v) d = 0 :=
  cnt_zero_of_imp (fun t a c hb => by
    simp only [badSel, Bool.and_eq_true] at hb
    exact hb.1) h

theorem cnt_mName_mkName (k k' v : String) :
    cnt (selMetaName k) (mkMetaName k' v) = if k' == k then 1 else 0 := by
  by_cases h : k' = k <;> simp [cnt, mkMetaName, selMetaName, List.lookup, h]

theorem cnt_mName_mkProp (k k' v : String) : cnt (selMetaName k) (mkMetaProp k' v) = 0 := by
  simp [cnt, mkMetaProp, selMetaName, List.lookup]

theorem cnt_mProp_mkName (k k' v : String) : cnt (selMetaProp k) (mkMetaName k' v) = 0 := by
  simp [cnt, mkMetaName, selMetaProp, List.lookup]

theorem cnt_mProp_mkProp (k k' v : String) :
    cnt (selMetaProp k) (mkMetaProp k' v) = if k' == k then 1 else 0 := by
  by_cases h : k' = k <;> simp [cnt, mkMetaProp, selMetaProp, List.lookup, h]

theorem cnt_nameProp_mkName (k v : String) : cnt selNameAndProp (mkMetaName k v) = 0 := by
  simp [cnt, mkMetaName, selNameAndProp, List.lookup]

theorem cnt_nameProp_mkProp (k v : String) : cnt selNameAndProp (mkMetaProp k v) = 0 := by
  simp [cnt, mkMetaProp, selNameAndProp, List.lookup]

theorem cnt_badSelfName_mkName (k v : String) :
    cnt (badSel (selMetaName k) v) (mkMetaName k v) = 0 := by
  simp [cnt, mkMetaName, badSel, selMetaName, List.lookup]

theorem cnt_badSelfProp_mkProp (k v : String) :
    cnt (badSel (selMetaProp k) v) (mkMetaProp k v) = 0 := by
  simp [cnt, mkMetaProp, badSel, selMetaProp, List.lookup]

theorem cnt_fa_mkName (k v : String) : cnt selLinkFA (mkMetaName k v) = 0 := by
  simp [cnt, mkMetaName, selLinkFA]

theorem cnt_fa_mkProp (k v : String) : cnt selLinkFA (mkMetaProp k v) = 0 := by
  simp [cnt, mkMetaProp, selLinkFA]

theorem cnt_jsonld_mkName (k v : String) : cnt selJsonLd (mkMetaName k v) = 0 := by
  simp [cnt, mkMetaName, selJsonLd]

theorem cnt_jsonld_mkProp (k v : String) : cnt selJsonLd (mkMetaProp k v) = 0 := by
  simp [cnt, mkMetaProp, selJsonLd]

theorem cnt_shareDiv_mkName (k v : String) : cnt selShareDiv (mkMetaName k v) = 0 := by
  simp [cnt, mkMetaName, selShareDiv]

theorem cnt_shareDiv_mkProp (k v : String) : cnt selShareDiv (mkMetaProp k v) = 0 := by
  simp [cnt, mkMetaProp, selShareDiv]

theorem cnt_gitDiv_mkName (k v : String) : cnt selGitInfoDiv (mkMetaName k v) = 0 := by
  simp [cnt, mkMetaName, selGitInfoDiv]

theorem cnt_gitDiv_mkProp (k v : String) : cnt selGitInfoDiv (mkMetaProp k v) = 0 := by
  simp [cnt, mkMetaProp, selGitInfoDiv]

theorem cnt_edit_mkName (k v : String) : cnt selEditBtn (mkMetaName k v) = 0 := by
  simp [cnt, mkMetaName, selEditBtn]

theorem cnt_edit_mkProp (k v : String) : cnt selEditBtn (mkMetaProp k v) = 0 := by
  simp [cnt, mkMetaProp, selEditBtn]

theorem cnt_copyBtn_mkName (k v : String) : cnt selCopyBtn (mkMetaName k v) = 0 := by
  simp [cnt, mkMetaName, selCopyBtn]

theorem cnt_copyBtn_mkProp (k v : String) : cnt selCopyBtn (mkMetaProp k v) = 0 := by
  simp [cnt, mkMetaProp, selCopyBtn]

theorem cnt_comments_mkName (k v : String) : cnt selCommentsH2 (mkMetaName k v) = 0 := by
  simp [cnt, mkMetaName, selCommentsH2]

theorem cnt_comments_mkProp (k v : String) : cnt selCommentsH2 (mkMetaProp k v) = 0 := by
  simp [cnt, mkMetaProp, selCommentsH2]

theorem cnt_inner_mkName (k v : String) : cnt selInner (mkMetaName k v) = 0 := by
  simp [cnt, mkMetaName, selInner, classHas, List.lookup] <;> decide

theorem cnt_inner_mkProp (k v : String) : cnt selInner (mkMetaProp k v) = 0 := by
  simp [cnt, mkMetaProp, selInner, classHas, List.lookup] <;> decide

theorem cnt_mName_fa (k : String) : cnt (selMetaName k) faLinkDom = 0 := by
  simp [cnt, faLinkDom, selMetaName]

theorem cnt_mProp_fa (k : String) : cnt (selMetaProp k) faLinkDom = 0 := by
  simp [cnt, faLinkDom, selMetaProp]

theorem cnt_nameProp_fa : cnt selNameAndProp faLinkDom = 0 := by
  simp [cnt, faLinkDom, selNameAndProp]

theorem cnt_fa_fa : cnt selLinkFA faLinkDom = 1 := by
  simp [cnt, faLinkDom, selLinkFA, List.lookup] <;> decide

theorem cnt_jsonld_fa : cnt selJsonLd faLinkDom = 0 := by
  simp [cnt, faLinkDom, selJsonLd]

theorem cnt_shareDiv_fa : cnt selShareDiv faLinkDom = 0 := by
  simp [cnt, faLinkDom, selShareDiv]

theorem cnt_gitDiv_fa : cnt selGitInfoDiv faLinkDom = 0 := by
  simp [cnt, faLinkDom, selGitInfoDiv]

theorem cnt_edit_fa : cnt selEditBtn faLinkDom = 0 := by
  simp [cnt, faLinkDom, selEditBtn]

theorem cnt_copyBtn_fa : cnt selCopyBtn faLinkDom = 0 := by
  simp [cnt, faLinkDom, selCopyBtn]

theorem cnt_comments_fa : cnt selCommentsH2 faLinkDom = 0 := by
  simp [cnt, faLinkDom, selCommentsH2]

theorem cnt_inner_fa : cnt selInner faLinkDom = 0 := by
  simp [cnt, faLinkDom, selInner, classHas, List.lookup] <;> decide

theorem cnt_mName_copyBtn (k : String) : cnt (selMetaName k) copyButtonDom = 0 := by
  simp [cnt, copyButtonDom, selMetaName]

theorem cnt_mProp_copyBtn (k : String) : cnt (selMetaProp k) copyButtonDom = 0 := by
  simp [cnt, copyButtonDom, selMetaProp]

theorem cnt_nameProp_copyBtn : cnt selNameAndProp copyButtonDom = 0 := by
  simp [cnt, copyButtonDom, selNameAndProp, List.lookup] <;> decide

theorem cnt_fa_copyBtn : cnt selLinkFA copyButtonDom = 0 := by
  simp [cnt, copyButtonDom, selLinkFA]

theorem cnt_jsonld_copyBtn : cnt selJsonLd copyButtonDom = 0 := by
  simp [cnt, copyButtonDom, selJsonLd, List.lookup] <;> decide

theorem cnt_shareDiv_copyBtn : cnt selShareDiv copyButtonDom = 0 := by
  simp [cnt, copyButtonDom, selShareDiv]

theorem cnt_gitDiv_copyBtn : cnt selGitInfoDiv copyButtonDom = 0 := by
  simp [cnt, copyButtonDom, selGitInfoDiv]

theorem cnt_edit_copyBtn : cnt selEditBtn copyButtonDom = 0 := by
  simp [cnt, copyButtonDom, selEditBtn, List.lookup] <;> decide

theorem cnt_copyBtn_copyBtn : cnt selCopyBtn copyButtonDom = 1 := by
  simp [cnt, copyButtonDom, selCopyBtn, List.lookup] <;> decide

theorem cnt_comments_copyBtn : cnt selCommentsH2 copyButtonDom = 0 := by
  simp [cnt, copyButtonDom, selCommentsH2]

theorem cnt_inner_copyBtn : cnt selInner copyButtonDom = 0 := by
  simp [cnt, copyButtonDom, selInner, classHas, List.lookup] <;> decide

theorem cnt_mName_copyScript (k : String) : cnt (selMetaName k) copyScriptDom = 0 := by
  simp [cnt, copyScriptDom, selMetaName]

theorem cnt_mProp_copyScript (k : String) : cnt (selMetaProp k) copyScriptDom = 0 := by
  simp [cnt, copyScriptDom, selMetaProp]

theorem cnt_nameProp_copyScript : cnt selNameAndProp copyScriptDom = 0 := by
  simp [cnt, copyScriptDom, selNameAndProp]

theorem cnt_fa_copyScript : cnt selLinkFA copyScriptDom = 0 := by
  simp [cnt, copyScriptDom, selLinkFA]

theorem cnt_jsonld_copyScript : cnt selJsonLd copyScriptDom = 0 := by
  simp [cnt, copyScriptDom, selJsonLd, List.lookup]

theorem cnt_shareDiv_copyScript : cnt selShareDiv copyScriptDom = 0 := by
  simp [cnt, copyScriptDom, selShareDiv]

theorem cnt_gitDiv_copyScript : cnt selGitInfoDiv copyScriptDom = 0 := by
  simp [cnt, copyScriptDom, selGitInfoDiv]

theorem cnt_edit_copyScript : cnt selEditBtn copyScriptDom = 0 := by
  simp [cnt, copyScriptDom, selEditBtn]

theorem cnt_copyBtn_copyScript : cnt selCopyBtn copyScriptDom = 0 := by
  simp [cnt, copyScriptDom, selCopyBtn]

theorem cnt_comments_copyScript : cnt selCommentsH2 copyScriptDom = 0 := by
  simp [cnt, copyScriptDom, selCommentsH2]

theorem cnt_inner_copyScript : cnt selInner copyScriptDom = 0 := by
  simp [cnt, copyScriptDom, selInner, classHas, List.lookup] <;> decide

theorem cnt_mName_ldScript (k T : String) :
    cnt (selMetaName k) (.elem "script" [("type", "application/ld+json")] (.txt T .nil) .nil) = 0 := by
  simp [cnt, selMetaName]

theorem cnt_mProp_ldScript (k T : String) :
    cnt (selMetaProp k) (.elem "script" [("type", "application/ld+json")] (.txt T .nil) .nil) = 0 := by
  simp [cnt, selMetaProp]

theorem cnt_nameProp_ldScript (T : String) :
    cnt selNameAndProp (.elem "script" [("type", "application/ld+json")] (.txt T .nil) .nil) = 0 := by
  simp [cnt, selNameAndProp]

theorem cnt_fa_ldScript (T : String) :
    cnt selLinkFA (.elem "script" [("type", "application/ld+json")] (.txt T .nil) .nil) = 0 := by
  simp [cnt, selLinkFA]

theorem cnt_jsonld_ldScript (T : String) :
    cnt selJsonLd (.elem "script" [("type", "application/ld+json")] (.txt T .nil) .nil) = 1 := by
  simp [cnt, selJsonLd, List.lookup]

theorem cnt_shareDiv_ldScript (T : String) :
    cnt selShareDiv (.elem "script" [("type", "application/ld+json")] (.txt T .nil) .nil) = 0 := by
  simp [cnt, selShareDiv]

theorem cnt_gitDiv_ldScript (T : String) :
    cnt selGitInfoDiv (.elem "script" [("type", "application/ld+json")] (.txt T .nil) .nil) = 0 := by
  simp [cnt, selGitInfoDiv]

theorem cnt_edit_ldScript (T : String) :
    cnt selEditBtn (.elem "script" [("type", "application/ld+json")] (.txt T .nil) .nil) = 0 := by
  simp [cnt, selEditBtn]

theorem cnt_copyBtn_ldScript (T : String) :
    cnt selCopyBtn (.elem "script" [("type", "application/ld+json")] (.txt T .nil) .nil) = 0 := by
  simp [cnt, selCopyBtn]

theorem cnt_comments_ldScript (T : String) :
    cnt selCommentsH2 (.elem "script" [("type", "application/ld+json")] (.txt T .nil) .nil) = 0 := by
  simp [cnt, selCommentsH2]

theorem cnt_inner_ldScript (T : String) :
    cnt selInner (.elem "script" [("type", "application/ld+json")] (.txt T .nil) .nil) = 0 := by
  simp [cnt, selInner, classHas, List.lookup] <;> decide

theorem cnt_mName_share (cfg : Cfg) (k : String) : cnt (selMetaName k) (shareFrag cfg) = 0 := by
  simp [cnt, shareFrag, selMetaName]

theorem cnt_mProp_share (cfg : Cfg) (k : String) : cnt (selMetaProp k) (shareFrag cfg) = 0 := by
  simp [cnt, shareFrag, selMetaProp]

theorem cnt_nameProp_share (cfg : Cfg) : cnt selNameAndProp (shareFrag cfg) = 0 := by
  simp [cnt, shareFrag, selNameAndProp]

theorem cnt_fa_share (cfg : Cfg) : cnt selLinkFA (shareFrag cfg) = 0 := by
  simp [cnt, shareFrag, selLinkFA]

theorem cnt_jsonld_share (cfg : Cfg) : cnt selJsonLd (shareFrag cfg) = 0 := by
  simp [cnt, shareFrag, selJsonLd]

theorem cnt_shareDiv_share (cfg : Cfg) : cnt selShareDiv (shareFrag cfg) = 1 := by
  simp [cnt, shareFrag, selShareDiv, classHas, List.lookup] <;> decide

theorem cnt_gitDiv_share (cfg : Cfg) : cnt selGitInfoDiv (shareFrag cfg) = 0 := by
  simp [cnt, shareFrag, selGitInfoDiv, classHas, List.lookup] <;> decide

theorem cnt_edit_share (cfg : Cfg) : cnt selEditBtn (shareFrag cfg) = 0 := by
  simp [cnt, shareFrag, selEditBtn]

theorem cnt_copyBtn_share (cfg : Cfg) : cnt selCopyBtn (shareFrag cfg) = 0 := by
  simp [cnt, shareFrag, selCopyBtn]

theorem cnt_comments_share (cfg : Cfg) : cnt selCommentsH2 (shareFrag cfg) = 0 := by
  simp [cnt, shareFrag, selCommentsH2]

theorem cnt_inner_share (cfg : Cfg) : cnt selInner (shareFrag cfg) = 0 := by
  simp [cnt, shareFrag, selInner, classHas, List.lookup] <;> decide

/-! ## Step-level preservation lemmas -/

theorem docCnt_zero_of_imp {q r : Sel} (h : ∀ t a c, q t a c = true → r t a c = true)
    {d : SoupDoc} (hz : docCnt r d = 0) : docCnt q d = 0 := by
  simp only [docCnt, Nat.add_eq_zero] at hz ⊢
  exact ⟨cnt_zero_of_imp h hz.1, cnt_zero_of_imp h hz.2⟩

theorem docCnt_zero_pointwise {q : Sel} (h : ∀ t a c, q t a c = false) (d : SoupDoc) :
    docCnt q d = 0 := by
  simp [docCnt, cnt_zero_pointwise h]

/-- Updating the `content` of the first `p'`-match cannot break the
content invariant of a selector `p` that shares no element with `p'`. -/
theorem cnt_badSel_mapFirst_other {p p' : Sel} (hpcb : ChildBlind p)
    (hpc : ContentBlind p) (v v' : String) {d : Dom}
    (hdisj : cnt (fun t a c => p t a c && p' t a c) d = 0)
    (hz : cnt (badSel p v) d = 0) :
    cnt (badSel p v) (mapFirst p' (setAttr "content" v') d) = 0 := by
  induction d with
  | nil => simp [mapFirst, cnt]
  | elem t a c nx ihc ihn =>
    simp only [cnt, Nat.add_eq_zero] at hdisj hz
    obtain ⟨⟨hd0, hdc⟩, hdn⟩ := hdisj
    obtain ⟨⟨hz0, hzc⟩, hzn⟩ := hz
    by_cases hp' : p' t a c
    · have hpz : p t a c = false := by
        by_cases hp : p t a c
        · simp [hp, hp'] at hd0
        · simpa using hp
      simp only [mapFirst, hp', if_pos, cnt]
      have : badSel p v t (setAttr "content" v' a) c = false := by
        simp [badSel, hpc v' t a c, hpz]
      simp [this, hzc, hzn]
    · by_cases hsc : hasSel p' c
      · simp only [mapFirst, hp', ite_false, hsc, if_true, cnt]
        have hnode : badSel p v t a (mapFirst p' (setAttr "content" v') c) =
            badSel p v t a c := childBlind_badSel hpcb v t a _ c
        rw [hnode]
        simp [hz0, ihc hdc hzc, hzn]
      · simp only [mapFirst, hp', ite_false, hsc, cnt]
        simp [hz0, hzc, ihn hdn hzn]
  | txt s nx ihn =>
    simp only [cnt] at hdisj hz ⊢
    simpa [mapFirst, cnt] using ihn hdisj hz

theorem docCnt_badSel_docUpsertMeta_other {p p' : Sel} (hpcb : ChildBlind p)
    (hpc : ContentBlind p) {v v' : String} {mk' : Dom} {d : SoupDoc}
    (hdisj : docCnt (fun t a c => p t a c && p' t a c) d = 0)
    (hz : docCnt (badSel p v) d = 0) (hmk : cnt p mk' = 0) :
    docCnt (badSel p v) (docUpsertMeta p' mk' v' d) = 0 := by
  unfold docUpsertMeta
  by_cases hh : docHas p' d
  · simp only [hh, if_true]
    unfold docMapFirst
    simp only [docCnt, Nat.add_eq_zero] at hdisj hz
    by_cases hhd : hasSel p' d.hd <;>
      simp [hhd, docCnt,
        cnt_badSel_mapFirst_other hpcb hpc v v' hdisj.1 hz.1,
        cnt_badSel_mapFirst_other hpcb hpc v v' hdisj.2 hz.2, hz.1, hz.2]
  · simp [hh, docCnt_appendHead, hz, cnt_badSel_zero v hmk]

theorem docCnt_stepTitle_other {q : Sel} (hq : ∀ v, cnt q (mkMetaName "title" v) = 0)
    (cfg : Cfg) (d : SoupDoc) : docCnt q (stepTitle cfg d) = docCnt q d := by
  unfold stepTitle
  by_cases h : docHas (selMetaName "title") d <;> simp [h, docCnt_appendHead, hq]

theorem docCnt_stepFontAwesome_other {q : Sel} (hq : cnt q faLinkDom = 0)
    (cfg : Cfg) (d : SoupDoc) : docCnt q (stepFontAwesome cfg d) = docCnt q d := by
  unfold stepFontAwesome
  split <;> simp [docCnt_appendHead, hq]

theorem docCnt_stepKeywords_other {q : Sel} (hcb : ChildBlind q) (hcc : ContentBlind q)
    (hq : ∀ v, cnt q (mkMetaName "keywords" v) = 0)
    (cfg : Cfg) (d : SoupDoc) : docCnt q (stepKeywords cfg d) = docCnt q d := by
  unfold stepKeywords
  cases cfg.keywords with
  | none => rfl
  | some kw =>
    by_cases h : cfg.add_keywords && kw != ""
    · simp only [h, if_true]
      rw [docCnt_docUpsertMeta hcb hcc]
      by_cases hh : docHas (selMetaName "keywords") d <;> simp [hh, hq]
    · simp [h]

theorem docCnt_stepDescription_other {q : Sel} (hcb : ChildBlind q) (hcc : ContentBlind q)
    (hq : ∀ v, cnt q (mkMetaName "description" v) = 0)
    (cfg : Cfg) (meta : ExtractedMeta) (d : SoupDoc) :
    docCnt q (stepDescription cfg meta d) = docCnt q d := by
  unfold stepDescription
  cases meta.description with
  | none => rfl
  | some ds =>
    by_cases h : cfg.add_desc
    · simp only [h, if_true]
      rw [docCnt_docUpsertMeta hcb hcc]
      by_cases hh : docHas (selMetaName "description") d <;> simp [hh, hq]
    · simp [h]

theorem docCnt_upsertPropPairs_other {q : Sel} (hcb : ChildBlind q) (hcc : ContentBlind q)
    (hq : ∀ k v, cnt q (mkMetaProp k v) = 0)
    (ps : List (String × String)) (d : SoupDoc) :
    docCnt q (upsertPropPairs ps d) = docCnt q d := by
  induction ps generalizing d with
  | nil => rfl
  | cons kv rest ih =>
    unfold upsertPropPairs at ih ⊢
    simp only [List.foldl_cons]
    rw [ih]
    rw [docCnt_docUpsertMeta hcb hcc]
    by_cases hh : docHas (selMetaProp kv.1) d <;> simp [hh, hq]

theorem docCnt_stepOgImage_other {q : Sel} (hcb : ChildBlind q) (hcc : ContentBlind q)
    (hq : ∀ v, cnt q (mkMetaProp "og:image" v) = 0)
    (cfg : Cfg) (meta : ExtractedMeta) (d : SoupDoc) :
    docCnt q (stepOgImage cfg meta d) = docCnt q d := by
  unfold stepOgImage
  cases meta.image with
  | none => rfl
  | some im =>
    by_cases h : cfg.add_image
    · simp only [h, if_true]
      rw [docCnt_docUpsertMeta hcb hcc]
      by_cases hh : docHas (selMetaProp "og:image") d <;> simp [hh, hq]
    · simp [h]

theorem docCnt_stepTwitterImage_other {q : Sel}
    (hq : ∀ v, cnt q (mkMetaProp "twitter:image" v) = 0)
    (cfg : Cfg) (meta : ExtractedMeta) (d : SoupDoc) :
    docCnt q (stepTwitterImage cfg meta d) = docCnt q d := by
  unfold stepTwitterImage
  split
  · by_cases h : (cfg.add_image && !docHas (selMetaProp "twitter:image") d) = true
    · rw [if_pos h, docCnt_appendHead, hq, Nat.add_zero]
    · rw [if_neg h]
  · rfl

theorem docCnt_stepCopyScript_other {q : Sel} (hscript : cnt q copyScriptDom = 0)
    (d : SoupDoc) : docCnt q (stepCopyScript d) = docCnt q d := by
  unfold stepCopyScript
  split
  · rw [docCnt_appendBody, hscript, Nat.add_zero]
  · rfl

theorem docCnt_stepCopyLlm_other {q : Sel} (hcb : ChildBlind q)
    (hbtn : cnt q copyButtonDom = 0) (hscript : cnt q copyScriptDom = 0)
    (cfg : Cfg) (d : SoupDoc) : docCnt q (stepCopyLlm cfg d) = docCnt q d := by
  unfold stepCopyLlm
  split
  · rw [docCnt_stepCopyScript_other hscript, docCnt_docSplice hcb]
    simp [hbtn]
  · rfl

theorem stepFooter_off {cfg : Cfg} {env : Env} {git : GitInfo}
    (hoff : rendersFooter cfg env git = false) (d : SoupDoc) :
    stepFooter cfg env git d = d := by
  simp [stepFooter, hoff]

theorem docCnt_stepJsonLd_other {q : Sel}
    (hq : ∀ T, cnt q (.elem "script" [("type", "application/ld+json")] (.txt T .nil) .nil) = 0)
    (cfg : Cfg) (env : Env) (git : GitInfo) (meta : ExtractedMeta) (d : SoupDoc) :
    docCnt q (stepJsonLd cfg env git meta d) = docCnt q d := by
  unfold stepJsonLd
  split <;> simp [docCnt_appendHead, hq]

theorem docCnt_stepShare_other {q : Sel} (hcb : ChildBlind q)
    (hq : cnt q (shareFrag cfg) = 0)
    (d : SoupDoc) : docCnt q (stepShare cfg d) = docCnt q d := by
  unfold stepShare
  split
  · rw [docCnt_insert_content hcb]
    simp [hq]
  · rfl

/-! ## Claim C7 — missing `<head>` is a no-op -/

/-- Claim C7: for every input HTML document with no `<head>` element, the
enrichment step returns the original document unmodified and raises no
error (processor.py lines 228-234 return the input string untouched). -/
theorem process_html_missing_head (cfg : Cfg) (env : Env) (git : GitInfo) (pg : Page)
    (h : pg.head = none) : process_html cfg env git pg = pg := by
  unfold process_html
  rw [h]

/-- Witness for `process_html_missing_head` at a concrete head-less page. -/
theorem process_html_missing_head_witness :
    pageNoHead.head = none ∧ process_html cfgEx envEx gitEx pageNoHead = pageNoHead :=
  ⟨rfl, process_html_missing_head cfgEx envEx gitEx pageNoHead rfl⟩

/-! ## Claim C9 — relative-age bucketing -/

/-- Claim C9: the relative age rendered in the footer is bucketed as whole
days below 30, months (integer division by 30) below 365 days, years
(integer division by 365) otherwise, with the singular noun exactly at a
count of 1; in particular 45 days renders "1 month", 400 days "1 year" and
3 days "3 days" (utils.py lines 41-51). -/
theorem calculate_time_difference_buckets (n : Nat) :
    (n < 30 → timeDifferenceString n =
      toString n ++ " day" ++ (if n = 1 then "" else "s")) ∧
    (30 ≤ n → n < 365 → timeDifferenceString n =
      toString (n / 30) ++ " month" ++ (if n / 30 = 1 then "" else "s")) ∧
    (365 ≤ n → timeDifferenceString n =
      toString (n / 365) ++ " year" ++ (if n / 365 = 1 then "" else "s")) ∧
    timeDifferenceString 45 = "1 month" ∧
    timeDifferenceString 400 = "1 year" ∧
    timeDifferenceString 3 = "3 days" := by
  refine ⟨?_, ?_, ?_, by decide, by decide, by decide⟩
  · intro h
    by_cases h1 : n = 1 <;> simp [timeDifferenceString, h, h1]
  · intro h30 h365
    have hn : ¬ n < 30 := by omega
    by_cases h1 : n / 30 = 1 <;> simp [timeDifferenceString, hn, h365, h1]
  · intro h365
    have hn : ¬ n < 30 := by omega
    have hn2 : ¬ n < 365 := by omega
    by_cases h1 : n / 365 = 1 <;> simp [timeDifferenceString, hn, hn2, h1]

/-- Witness for `calculate_time_difference_buckets`: the month bucket at 45
days. -/
theorem calculate_time_difference_buckets_witness :
    30 ≤ 45 ∧ 45 < 365 ∧ timeDifferenceString 45 = "1 month" :=
  ⟨by decide, by decide,
    (calculate_time_difference_buckets 45).2.1 (by decide) (by decide)⟩

/-! ## Claim C3 — sentinel dates never render a footer -/

/-- Under a disabled footer gate, the whole pipeline adds no
`div.git-info` element. -/
theorem docCnt_gitDiv_core (cfg : Cfg) (env : Env) (git : GitInfo)
    (hoff : rendersFooter cfg env git = false) (d : SoupDoc) :
    docCnt selGitInfoDiv (process_htmlCore cfg env git d) = docCnt selGitInfoDiv d := by
  simp only [process_htmlCore]
  rw [docCnt_stepShare_other childBlind_selGitInfoDiv (cnt_gitDiv_share cfg),
    docCnt_stepJsonLd_other (fun T => cnt_gitDiv_ldScript T),
    stepFooter_off hoff,
    docCnt_stepCopyLlm_other childBlind_selGitInfoDiv cnt_gitDiv_copyBtn cnt_gitDiv_copyScript,
    docCnt_stepTwitterImage_other (fun v => cnt_gitDiv_mkProp "twitter:image" v),
    docCnt_upsertPropPairs_other childBlind_selGitInfoDiv contentBlind_selGitInfoDiv
      (fun k v => cnt_gitDiv_mkProp k v),
    docCnt_stepOgImage_other childBlind_selGitInfoDiv contentBlind_selGitInfoDiv
      (fun v => cnt_gitDiv_mkProp "og:image" v),
    docCnt_upsertPropPairs_other childBlind_selGitInfoDiv contentBlind_selGitInfoDiv
      (fun k v => cnt_gitDiv_mkProp k v),
    docCnt_stepDescription_other childBlind_selGitInfoDiv contentBlind_selGitInfoDiv
      (fun v => cnt_gitDiv_mkName "description" v),
    docCnt_stepKeywords_other childBlind_selGitInfoDiv contentBlind_selGitInfoDiv
      (fun v => cnt_gitDiv_mkName "keywords" v),
    docCnt_stepFontAwesome_other cnt_gitDiv_fa,
    docCnt_stepTitle_other (fun v => cnt_gitDiv_mkName "title" v)]

/-- Claim C3: for every file whose git record carries only the placeholder
dates and no authors entry, the rendered authorship footer is suppressed
entirely — the processed page holds exactly as many `div.git-info`
elements as the input (processor.py lines 380-397 gate the footer on
`has_real_git_data`). -/
theorem sentinel_footer_suppressed (cfg : Cfg) (env : Env) (git : GitInfo) (pg : Page)
    (h1 : git.creation_date = env.dfltCreationDate)
    (h2 : git.last_modified_date = env.dfltModifiedDate)
    (h3 : git.authors = none) :
    docCnt selGitInfoDiv (pageDoc (process_html cfg env git pg)) =
      docCnt selGitInfoDiv (pageDoc pg) := by
  have hreal : hasRealGitData env git = false := by
    simp [hasRealGitData, h1, h2, h3]
  have hoff : rendersFooter cfg env git = false := by
    simp [rendersFooter, hreal]
  unfold process_html
  cases hh : pg.head with
  | none => rfl
  | some h =>
    have := docCnt_gitDiv_core cfg env git hoff ⟨h, pg.body⟩
    simpa [pageDoc, hh, docCnt] using this

/-- Witness for `sentinel_footer_suppressed` at a concrete page and a git
oracle that reports only the placeholders. -/
theorem sentinel_footer_suppressed_witness :
    gitEx.creation_date = envEx.dfltCreationDate ∧
    gitEx.last_modified_date = envEx.dfltModifiedDate ∧
    gitEx.authors = none ∧
    docCnt selGitInfoDiv (pageDoc (process_html cfgEx envEx gitEx pageHello)) =
      docCnt selGitInfoDiv (pageDoc pageHello) :=
  ⟨rfl, rfl, rfl, sentinel_footer_suppressed cfgEx envEx gitEx pageHello rfl rfl rfl⟩

/-! ## Claim C5 — the shared insertion rule -/

/-- Claim C5: every decorator fragment goes through one shared rule with
exactly one insertion — immediately before the comments anchor when it
exists, else appended to the content container, else silently dropped with
the document unchanged (processor.py lines 99-104).  The first conjunct
counts the single insertion; the second is the drop case; the remaining
conjuncts pin the two insertion positions on concrete documents (the first
also shows the anchor is preferred when both targets exist). -/
theorem insert_content_shared_rule :
    (∀ (d : SoupDoc) (frag : Dom) (q : Sel), ChildBlind q →
      docCnt q (insert_content frag d) =
        docCnt q d + (if docHas selCommentsH2 d || docHas selInner d then cnt q frag else 0)) ∧
    (∀ (d : SoupDoc) (frag : Dom), docHas selCommentsH2 d = false →
      docHas selInner d = false → insert_content frag d = d) ∧
    insert_content fragEx docWithAnchor =
      ⟨.nil, .elem "div" [("class", "md-content__inner")]
        (.elem "div" [("class", "share-buttons")] .nil
          (.elem "h2" [("id", "__comments")] .nil .nil)) .nil⟩ ∧
    insert_content fragEx docWithInnerOnly =
      ⟨.nil, .elem "div" [("class", "md-content__inner")]
        (.elem "p" [] (.txt "x" .nil)
          (.elem "div" [("class", "share-buttons")] .nil .nil)) .nil⟩ ∧
    insert_content fragEx docPlain = docPlain :=
  ⟨fun d frag q hq => docCnt_insert_content hq frag d,
   fun d frag h1 h2 => insert_content_id h1 h2,
   by decide, by decide, by decide⟩

/-- Witness for `insert_content_shared_rule`: the counting rule applied at
a concrete document/fragment/selector, and the drop rule applied at a
document with neither insertion target. -/
theorem insert_content_shared_rule_witness :
    (docCnt selShareDiv (insert_content fragEx docWithInnerOnly) =
      docCnt selShareDiv docWithInnerOnly +
        (if docHas selCommentsH2 docWithInnerOnly || docHas selInner docWithInnerOnly then
          cnt selShareDiv fragEx else 0)) ∧
    insert_content (.elem "br" [] .nil .nil) docPlain = docPlain :=
  ⟨insert_content_shared_rule.1 docWithInnerOnly fragEx selShareDiv childBlind_selShareDiv,
   insert_content_shared_rule.2.1 docPlain (.elem "br" [] .nil .nil) (by decide) (by decide)⟩

/-! ## Claim C6 — FAQ extraction -/

/-- Claim C6: the FAQ extractor returns the ordered question/answer pairs
of the `h2 FAQ` section — on the spec example it yields exactly
`("Q1?", "A1.")` then `("Q2?", "A2.")` — and an `h3` question with no
paragraph text before the next heading contributes no entry
(processor.py lines 65-96). -/
theorem parse_faq_section (attrs : List (String × String)) (c nx : Dom)
    (hempty : faqAnswerText nx = "") :
    parse_faq faqExampleDoc = [("Q1?", "A1."), ("Q2?", "A2.")] ∧
    faqEntries (.elem "h3" attrs c nx) = faqEntries nx := by
  constructor
  · decide
  · simp [faqEntries, hempty]

/-- Witness for `parse_faq_section`: a question heading followed directly
by the end of the sibling chain is dropped. -/
theorem parse_faq_section_witness :
    faqAnswerText .nil = "" ∧
    faqEntries (.elem "h3" [] (.txt "Orphan question?" .nil) .nil) = faqEntries .nil :=
  ⟨rfl, (parse_faq_section [] (.txt "Orphan question?" .nil) .nil rfl).2⟩

/-! ## Claim C8 — batch resilience -/

/-- Counterexample to claim C8 as stated: with the single-worker path
(postprocess.py lines 325-330 run the files in a plain loop with no
exception handler), a file whose processing raises — e.g. a
permission-denied read, which `process_html_file` does not catch — aborts
the batch: the remaining file is never attempted and no `processed = N-1`
summary is produced, contradicting "the orchestrator does not abort ...
no exception escapes the per-file boundary". -/
theorem postprocess_seq_aborts_counterexample :
    postprocess_seq [.ok, .raisesExc, .ok] = .error "unhandled per-file exception" ∧
    ∀ n : Nat, postprocess_seq [.ok, .raisesExc, .ok] ≠ .ok n :=
  ⟨rfl, fun n h => Except.noConfusion h⟩

theorem okCount_add_failedCount (l : List FileEvent) :
    okCount l + failedCount l = l.length := by
  unfold okCount failedCount
  induction l with
  | nil => simp
  | cons g r ihr =>
    simp only [List.countP_cons, List.length_cons]
    cases hg : (g == FileEvent.ok) <;> simp [hg] <;> omega

/-- Claim C8 as amended: in the worker-pool path every file is attempted,
no exception escapes (the fold is total), and the summary reports
`processed = N - #failed`; the sequential single-worker path satisfies the
same only when no file raises an uncaught exception — handled read
failures (decode/missing file) and write failures are counted, not fatal
(postprocess.py lines 80-134 and 325-360). -/
theorem postprocess_batch_amended (evs : List FileEvent) :
    postprocess_pool evs = okCount evs ∧
    okCount evs = evs.length - failedCount evs ∧
    ((∀ e ∈ evs, e ≠ FileEvent.raisesExc) → postprocess_seq evs = .ok (okCount evs)) := by
  refine ⟨?_, ?_, ?_⟩
  · have key : ∀ (l : List FileEvent) (acc : Nat),
        l.foldl (fun acc f =>
          acc + match process_html_file f with | .ok true => 1 | _ => 0) acc =
          acc + okCount l := by
      intro l
      induction l with
      | nil => intro acc; simp [okCount]
      | cons f rest ih =>
        intro acc
        simp only [List.foldl_cons, ih, okCount, List.countP_cons]
        cases f <;> simp [process_html_file] <;> omega
    simpa [postprocess_pool, okCount] using key evs 0
  · have := okCount_add_failedCount evs
    omega
  · induction evs with
    | nil => intro _; simp [postprocess_seq, okCount]
    | cons f rest ih =>
      intro hall
      have hf : f ≠ FileEvent.raisesExc := hall f (by simp)
      have hrest := ih (fun e he => hall e (by simp [he]))
      cases f with
      | ok =>
        simp [postprocess_seq, process_html_file, hrest, okCount, List.countP_cons]
        omega
      | readFail => simp [postprocess_seq, process_html_file, hrest, okCount, List.countP_cons]
      | writeFail => simp [postprocess_seq, process_html_file, hrest, okCount, List.countP_cons]
      | raisesExc => exact absurd rfl hf

/-- Witness for `postprocess_batch_amended`: three files, one unwritable —
the pool reports `processed = N - 1 = 2` and the sequential path agrees. -/
theorem postprocess_batch_amended_witness :
    postprocess_pool [.ok, .writeFail, .ok] =
      [FileEvent.ok, .writeFail, .ok].length - failedCount [.ok, .writeFail, .ok] ∧
    postprocess_seq [.ok, .writeFail, .ok] = .ok (okCount [.ok, .writeFail, .ok]) := by
  constructor
  · rw [(postprocess_batch_amended [.ok, .writeFail, .ok]).1,
      (postprocess_batch_amended [.ok, .writeFail, .ok]).2.1]
  · exact (postprocess_batch_amended [.ok, .writeFail, .ok]).2.2 (by decide)

/-! ## Claim C10 — same-username emails overwrite the change count -/

/-- Claim C10: when two distinct author emails of one file resolve to the
same username, the per-file author table keeps a single entry for that
username whose change count is the count of the last-processed email —
`info[username or email] = {..., "changes": changes, ...}` overwrites, it
does not sum (utils.py lines 200-213).  Both noreply addresses resolve to
`alice` without network lookups, and the surviving entry records `c2`. -/
theorem author_changes_overwritten (net : Net) (c1 c2 : Nat) :
    (get_github_usernames_from_file net none none [(noreply1, c1), (noreply2, c2)] []).1 =
      [("alice",
        ⟨noreply2, "https://github.com/alice", c2, "https://github.com/alice.png"⟩)] := by
  rfl

/-! ## Claim C4 — identity-resolver caching -/

theorem lookup_append_right_of_none {c : AuthorCache} {k : String}
    (h : c.lookup k = none) (v : Option String × Option String) :
    (c ++ [(k, v)]).lookup k = some v := by
  induction c with
  | nil => simp [List.lookup]
  | cons hd tl ih =>
    obtain ⟨k0, v0⟩ := hd
    by_cases hk : k = k0
    · simp [List.lookup, hk] at h
    · have hk2 : (k == k0) = false := by simp [hk]
      simp only [List.lookup, hk2] at h
      simpa [List.lookup, hk2] using ih h

/-- Counterexample to claim C4 as stated: for an email resolved through
the GitHub search API with a redirecting avatar `HEAD`, the first call
performs two HTTP requests (the `GET` search plus the avatar `HEAD`,
utils.py lines 128-141), violating "at most one underlying network call
total"; and the second call returns the cached redirect-resolved avatar
URL while the first returned the raw one, so the two results are not
identical either. -/
theorem resolver_cache_counterexample :
    ¬((get_github_username_from_email netEx
        (get_github_username_from_email netEx [] "a@b.com").2.1 "a@b.com").1 =
        (get_github_username_from_email netEx [] "a@b.com").1 ∧
      (get_github_username_from_email netEx [] "a@b.com").2.2 +
        (get_github_username_from_email netEx
          (get_github_username_from_email netEx [] "a@b.com").2.1 "a@b.com").2.2 ≤ 1) := by
  decide

/-- Claim C4 as amended: calling the resolver twice on the same email with
one cache yields identical usernames; the second call performs no network
requests at all (in particular an email cached as `{null, null}` never
re-triggers a lookup and stays `{null, null}`); the two calls together
perform at most two requests (one lookup plus at most one avatar `HEAD`);
and the second call's avatar equals the first's up to the cached
`HEAD`-redirect resolution (utils.py lines 87-148). -/
theorem resolver_second_call (net : Net) (cache : AuthorCache) (email : String)
    (r1 r2 : (Option String × Option String) × AuthorCache × Nat)
    (h1 : r1 = get_github_username_from_email net cache email)
    (h2 : r2 = get_github_username_from_email net r1.2.1 email) :
    r2.2.2 = 0 ∧ r2.1.1 = r1.1.1 ∧ r1.2.2 + r2.2.2 ≤ 2 ∧
    (r1.1 = (none, none) → r2.1 = (none, none)) ∧
    (r2.1.2 = r1.1.2 ∨ r2.1.2 = r1.1.2.map net.headUrl) := by
  subst h1 h2
  cases hc : cache.lookup email with
  | some v =>
    simp [get_github_username_from_email, hc]
  | none =>
    by_cases hs : sStrip email = ""
    · simp [get_github_username_from_email, hc, hs]
    · by_cases he : sEndsWith email "@users.noreply.github.com"
      · simp only [get_github_username_from_email, hc, hs, he]
        simp only [beq_iff_eq, hs, if_false, he, if_true]
        rw [lookup_append_right_of_none hc]
        simp
      · cases hsearch : net.searchHit email with
        | some hit =>
          obtain ⟨login, av⟩ := hit
          simp only [get_github_username_from_email, hc, hs, he, hsearch]
          simp only [beq_iff_eq, hs, if_false, he, Bool.false_eq_true, hsearch]
          rw [lookup_append_right_of_none hc]
          simp
        | none =>
          simp only [get_github_username_from_email, hc, hs, he, hsearch]
          simp only [beq_iff_eq, hs, if_false, he, Bool.false_eq_true, hsearch]
          rw [lookup_append_right_of_none hc]
          simp

/-- Witness for `resolver_second_call`: a negative resolution is cached as
`{null, null}` and the second call returns it without any request. -/
theorem resolver_second_call_witness :
    (get_github_username_from_email netEx [] "x@y").1 = (none, none) ∧
    (get_github_username_from_email netEx
      (get_github_username_from_email netEx [] "x@y").2.1 "x@y").1 = (none, none) ∧
    (get_github_username_from_email netEx
      (get_github_username_from_email netEx [] "x@y").2.1 "x@y").2.2 = 0 :=
  ⟨by decide,
   (resolver_second_call netEx [] "x@y" _ _ rfl rfl).2.2.2.1 (by decide),
   (resolver_second_call netEx [] "x@y" _ _ rfl rfl).1⟩

/-! ## Footer payload catalog -/

theorem cnt_tagMeta_authorLinks (l : List (String × String × Nat × String)) :
    cnt (fun t _ _ => t == "meta") (authorLinks l) = 0 := by
  induction l with
  | nil => simp [authorLinks, cnt]
  | cons hd tl ih =>
    obtain ⟨name, url, n, avatar⟩ := hd
    simp [authorLinks, cnt, ih]

theorem cnt_tagMeta_footerFrag (env : Env) (gi : GitInfo) :
    cnt (fun t _ _ => t == "meta") (footerFrag env gi) = 0 := by
  cases hga : gi.authors with
  | none => simp [footerFrag, cnt, hga]
  | some l => simp [footerFrag, cnt, hga, cnt_tagMeta_authorLinks]

theorem cnt_tagMeta_styleDom : cnt (fun t _ _ => t == "meta") styleDom = 0 := by
  simp [styleDom, cnt]

theorem selMetaName_imp_tagMeta (k : String) :
    ∀ t a c, selMetaName k t a c = true → (t == "meta") = true := by
  intro t a c h
  simp only [selMetaName, Bool.and_eq_true] at h
  exact h.1

theorem selMetaProp_imp_tagMeta (k : String) :
    ∀ t a c, selMetaProp k t a c = true → (t == "meta") = true := by
  intro t a c h
  simp only [selMetaProp, Bool.and_eq_true] at h
  exact h.1

theorem selNameAndProp_imp_tagMeta :
    ∀ t a c, selNameAndProp t a c = true → (t == "meta") = true := by
  intro t a c h
  simp only [selNameAndProp, Bool.and_eq_true] at h
  exact h.1.1

theorem cnt_mName_footerFrag (k : String) (env : Env) (gi : GitInfo) :
    cnt (selMetaName k) (footerFrag env gi) = 0 :=
  cnt_zero_of_imp (selMetaName_imp_tagMeta k) (cnt_tagMeta_footerFrag env gi)

theorem cnt_mProp_footerFrag (k : String) (env : Env) (gi : GitInfo) :
    cnt (selMetaProp k) (footerFrag env gi) = 0 :=
  cnt_zero_of_imp (selMetaProp_imp_tagMeta k) (cnt_tagMeta_footerFrag env gi)

theorem cnt_nameProp_footerFrag (env : Env) (gi : GitInfo) :
    cnt selNameAndProp (footerFrag env gi) = 0 :=
  cnt_zero_of_imp selNameAndProp_imp_tagMeta (cnt_tagMeta_footerFrag env gi)

theorem cnt_mName_styleDom (k : String) : cnt (selMetaName k) styleDom = 0 :=
  cnt_zero_of_imp (selMetaName_imp_tagMeta k) cnt_tagMeta_styleDom

theorem cnt_mProp_styleDom (k : String) : cnt (selMetaProp k) styleDom = 0 :=
  cnt_zero_of_imp (selMetaProp_imp_tagMeta k) cnt_tagMeta_styleDom

theorem cnt_nameProp_styleDom : cnt selNameAndProp styleDom = 0 :=
  cnt_zero_of_imp selNameAndProp_imp_tagMeta cnt_tagMeta_styleDom

/-! ## Tail preservation through the post-description steps -/

theorem contentBlind_selNameAndProp : ContentBlind selNameAndProp := by
  intro v t a c
  simp [selNameAndProp, lookup_setAttr_ne (show "name" ≠ "content" by decide),
    lookup_setAttr_ne (show "property" ≠ "content" by decide)]

theorem childBlind_selNameAndProp : ChildBlind selNameAndProp := fun _ _ _ _ => rfl

theorem name_and_prop_imp (k k' : String) :
    ∀ t a c, (selMetaName k t a c && selMetaProp k' t a c) = true →
      selNameAndProp t a c = true := by
  intro t a c h
  simp only [Bool.and_eq_true, selMetaName, selMetaProp, beq_iff_eq] at h
  simp only [selNameAndProp, Bool.and_eq_true, beq_iff_eq]
  refine ⟨⟨h.1.1, ?_⟩, ?_⟩
  · simp [h.1.2]
  · simp [h.2.2]

theorem docCnt_stepFooterStyle_other {q : Sel} (hstyle : cnt q styleDom = 0)
    (cfg : Cfg) (d : SoupDoc) : docCnt q (stepFooterStyle cfg d) = docCnt q d := by
  unfold stepFooterStyle
  split
  · rw [docCnt_appendHead, hstyle, Nat.add_zero]
  · rfl

theorem docCnt_stepFooter_other {q : Sel} (hcb : ChildBlind q)
    (hfrag : ∀ gi, cnt q (footerFrag env gi) = 0) (hstyle : cnt q styleDom = 0)
    (cfg : Cfg) (git : GitInfo) (d : SoupDoc) :
    docCnt q (stepFooter cfg env git d) = docCnt q d := by
  unfold stepFooter
  split
  · rw [docCnt_insert_content hcb, hfrag, docCnt_stepFooterStyle_other hstyle]
    simp
  · rfl

/-- One `property`-keyed upsert preserves the content invariant of a
`name`-keyed selector together with the name-and-property freedom. -/
theorem badSel_name_docUpsertProp (k v k' v' : String) (d : SoupDoc)
    (hbad : docCnt (badSel (selMetaName k) v) d = 0)
    (hnp : docCnt selNameAndProp d = 0) :
    docCnt (badSel (selMetaName k) v)
      (docUpsertMeta (selMetaProp k') (mkMetaProp k' v') v' d) = 0 ∧
    docCnt selNameAndProp
      (docUpsertMeta (selMetaProp k') (mkMetaProp k' v') v' d) = 0 := by
  constructor
  · exact docCnt_badSel_docUpsertMeta_other (childBlind_selMetaName k)
      (contentBlind_selMetaName k)
      (docCnt_zero_of_imp (name_and_prop_imp k k') hnp) hbad (cnt_mName_mkProp k k' v')
  · rw [docCnt_docUpsertMeta childBlind_selNameAndProp
      (fun v t a c => contentBlind_selNameAndProp v t a c)]
    by_cases hh : docHas (selMetaProp k') d <;> simp [hh, hnp, cnt_nameProp_mkProp]

/-- The `for prop, value in [...]` loops preserve the content invariant of
a `name`-keyed selector. -/
theorem badSel_name_upsertPropPairs (k v : String) (ps : List (String × String))
    (d : SoupDoc)
    (hbad : docCnt (badSel (selMetaName k) v) d = 0)
    (hnp : docCnt selNameAndProp d = 0) :
    docCnt (badSel (selMetaName k) v) (upsertPropPairs ps d) = 0 ∧
    docCnt selNameAndProp (upsertPropPairs ps d) = 0 := by
  induction ps generalizing d with
  | nil => exact ⟨hbad, hnp⟩
  | cons kv rest ih =>
    have step := badSel_name_docUpsertProp k v kv.1 kv.2 d hbad hnp
    unfold upsertPropPairs at ih ⊢
    simp only [List.foldl_cons]
    exact ih _ step.1 step.2

/-- All steps after the description upsert leave the count of any
`name`-keyed meta selector unchanged. -/
theorem docCnt_mName_tail (k : String) (cfg : Cfg) (env : Env) (git : GitInfo)
    (meta : ExtractedMeta) (ps1 ps2 : List (String × String)) (d : SoupDoc) :
    docCnt (selMetaName k)
      (stepShare cfg (stepJsonLd cfg env git meta (stepFooter cfg env git
        (stepCopyLlm cfg (stepTwitterImage cfg meta
          (upsertPropPairs ps2 (stepOgImage cfg meta (upsertPropPairs ps1 d)))))))) =
      docCnt (selMetaName k) d := by
  rw [docCnt_stepShare_other (childBlind_selMetaName k) (cnt_mName_share cfg k),
    docCnt_stepJsonLd_other (fun T => cnt_mName_ldScript k T),
    docCnt_stepFooter_other (childBlind_selMetaName k)
      (fun gi => cnt_mName_footerFrag k env gi) (cnt_mName_styleDom k),
    docCnt_stepCopyLlm_other (childBlind_selMetaName k) (cnt_mName_copyBtn k)
      (cnt_mName_copyScript k),
    docCnt_stepTwitterImage_other (fun v => cnt_mName_mkProp k "twitter:image" v),
    docCnt_upsertPropPairs_other (childBlind_selMetaName k) (contentBlind_selMetaName k)
      (fun k' v => cnt_mName_mkProp k k' v),
    docCnt_stepOgImage_other (childBlind_selMetaName k) (contentBlind_selMetaName k)
      (fun v => cnt_mName_mkProp k "og:image" v),
    docCnt_upsertPropPairs_other (childBlind_selMetaName k) (contentBlind_selMetaName k)
      (fun k' v => cnt_mName_mkProp k k' v)]

/-- All steps after the description upsert preserve the content invariant
of a `name`-keyed selector. -/
theorem docCnt_badSel_name_tail (k v : String) (cfg : Cfg) (env : Env) (git : GitInfo)
    (meta : ExtractedMeta) (ps1 ps2 : List (String × String)) (d : SoupDoc)
    (hbad : docCnt (badSel (selMetaName k) v) d = 0)
    (hnp : docCnt selNameAndProp d = 0) :
    docCnt (badSel (selMetaName k) v)
      (stepShare cfg (stepJsonLd cfg env git meta (stepFooter cfg env git
        (stepCopyLlm cfg (stepTwitterImage cfg meta
          (upsertPropPairs ps2 (stepOgImage cfg meta (upsertPropPairs ps1 d)))))))) = 0 := by
  have h1 := badSel_name_upsertPropPairs k v ps1 d hbad hnp
  have h2 : docCnt (badSel (selMetaName k) v)
        (stepOgImage cfg meta (upsertPropPairs ps1 d)) = 0 ∧
      docCnt selNameAndProp (stepOgImage cfg meta (upsertPropPairs ps1 d)) = 0 := by
    unfold stepOgImage
    cases meta.image with
    | none => exact h1
    | some im =>
      by_cases h : cfg.add_image
      · simp only [h, if_true]
        exact badSel_name_docUpsertProp k v "og:image" im _ h1.1 h1.2
      · simp only [h, Bool.false_eq_true, if_false]
        exact h1
  have h3 := badSel_name_upsertPropPairs k v ps2 _ h2.1 h2.2
  have hcb : ChildBlind (badSel (selMetaName k) v) :=
    childBlind_badSel (childBlind_selMetaName k) v
  rw [docCnt_stepShare_other hcb (cnt_badSel_zero v (cnt_mName_share cfg k)),
    docCnt_stepJsonLd_other (fun T => cnt_badSel_zero v (cnt_mName_ldScript k T)),
    docCnt_stepFooter_other hcb
      (fun gi => cnt_badSel_zero v (cnt_mName_footerFrag k env gi))
      (cnt_badSel_zero v (cnt_mName_styleDom k)),
    docCnt_stepCopyLlm_other hcb (cnt_badSel_zero v (cnt_mName_copyBtn k))
      (cnt_badSel_zero v (cnt_mName_copyScript k)),
    docCnt_stepTwitterImage_other
      (fun v' => cnt_badSel_zero v (cnt_mName_mkProp k "twitter:image" v'))]
  exact h3.1

/-! ## Claim C2 — the description length gate -/

/-- Counting the injected `meta name="description"` through the whole
pipeline: starting from a page without one, the processed page carries one
exactly when the extractor produced a description, and every such tag then
carries the extracted (truncated) text. -/
theorem docCnt_desc_core (cfg : Cfg) (env : Env) (git : GitInfo) (d0 : SoupDoc)
    (h0 : docCnt (selMetaName "description") d0 = 0)
    (hnp : docCnt selNameAndProp d0 = 0) :
    docCnt (selMetaName "description") (process_htmlCore cfg env git d0) =
      (if (extractDescription cfg d0).isSome then 1 else 0) ∧
    (∀ ds, extractDescription cfg d0 = some ds →
      docCnt (badSel (selMetaName "description") ds)
        (process_htmlCore cfg env git d0) = 0) := by
  simp only [process_htmlCore]
  have hpre : docCnt (selMetaName "description")
      (stepKeywords cfg (stepFontAwesome cfg (stepTitle cfg d0))) = 0 := by
    rw [docCnt_stepKeywords_other (childBlind_selMetaName _) (contentBlind_selMetaName _)
        (fun v => by simpa using cnt_mName_mkName "description" "keywords" v),
      docCnt_stepFontAwesome_other (cnt_mName_fa _),
      docCnt_stepTitle_other (fun v => by simpa using cnt_mName_mkName "description" "title" v)]
    exact h0
  have hnpre : docCnt selNameAndProp
      (stepKeywords cfg (stepFontAwesome cfg (stepTitle cfg d0))) = 0 := by
    rw [docCnt_stepKeywords_other childBlind_selNameAndProp contentBlind_selNameAndProp
        (fun v => cnt_nameProp_mkName "keywords" v),
      docCnt_stepFontAwesome_other cnt_nameProp_fa,
      docCnt_stepTitle_other (fun v => cnt_nameProp_mkName "title" v)]
    exact hnp
  cases hex : extractDescription cfg d0 with
  | none =>
    have hmd : (extractMeta cfg d0).description = none := by simp [extractMeta, hex]
    have hstep : stepDescription cfg (extractMeta cfg d0)
        (stepKeywords cfg (stepFontAwesome cfg (stepTitle cfg d0))) =
        stepKeywords cfg (stepFontAwesome cfg (stepTitle cfg d0)) := by
      unfold stepDescription
      rw [hmd]
    constructor
    · rw [docCnt_mName_tail, hstep, hpre]
      simp
    · intro ds hds
      exact absurd hds (by simp)
  | some ds =>
    have had : cfg.add_desc = true := by
      by_cases h : cfg.add_desc
      · exact h
      · simp [extractDescription, h] at hex
    have hmd : (extractMeta cfg d0).description = some ds := by simp [extractMeta, hex]
    have hstep : stepDescription cfg (extractMeta cfg d0)
        (stepKeywords cfg (stepFontAwesome cfg (stepTitle cfg d0))) =
        docUpsertMeta (selMetaName "description") (mkMetaName "description" ds) ds
          (stepKeywords cfg (stepFontAwesome cfg (stepTitle cfg d0))) := by
      unfold stepDescription
      rw [hmd, had]
      simp
    have hnothas : docHas (selMetaName "description")
        (stepKeywords cfg (stepFontAwesome cfg (stepTitle cfg d0))) = false :=
      (docHas_eq_false_iff _ _).mpr hpre
    constructor
    · rw [docCnt_mName_tail, hstep,
        docCnt_docUpsertMeta (childBlind_selMetaName _)
          (fun v t a c => contentBlind_selMetaName _ v t a c), hpre, hnothas]
      simpa using cnt_mName_mkName "description" "description" ds
    · intro ds' hds'
      rw [show ds' = ds from by simpa using hds'.symm]
      have hbad : docCnt (badSel (selMetaName "description") ds)
          (docUpsertMeta (selMetaName "description") (mkMetaName "description" ds) ds
            (stepKeywords cfg (stepFontAwesome cfg (stepTitle cfg d0)))) = 0 :=
        docUpsertMeta_establishes (childBlind_selMetaName _) (by rw [hpre]; omega)
          (cnt_badSelfName_mkName "description" ds)
      have hnp2 : docCnt selNameAndProp
          (docUpsertMeta (selMetaName "description") (mkMetaName "description" ds) ds
            (stepKeywords cfg (stepFontAwesome cfg (stepTitle cfg d0)))) = 0 := by
        rw [docCnt_docUpsertMeta childBlind_selNameAndProp
          (fun v t a c => contentBlind_selNameAndProp v t a c), hnpre]
        simp [cnt_nameProp_mkName]
      rw [hstep]
      exact docCnt_badSel_name_tail "description" ds cfg env git (extractMeta cfg d0)
        _ _ _ hbad hnp2

/-- The injected description text: `strip` then truncate at 500. -/
theorem extractDescription_eq (cfg : Cfg) (d : SoupDoc) (t : String)
    (hdesc : cfg.add_desc = true) (hp : firstParagraphText d = some t) :
    extractDescription cfg d =
      (if 10 ≤ sLength (sStrip t) then some (sTake (sStrip t) 500) else none) := by
  have hlen : sLength (sTake (sStrip t) 500) = min 500 (sLength (sStrip t)) := by
    simp [sLength, sTake, List.length_take]
  unfold extractDescription
  rw [hdesc, hp]
  simp only [hlen]
  by_cases h : 10 ≤ sLength (sStrip t)
  · rw [if_pos (le_inf_iff.mpr ⟨by norm_num, h⟩), if_pos h]
    simp
  · rw [if_neg (fun hcon => h (le_inf_iff.mp hcon).2), if_neg h]
    simp

/-- Claim C2 as corrected: the shared processor injects the description
exactly when the trimmed first-paragraph text has length at least 10 — the
boundary length 10 is accepted, not rejected, and texts longer than 500
are truncated to their first 500 characters rather than rejected
(processor.py lines 238-246: `desc = text.strip()[:500]` then
`len(desc) >= 10`).  For a page with a head, no pre-existing description
tag, and no meta element carrying both `name` and `property`, the
processed page carries exactly one description tag iff `10 ≤ len(strip t)`
and its content is the truncated text. -/
theorem description_bound_amended (cfg : Cfg) (env : Env) (git : GitInfo) (pg : Page)
    (hdesc : cfg.add_desc = true) (h : Dom) (hhead : pg.head = some h)
    (t : String) (hp : firstParagraphText (pageDoc pg) = some t)
    (h0 : docCnt (selMetaName "description") (pageDoc pg) = 0)
    (hnp : docCnt selNameAndProp (pageDoc pg) = 0) :
    docCnt (selMetaName "description") (pageDoc (process_html cfg env git pg)) =
      (if 10 ≤ sLength (sStrip t) then 1 else 0) ∧
    docCnt (badSel (selMetaName "description") (sTake (sStrip t) 500))
      (pageDoc (process_html cfg env git pg)) = 0 := by
  have hpd : pageDoc pg = ⟨h, pg.body⟩ := by simp [pageDoc, hhead]
  have hout : pageDoc (process_html cfg env git pg) =
      process_htmlCore cfg env git ⟨h, pg.body⟩ := by
    unfold process_html
    rw [hhead]
    rfl
  rw [hpd] at hp h0 hnp
  have core := docCnt_desc_core cfg env git ⟨h, pg.body⟩ h0 hnp
  have hex := extractDescription_eq cfg ⟨h, pg.body⟩ t hdesc hp
  rw [hout]
  constructor
  · rw [core.1, hex]
    by_cases hl : 10 ≤ sLength (sStrip t) <;> simp [hl]
  · by_cases hl : 10 ≤ sLength (sStrip t)
    · exact core.2 _ (by rw [hex, if_pos hl])
    · have hz : docCnt (selMetaName "description")
          (process_htmlCore cfg env git ⟨h, pg.body⟩) = 0 := by
        rw [core.1, hex, if_neg hl]
        simp
      exact docCnt_zero_of_imp (fun t' a c hb => by
        simp only [badSel, Bool.and_eq_true] at hb
        exact hb.1) hz

/-- Counterexample to claim C2 as stated: a first paragraph of exactly 10
characters IS injected by the shared processor (the claim demands
rejection at the boundary `L = 10`). -/
theorem description_boundary_counterexample :
    sLength (sStrip "0123456789") = 10 ∧ ¬(10 < 10) ∧
    docCnt (selMetaName "description")
      (pageDoc (process_html cfgEx envEx gitEx pageLen10)) = 1 := by
  refine ⟨by decide, by decide, ?_⟩
  decide

/-- Witness for `description_bound_amended` at a concrete page whose first
paragraph is long enough. -/
theorem description_bound_amended_witness :
    docCnt (selMetaName "description") (pageDoc (process_html cfgEx envEx gitEx pageHello)) =
      (if 10 ≤ sLength (sStrip "Hello world, this description is long enough.")
        then 1 else 0) ∧
    docCnt (badSel (selMetaName "description")
        (sTake (sStrip "Hello world, this description is long enough.") 500))
      (pageDoc (process_html cfgEx envEx gitEx pageHello)) = 0 :=
  description_bound_amended cfgEx envEx gitEx pageHello rfl .nil rfl
    "Hello world, this description is long enough." (by decide) (by decide) (by decide)

/-! ## Claim C1 — helper lemmas for the idempotence analysis -/

theorem upsertPropPairs_cons (a : String × String) (ps : List (String × String))
    (d : SoupDoc) :
    upsertPropPairs (a :: ps) d =
      upsertPropPairs ps (docUpsertMeta (selMetaProp a.1) (mkMetaProp a.1 a.2) a.2 d) := by
  simp [upsertPropPairs]

/-- An upsert leaves exactly one match of its own selector when the input
held at most one. -/
theorem docCnt_docUpsertMeta_self {p : Sel} (hcb : ChildBlind p) (hcc : ContentBlind p)
    {mk : Dom} {v : String} (hm : cnt p mk = 1) {d : SoupDoc} (hd : docCnt p d ≤ 1)
    (hne : docHas p d = true → docCnt p d = 1) :
    docCnt p (docUpsertMeta p mk v d) = 1 := by
  unfold docUpsertMeta
  by_cases hh : docHas p d
  · rw [if_pos hh, docCnt_docMapFirst hcb (hcc v)]
    exact hne hh
  · rw [if_neg hh, docCnt_appendHead, (docHas_eq_false_iff p d).mp (by simpa using hh), hm]

theorem mProp_mProp_disj {k k' : String} (hkk : k' ≠ k) :
    ∀ t a c, (selMetaProp k t a c && selMetaProp k' t a c) = false := by
  intro t a c
  by_cases h1 : selMetaProp k t a c
  · by_cases h2 : selMetaProp k' t a c
    · exfalso
      simp only [selMetaProp, Bool.and_eq_true, beq_iff_eq] at h1 h2
      rw [h1.2] at h2
      exact hkk (by simpa using h2.2.symm)
    · simp [h2]
  · simp [h1]

theorem mName_mName_disj {k k' : String} (hkk : k' ≠ k) :
    ∀ t a c, (selMetaName k t a c && selMetaName k' t a c) = false := by
  intro t a c
  by_cases h1 : selMetaName k t a c
  · by_cases h2 : selMetaName k' t a c
    · exfalso
      simp only [selMetaName, Bool.and_eq_true, beq_iff_eq] at h1 h2
      rw [h1.2] at h2
      exact hkk (by simpa using h2.2.symm)
    · simp [h2]
  · simp [h1]

/-- A `property` upsert with a different key preserves the content
invariant of a `property` selector. -/
theorem badSel_prop_docUpsertProp_other (k v k' v' : String) (hkk : k' ≠ k) (d : SoupDoc)
    (hbad : docCnt (badSel (selMetaProp k) v) d = 0) :
    docCnt (badSel (selMetaProp k) v)
      (docUpsertMeta (selMetaProp k') (mkMetaProp k' v') v' d) = 0 :=
  docCnt_badSel_docUpsertMeta_other (childBlind_selMetaProp k) (contentBlind_selMetaProp k)
    (docCnt_zero_pointwise (mProp_mProp_disj hkk) d) hbad
    (by simpa [hkk] using cnt_mProp_mkProp k k' v')

/-- A `name` upsert with a different key preserves the content invariant
of a `name` selector. -/
theorem badSel_name_docUpsertName_other (k v k' v' : String) (hkk : k' ≠ k) (d : SoupDoc)
    (hbad : docCnt (badSel (selMetaName k) v) d = 0) :
    docCnt (badSel (selMetaName k) v)
      (docUpsertMeta (selMetaName k') (mkMetaName k' v') v' d) = 0 :=
  docCnt_badSel_docUpsertMeta_other (childBlind_selMetaName k) (contentBlind_selMetaName k)
    (docCnt_zero_pointwise (mName_mName_disj hkk) d) hbad
    (by simpa [hkk] using cnt_mName_mkName k k' v')

theorem docCnt_mProp_upsertPropPairs_other (k : String) (ps : List (String × String))
    (hps : ∀ kv ∈ ps, kv.1 ≠ k) (d : SoupDoc) :
    docCnt (selMetaProp k) (upsertPropPairs ps d) = docCnt (selMetaProp k) d := by
  induction ps generalizing d with
  | nil => rfl
  | cons a rest ih =>
    rw [upsertPropPairs_cons, ih (fun kv hkv => hps kv (by simp [hkv])) _,
      docCnt_docUpsertMeta (childBlind_selMetaProp k)
        (fun v t a' c => contentBlind_selMetaProp k v t a' c)]
    have : cnt (selMetaProp k) (mkMetaProp a.1 a.2) = 0 := by
      simpa [hps a (by simp)] using cnt_mProp_mkProp k a.1 a.2
    simp [this]

theorem badSel_prop_upsertPropPairs_other (k v : String) (ps : List (String × String))
    (hps : ∀ kv ∈ ps, kv.1 ≠ k) (d : SoupDoc)
    (hbad : docCnt (badSel (selMetaProp k) v) d = 0) :
    docCnt (badSel (selMetaProp k) v) (upsertPropPairs ps d) = 0 := by
  induction ps generalizing d with
  | nil => exact hbad
  | cons a rest ih =>
    rw [upsertPropPairs_cons]
    exact ih (fun kv hkv => hps kv (by simp [hkv])) _
      (badSel_prop_docUpsertProp_other k v a.1 a.2 (hps a (by simp)) d hbad)

/-! ### No-op lemmas for the second application -/

theorem stepTitle_noop {cfg : Cfg} {d : SoupDoc}
    (h : docHas (selMetaName "title") d = true) : stepTitle cfg d = d := by
  simp [stepTitle, h]

theorem stepFontAwesome_noop {cfg : Cfg} {d : SoupDoc}
    (h : cfg.add_share_buttons = true → docHas selLinkFA d = true) :
    stepFontAwesome cfg d = d := by
  unfold stepFontAwesome
  by_cases hs : cfg.add_share_buttons
  · simp [hs, h hs]
  · simp [hs]

theorem stepKeywords_noop {cfg : Cfg} {d : SoupDoc}
    (h : ∀ kw, cfg.keywords = some kw → cfg.add_keywords = true → kw ≠ "" →
      docHas (selMetaName "keywords") d = true ∧
        docCnt (badSel (selMetaName "keywords") kw) d = 0) :
    stepKeywords cfg d = d := by
  unfold stepKeywords
  cases hkw : cfg.keywords with
  | none => rfl
  | some kw =>
    by_cases hc : cfg.add_keywords = true ∧ kw ≠ ""
    · have h2 := h kw hkw hc.1 hc.2
      have hcond : (cfg.add_keywords && kw != "") = true := by simp [hc.1, hc.2]
      simp only [hcond, if_true]
      exact docUpsertMeta_noop h2.1 h2.2
    · have hcond : (cfg.add_keywords && kw != "") = false := by
        cases hb : (cfg.add_keywords && kw != "") with
        | false => rfl
        | true =>
          exfalso
          simp only [Bool.and_eq_true, bne_iff_ne] at hb
          exact hc hb
      simp only [hcond, Bool.false_eq_true, if_false]

theorem stepDescription_noop {cfg : Cfg} {meta : ExtractedMeta} {d : SoupDoc}
    (h : ∀ ds, meta.description = some ds → cfg.add_desc = true →
      docHas (selMetaName "description") d = true ∧
        docCnt (badSel (selMetaName "description") ds) d = 0) :
    stepDescription cfg meta d = d := by
  unfold stepDescription
  cases hds : meta.description with
  | none => rfl
  | some ds =>
    by_cases hc : cfg.add_desc
    · have h2 := h ds hds hc
      simp only [hc, if_true]
      exact docUpsertMeta_noop h2.1 h2.2
    · simp [hc]

theorem stepOgImage_noop {cfg : Cfg} {meta : ExtractedMeta} {d : SoupDoc}
    (h : ∀ im, meta.image = some im → cfg.add_image = true →
      docHas (selMetaProp "og:image") d = true ∧
        docCnt (badSel (selMetaProp "og:image") im) d = 0) :
    stepOgImage cfg meta d = d := by
  unfold stepOgImage
  cases him : meta.image with
  | none => rfl
  | some im =>
    by_cases hc : cfg.add_image
    · have h2 := h im him hc
      simp only [hc, if_true]
      exact docUpsertMeta_noop h2.1 h2.2
    · simp [hc]

theorem stepTwitterImage_noop {cfg : Cfg} {meta : ExtractedMeta} {d : SoupDoc}
    (h : ∀ im, meta.image = some im → cfg.add_image = true →
      docHas (selMetaProp "twitter:image") d = true) :
    stepTwitterImage cfg meta d = d := by
  unfold stepTwitterImage
  cases him : meta.image with
  | none => rfl
  | some im =>
    have hcond : (cfg.add_image && !docHas (selMetaProp "twitter:image") d) = false := by
      by_cases hc : cfg.add_image
      · simp [h im him hc]
      · rw [Bool.not_eq_true] at hc
        simp [hc]
    simp only [hcond, Bool.false_eq_true, if_false]

theorem stepJsonLd_noop {cfg : Cfg} {env : Env} {git : GitInfo} {meta : ExtractedMeta}
    {d : SoupDoc} (h : cfg.add_json_ld = true → docHas selJsonLd d = true) :
    stepJsonLd cfg env git meta d = d := by
  unfold stepJsonLd
  by_cases hj : cfg.add_json_ld
  · rw [if_neg (by simp [hj, h hj])]
  · rw [if_neg (by simp [hj])]

theorem stepCopyLlm_noop {cfg : Cfg} {d : SoupDoc}
    (h : cfg.add_copy_llm = true → containsSubstr cfg.page_url "/reference/" = false →
      docHas selEditBtn d = true → docHas selCopyBtn d = true) :
    stepCopyLlm cfg d = d := by
  unfold stepCopyLlm
  rw [if_neg]
  intro hb
  simp only [Bool.and_eq_true, Bool.not_eq_eq_eq_not, Bool.not_true] at hb
  have := h hb.1.1.1 hb.1.1.2 hb.1.2
  rw [this] at hb
  simp at hb

/-- The share-buttons step is idempotent on its own. -/
theorem stepShare_idem (cfg : Cfg) (d : SoupDoc) :
    stepShare cfg (stepShare cfg d) = stepShare cfg d := by
  unfold stepShare
  by_cases hs : cfg.add_share_buttons
  · by_cases hh : docHas selShareDiv d
    · simp [hs, hh]
    · by_cases ha : docHas selCommentsH2 d || docHas selInner d
      · have h1 : docCnt selShareDiv (insert_content (shareFrag cfg) d) =
            docCnt selShareDiv d + cnt selShareDiv (shareFrag cfg) := by
          rw [docCnt_insert_content childBlind_selShareDiv, if_pos ha]
        have h2 : docHas selShareDiv (insert_content (shareFrag cfg) d) = true := by
          rw [docHas_iff, h1, cnt_shareDiv_share]
          omega
        simp only [hs, hh, Bool.not_false, Bool.and_true, Bool.true_and, if_true, h2]
        simp
      · simp only [Bool.or_eq_true, not_or] at ha
        push_neg at ha
        have ha1 : docHas selCommentsH2 d = false := by simpa using ha.1
        have ha2 : docHas selInner d = false := by simpa using ha.2
        rw [insert_content_id ha1 ha2]
        simp [hs, hh, insert_content_id ha1 ha2]
  · simp [hs]

/-! ## Claim C1 — run-one forward analysis of the pipeline -/

theorem docHas_of_docCnt_one {p : Sel} {d : SoupDoc} (h : docCnt p d = 1) :
    docHas p d = true :=
  (docHas_iff p d).mpr (by omega)

/-- An upsert over a document holding at most one match leaves exactly
one. -/
theorem docUpsertMeta_count_one {p : Sel} (hcb : ChildBlind p) (hcc : ContentBlind p)
    {mk : Dom} {v : String} (hm : cnt p mk = 1) {d : SoupDoc}
    (hd : docCnt p d ≤ 1) : docCnt p (docUpsertMeta p mk v d) = 1 :=
  docCnt_docUpsertMeta_self hcb hcc hm hd
    (fun hh => by
      have := (docHas_iff p d).mp hh
      omega)

theorem upsertPropPairs_append (ps₁ ps₂ : List (String × String)) (d : SoupDoc) :
    upsertPropPairs (ps₁ ++ ps₂) d = upsertPropPairs ps₂ (upsertPropPairs ps₁ d) := by
  simp [upsertPropPairs, List.foldl_append]

/-- Running a `property` upsert loop establishes the exactly-once-and-right
-content invariant for each of its keys, provided the key occurs once in
the loop and the input held at most one match. -/
theorem upsertPropPairs_forward (k v : String) (ps₁ ps₂ : List (String × String))
    (h1 : ∀ kv ∈ ps₁, kv.1 ≠ k) (h2 : ∀ kv ∈ ps₂, kv.1 ≠ k)
    (d : SoupDoc) (hle : docCnt (selMetaProp k) d ≤ 1) :
    docCnt (selMetaProp k) (upsertPropPairs (ps₁ ++ (k, v) :: ps₂) d) = 1 ∧
    docCnt (badSel (selMetaProp k) v) (upsertPropPairs (ps₁ ++ (k, v) :: ps₂) d) = 0 := by
  rw [upsertPropPairs_append, upsertPropPairs_cons]
  have hle1 : docCnt (selMetaProp k) (upsertPropPairs ps₁ d) ≤ 1 := by
    rw [docCnt_mProp_upsertPropPairs_other k ps₁ h1 d]
    exact hle
  have hown : docCnt (selMetaProp k)
      (docUpsertMeta (selMetaProp k) (mkMetaProp k v) v (upsertPropPairs ps₁ d)) = 1 :=
    docUpsertMeta_count_one (childBlind_selMetaProp k) (contentBlind_selMetaProp k)
      (by rw [cnt_mProp_mkProp]; simp) hle1
  have hbad : docCnt (badSel (selMetaProp k) v)
      (docUpsertMeta (selMetaProp k) (mkMetaProp k v) v (upsertPropPairs ps₁ d)) = 0 :=
    docUpsertMeta_establishes (childBlind_selMetaProp k) hle1 (cnt_badSelfProp_mkProp k v)
  constructor
  · rw [docCnt_mProp_upsertPropPairs_other k ps₂ h2 _]
    exact hown
  · exact badSel_prop_upsertPropPairs_other k v ps₂ h2 _ hbad

theorem ogPairs_key_ne (cfg : Cfg) (meta : ExtractedMeta) (k : String)
    (h : "og:type" ≠ k ∧ "og:url" ≠ k ∧ "og:title" ≠ k ∧ "og:description" ≠ k) :
    ∀ kv ∈ ogPairs cfg meta, kv.1 ≠ k := by
  intro kv hkv
  simp only [ogPairs, List.mem_cons, List.not_mem_nil, or_false] at hkv
  rcases hkv with h1 | h1 | h1 | h1 <;> subst h1
  · exact h.1
  · exact h.2.1
  · exact h.2.2.1
  · exact h.2.2.2

theorem twPairs_key_ne (cfg : Cfg) (meta : ExtractedMeta) (k : String)
    (h : "twitter:card" ≠ k ∧ "twitter:url" ≠ k ∧ "twitter:title" ≠ k ∧
      "twitter:description" ≠ k) :
    ∀ kv ∈ twPairs cfg meta, kv.1 ≠ k := by
  intro kv hkv
  simp only [twPairs, List.mem_cons, List.not_mem_nil, or_false] at hkv
  rcases hkv with h1 | h1 | h1 | h1 <;> subst h1
  · exact h.1
  · exact h.2.1
  · exact h.2.2.1
  · exact h.2.2.2

theorem badSel_prop_stepOgImage_other (k v : String) (hkk : "og:image" ≠ k)
    (cfg : Cfg) (meta : ExtractedMeta) {d : SoupDoc}
    (hbad : docCnt (badSel (selMetaProp k) v) d = 0) :
    docCnt (badSel (selMetaProp k) v) (stepOgImage cfg meta d) = 0 := by
  unfold stepOgImage
  cases meta.image with
  | none => exact hbad
  | some im =>
    by_cases h : cfg.add_image
    · simp only [h, if_true]
      exact badSel_prop_docUpsertProp_other k v "og:image" im hkk d hbad
    · simp only [h, Bool.false_eq_true, if_false]
      exact hbad

/-- Counts of a `property` selector are unchanged from the input through
the title/font-awesome/keywords/description steps. -/
theorem docCnt_mProp_pre (k : String) (cfg : Cfg) (meta : ExtractedMeta) (d : SoupDoc) :
    docCnt (selMetaProp k)
      (stepDescription cfg meta (stepKeywords cfg (stepFontAwesome cfg (stepTitle cfg d)))) =
      docCnt (selMetaProp k) d := by
  rw [docCnt_stepDescription_other (childBlind_selMetaProp k) (contentBlind_selMetaProp k)
      (fun v => cnt_mProp_mkName k "description" v),
    docCnt_stepKeywords_other (childBlind_selMetaProp k) (contentBlind_selMetaProp k)
      (fun v => cnt_mProp_mkName k "keywords" v),
    docCnt_stepFontAwesome_other (cnt_mProp_fa k),
    docCnt_stepTitle_other (fun v => cnt_mProp_mkName k "title" v)]

/-- Counts of a `property` selector are unchanged through the copy-button,
footer, JSON-LD and share steps. -/
theorem docCnt_mProp_tail8 (k : String) (cfg : Cfg) (env : Env) (git : GitInfo)
    (meta : ExtractedMeta) (d : SoupDoc) :
    docCnt (selMetaProp k)
      (stepShare cfg (stepJsonLd cfg env git meta (stepFooter cfg env git
        (stepCopyLlm cfg d)))) = docCnt (selMetaProp k) d := by
  rw [docCnt_stepShare_other (childBlind_selMetaProp k) (cnt_mProp_share cfg k),
    docCnt_stepJsonLd_other (fun T => cnt_mProp_ldScript k T),
    docCnt_stepFooter_other (childBlind_selMetaProp k)
      (fun gi => cnt_mProp_footerFrag k env gi) (cnt_mProp_styleDom k),
    docCnt_stepCopyLlm_other (childBlind_selMetaProp k) (cnt_mProp_copyBtn k)
      (cnt_mProp_copyScript k)]

/-- The content invariant of a `property` selector is unchanged through
the copy-button, footer, JSON-LD and share steps. -/
theorem docCnt_badSel_prop_tail8 (k v : String) (cfg : Cfg) (env : Env) (git : GitInfo)
    (meta : ExtractedMeta) (d : SoupDoc) :
    docCnt (badSel (selMetaProp k) v)
      (stepShare cfg (stepJsonLd cfg env git meta (stepFooter cfg env git
        (stepCopyLlm cfg d)))) = docCnt (badSel (selMetaProp k) v) d := by
  have hcb : ChildBlind (badSel (selMetaProp k) v) :=
    childBlind_badSel (childBlind_selMetaProp k) v
  rw [docCnt_stepShare_other hcb (cnt_badSel_zero v (cnt_mProp_share cfg k)),
    docCnt_stepJsonLd_other (fun T => cnt_badSel_zero v (cnt_mProp_ldScript k T)),
    docCnt_stepFooter_other hcb (fun gi => cnt_badSel_zero v (cnt_mProp_footerFrag k env gi))
      (cnt_badSel_zero v (cnt_mProp_styleDom k)),
    docCnt_stepCopyLlm_other hcb (cnt_badSel_zero v (cnt_mProp_copyBtn k))
      (cnt_badSel_zero v (cnt_mProp_copyScript k))]

/-- Facts after both loops and the image steps, for a key upserted by the
first (Open-Graph) loop. -/
theorem propFacts_loop1 (k v : String) (ps₁ ps₂ qs : List (String × String))
    (h1 : ∀ kv ∈ ps₁, kv.1 ≠ k) (h2 : ∀ kv ∈ ps₂, kv.1 ≠ k)
    (hq : ∀ kv ∈ qs, kv.1 ≠ k)
    (hog : "og:image" ≠ k) (htw : "twitter:image" ≠ k)
    (cfg : Cfg) (meta : ExtractedMeta) (d : SoupDoc)
    (hle : docCnt (selMetaProp k) d ≤ 1) :
    docCnt (selMetaProp k)
      (stepTwitterImage cfg meta (upsertPropPairs qs
        (stepOgImage cfg meta (upsertPropPairs (ps₁ ++ (k, v) :: ps₂) d)))) = 1 ∧
    docCnt (badSel (selMetaProp k) v)
      (stepTwitterImage cfg meta (upsertPropPairs qs
        (stepOgImage cfg meta (upsertPropPairs (ps₁ ++ (k, v) :: ps₂) d)))) = 0 := by
  obtain ⟨hc1, hb1⟩ := upsertPropPairs_forward k v ps₁ ps₂ h1 h2 d hle
  have hmk0 : ∀ v', cnt (selMetaProp k) (mkMetaProp "og:image" v') = 0 := fun v' => by
    rw [cnt_mProp_mkProp]
    simp [hog]
  have hmk0t : ∀ v', cnt (selMetaProp k) (mkMetaProp "twitter:image" v') = 0 := fun v' => by
    rw [cnt_mProp_mkProp]
    simp [htw]
  constructor
  · rw [docCnt_stepTwitterImage_other hmk0t,
      docCnt_mProp_upsertPropPairs_other k qs hq _,
      docCnt_stepOgImage_other (childBlind_selMetaProp k) (contentBlind_selMetaProp k) hmk0]
    exact hc1
  · rw [docCnt_stepTwitterImage_other (fun v' => cnt_badSel_zero v (hmk0t v'))]
    exact badSel_prop_upsertPropPairs_other k v qs hq _
      (badSel_prop_stepOgImage_other k v hog cfg meta hb1)

/-- Facts after both loops and the image steps, for a key upserted by the
second (Twitter) loop. -/
theorem propFacts_loop2 (k v : String) (qs ps₁ ps₂ : List (String × String))
    (hq : ∀ kv ∈ qs, kv.1 ≠ k)
    (h1 : ∀ kv ∈ ps₁, kv.1 ≠ k) (h2 : ∀ kv ∈ ps₂, kv.1 ≠ k)
    (hog : "og:image" ≠ k) (htw : "twitter:image" ≠ k)
    (cfg : Cfg) (meta : ExtractedMeta) (d : SoupDoc)
    (hle : docCnt (selMetaProp k) d ≤ 1) :
    docCnt (selMetaProp k)
      (stepTwitterImage cfg meta (upsertPropPairs (ps₁ ++ (k, v) :: ps₂)
        (stepOgImage cfg meta (upsertPropPairs qs d)))) = 1 ∧
    docCnt (badSel (selMetaProp k) v)
      (stepTwitterImage cfg meta (upsertPropPairs (ps₁ ++ (k, v) :: ps₂)
        (stepOgImage cfg meta (upsertPropPairs qs d)))) = 0 := by
  have hmk0 : ∀ v', cnt (selMetaProp k) (mkMetaProp "og:image" v') = 0 := fun v' => by
    rw [cnt_mProp_mkProp]
    simp [hog]
  have hmk0t : ∀ v', cnt (selMetaProp k) (mkMetaProp "twitter:image" v') = 0 := fun v' => by
    rw [cnt_mProp_mkProp]
    simp [htw]
  have hle2 : docCnt (selMetaProp k) (stepOgImage cfg meta (upsertPropPairs qs d)) ≤ 1 := by
    rw [docCnt_stepOgImage_other (childBlind_selMetaProp k) (contentBlind_selMetaProp k) hmk0,
      docCnt_mProp_upsertPropPairs_other k qs hq d]
    exact hle
  obtain ⟨hc1, hb1⟩ := upsertPropPairs_forward k v ps₁ ps₂ h1 h2 _ hle2
  constructor
  · rw [docCnt_stepTwitterImage_other hmk0t]
    exact hc1
  · rw [docCnt_stepTwitterImage_other (fun v' => cnt_badSel_zero v (hmk0t v'))]
    exact hb1

/-- Every `(prop, value)` pair of the two loops ends with exactly one
matching element, carrying the loop value, in the processed document. -/
theorem props_run1 (cfg : Cfg) (env : Env) (git : GitInfo) (d0 : SoupDoc)
    (hdup : ∀ s ∈ injectorSels, docCnt (MetaSel.sel s) d0 ≤ 1) :
    ∀ kv ∈ ogPairs cfg (extractMeta cfg d0) ++ twPairs cfg (extractMeta cfg d0),
      docCnt (selMetaProp kv.1) (process_htmlCore cfg env git d0) = 1 ∧
      docCnt (badSel (selMetaProp kv.1) kv.2) (process_htmlCore cfg env git d0) = 0 := by
  intro kv hkv
  simp only [process_htmlCore]
  have hle : ∀ k, docCnt (selMetaProp k) d0 ≤ 1 →
      docCnt (selMetaProp k) (stepDescription cfg (extractMeta cfg d0)
        (stepKeywords cfg (stepFontAwesome cfg (stepTitle cfg d0)))) ≤ 1 := by
    intro k hk
    rw [docCnt_mProp_pre]
    exact hk
  rw [List.mem_append] at hkv
  rcases hkv with hkv | hkv
  · simp only [ogPairs, List.mem_cons, List.not_mem_nil, or_false] at hkv
    rcases hkv with h | h | h | h <;> subst h
    · have hf := propFacts_loop1 "og:type" "website" []
          [("og:url", cfg.page_url), ("og:title", cfg.title),
           ("og:description", (extractMeta cfg d0).description.getD "")]
          (twPairs cfg (extractMeta cfg d0))
          (by intro kv hkv; simp at hkv)
          (by
            intro kv hkv
            simp only [List.mem_cons, List.not_mem_nil, or_false] at hkv
            rcases hkv with h | h | h <;> subst h <;> simp)
          (twPairs_key_ne cfg (extractMeta cfg d0) "og:type" (by decide))
          (by decide) (by decide) cfg (extractMeta cfg d0) _
          (hle "og:type" (hdup (.byProp "og:type") (by decide)))
      exact ⟨by rw [docCnt_mProp_tail8]; exact hf.1,
        by rw [docCnt_badSel_prop_tail8]; exact hf.2⟩
    · have hf := propFacts_loop1 "og:url" cfg.page_url [("og:type", "website")]
          [("og:title", cfg.title),
           ("og:description", (extractMeta cfg d0).description.getD "")]
          (twPairs cfg (extractMeta cfg d0))
          (by
            intro kv hkv
            simp only [List.mem_cons, List.not_mem_nil, or_false] at hkv
            subst hkv
            simp)
          (by
            intro kv hkv
            simp only [List.mem_cons, List.not_mem_nil, or_false] at hkv
            rcases hkv with h | h <;> subst h <;> simp)
          (twPairs_key_ne cfg (extractMeta cfg d0) "og:url" (by decide))
          (by decide) (by decide) cfg (extractMeta cfg d0) _
          (hle "og:url" (hdup (.byProp "og:url") (by decide)))
      exact ⟨by rw [docCnt_mProp_tail8]; exact hf.1,
        by rw [docCnt_badSel_prop_tail8]; exact hf.2⟩
    · have hf := propFacts_loop1 "og:title" cfg.title
          [("og:type", "website"), ("og:url", cfg.page_url)]
          [("og:description", (extractMeta cfg d0).description.getD "")]
          (twPairs cfg (extractMeta cfg d0))
          (by
            intro kv hkv
            simp only [List.mem_cons, List.not_mem_nil, or_false] at hkv
            rcases hkv with h | h <;> subst h <;> simp)
          (by
            intro kv hkv
            simp only [List.mem_cons, List.not_mem_nil, or_false] at hkv
            subst hkv
            simp)
          (twPairs_key_ne cfg (extractMeta cfg d0) "og:title" (by decide))
          (by decide) (by decide) cfg (extractMeta cfg d0) _
          (hle "og:title" (hdup (.byProp "og:title") (by decide)))
      exact ⟨by rw [docCnt_mProp_tail8]; exact hf.1,
        by rw [docCnt_badSel_prop_tail8]; exact hf.2⟩
    · have hf := propFacts_loop1 "og:description"
          ((extractMeta cfg d0).description.getD "")
          [("og:type", "website"), ("og:url", cfg.page_url), ("og:title", cfg.title)]
          [] (twPairs cfg (extractMeta cfg d0))
          (by
            intro kv hkv
            simp only [List.mem_cons, List.not_mem_nil, or_false] at hkv
            rcases hkv with h | h | h <;> subst h <;> simp)
          (by intro kv hkv; simp at hkv)
          (twPairs_key_ne cfg (extractMeta cfg d0) "og:description" (by decide))
          (by decide) (by decide) cfg (extractMeta cfg d0) _
          (hle "og:description" (hdup (.byProp "og:description") (by decide)))
      exact ⟨by rw [docCnt_mProp_tail8]; exact hf.1,
        by rw [docCnt_badSel_prop_tail8]; exact hf.2⟩
  · simp only [twPairs, List.mem_cons, List.not_mem_nil, or_false] at hkv
    rcases hkv with h | h | h | h <;> subst h
    · have hf := propFacts_loop2 "twitter:card" "summary_large_image"
          (ogPairs cfg (extractMeta cfg d0)) []
          [("twitter:url", cfg.page_url), ("twitter:title", cfg.title),
           ("twitter:description", (extractMeta cfg d0).description.getD "")]
          (ogPairs_key_ne cfg (extractMeta cfg d0) "twitter:card" (by decide))
          (by intro kv hkv; simp at hkv)
          (by
            intro kv hkv
            simp only [List.mem_cons, List.not_mem_nil, or_false] at hkv
            rcases hkv with h | h | h <;> subst h <;> simp)
          (by decide) (by decide) cfg (extractMeta cfg d0) _
          (hle "twitter:card" (hdup (.byProp "twitter:card") (by decide)))
      exact ⟨by rw [docCnt_mProp_tail8]; exact hf.1,
        by rw [docCnt_badSel_prop_tail8]; exact hf.2⟩
    · have hf := propFacts_loop2 "twitter:url" cfg.page_url
          (ogPairs cfg (extractMeta cfg d0))
          [("twitter:card", "summary_large_image")]
          [("twitter:title", cfg.title),
           ("twitter:description", (extractMeta cfg d0).description.getD "")]
          (ogPairs_key_ne cfg (extractMeta cfg d0) "twitter:url" (by decide))
          (by
            intro kv hkv
            simp only [List.mem_cons, List.not_mem_nil, or_false] at hkv
            subst hkv
            simp)
          (by
            intro kv hkv
            simp only [List.mem_cons, List.not_mem_nil, or_false] at hkv
            rcases hkv with h | h <;> subst h <;> simp)
          (by decide) (by decide) cfg (extractMeta cfg d0) _
          (hle "twitter:url" (hdup (.byProp "twitter:url") (by decide)))
      exact ⟨by rw [docCnt_mProp_tail8]; exact hf.1,
        by rw [docCnt_badSel_prop_tail8]; exact hf.2⟩
    · have hf := propFacts_loop2 "twitter:title" cfg.title
          (ogPairs cfg (extractMeta cfg d0))
          [("twitter:card", "summary_large_image"), ("twitter:url", cfg.page_url)]
          [("twitter:description", (extractMeta cfg d0).description.getD "")]
          (ogPairs_key_ne cfg (extractMeta cfg d0) "twitter:title" (by decide))
          (by
            intro kv hkv
            simp only [List.mem_cons, List.not_mem_nil, or_false] at hkv
            rcases hkv with h | h <;> subst h <;> simp)
          (by
            intro kv hkv
            simp only [List.mem_cons, List.not_mem_nil, or_false] at hkv
            subst hkv
            simp)
          (by decide) (by decide) cfg (extractMeta cfg d0) _
          (hle "twitter:title" (hdup (.byProp "twitter:title") (by decide)))
      exact ⟨by rw [docCnt_mProp_tail8]; exact hf.1,
        by rw [docCnt_badSel_prop_tail8]; exact hf.2⟩
    · have hf := propFacts_loop2 "twitter:description"
          ((extractMeta cfg d0).description.getD "")
          (ogPairs cfg (extractMeta cfg d0))
          [("twitter:card", "summary_large_image"), ("twitter:url", cfg.page_url),
           ("twitter:title", cfg.title)]
          []
          (ogPairs_key_ne cfg (extractMeta cfg d0) "twitter:description" (by decide))
          (by
            intro kv hkv
            simp only [List.mem_cons, List.not_mem_nil, or_false] at hkv
            rcases hkv with h | h | h <;> subst h <;> simp)
          (by intro kv hkv; simp at hkv)
          (by decide) (by decide) cfg (extractMeta cfg d0) _
          (hle "twitter:description" (hdup (.byProp "twitter:description") (by decide)))
      exact ⟨by rw [docCnt_mProp_tail8]; exact hf.1,
        by rw [docCnt_badSel_prop_tail8]; exact hf.2⟩

/-- A description upsert (a `name` upsert with key `description`) preserves
the content invariant of any other `name`-keyed selector. -/
theorem badSel_name_stepDescription_other (k v : String) (hkk : "description" ≠ k)
    (cfg : Cfg) (meta : ExtractedMeta) {d : SoupDoc}
    (hbad : docCnt (badSel (selMetaName k) v) d = 0) :
    docCnt (badSel (selMetaName k) v) (stepDescription cfg meta d) = 0 := by
  unfold stepDescription
  cases meta.description with
  | none => exact hbad
  | some ds =>
    by_cases h : cfg.add_desc
    · simp only [h, if_true]
      exact badSel_name_docUpsertName_other k v "description" ds hkk d hbad
    · simp only [h, Bool.false_eq_true, if_false]
      exact hbad

/-- Counts of the name-and-property selector are unchanged from the input
through the title/font-awesome/keywords/description steps. -/
theorem docCnt_nameProp_pre (cfg : Cfg) (meta : ExtractedMeta) (d : SoupDoc) :
    docCnt selNameAndProp
      (stepDescription cfg meta (stepKeywords cfg (stepFontAwesome cfg (stepTitle cfg d)))) =
      docCnt selNameAndProp d := by
  rw [docCnt_stepDescription_other childBlind_selNameAndProp contentBlind_selNameAndProp
      (fun v => cnt_nameProp_mkName "description" v),
    docCnt_stepKeywords_other childBlind_selNameAndProp contentBlind_selNameAndProp
      (fun v => cnt_nameProp_mkName "keywords" v),
    docCnt_stepFontAwesome_other cnt_nameProp_fa,
    docCnt_stepTitle_other (fun v => cnt_nameProp_mkName "title" v)]

/-- After one pass the document carries exactly one `meta name="title"`
element, provided the input carried at most one. -/
theorem title_run1 (cfg : Cfg) (env : Env) (git : GitInfo) (d0 : SoupDoc)
    (hle : docCnt (selMetaName "title") d0 ≤ 1) :
    docCnt (selMetaName "title") (process_htmlCore cfg env git d0) = 1 := by
  simp only [process_htmlCore]
  rw [docCnt_mName_tail,
    docCnt_stepDescription_other (childBlind_selMetaName _) (contentBlind_selMetaName _)
      (fun v => by simpa using cnt_mName_mkName "title" "description" v),
    docCnt_stepKeywords_other (childBlind_selMetaName _) (contentBlind_selMetaName _)
      (fun v => by simpa using cnt_mName_mkName "title" "keywords" v),
    docCnt_stepFontAwesome_other (cnt_mName_fa _)]
  unfold stepTitle
  by_cases hh : docHas (selMetaName "title") d0
  · rw [if_pos hh]
    have := (docHas_iff (selMetaName "title") d0).mp hh
    omega
  · rw [if_neg hh, docCnt_appendHead, (docHas_eq_false_iff _ _).mp (by simpa using hh)]
    simpa using cnt_mName_mkName "title" "title" cfg.title

/-- After one pass with keywords enabled and nonempty, the document carries
exactly one keywords tag, whose content is the configured string. -/
theorem keywords_run1 (cfg : Cfg) (env : Env) (git : GitInfo) (d0 : SoupDoc)
    (hle : docCnt (selMetaName "keywords") d0 ≤ 1)
    (hnp : docCnt selNameAndProp d0 = 0) :
    ∀ kw, cfg.keywords = some kw → cfg.add_keywords = true → kw ≠ "" →
      docCnt (selMetaName "keywords") (process_htmlCore cfg env git d0) = 1 ∧
      docCnt (badSel (selMetaName "keywords") kw) (process_htmlCore cfg env git d0) = 0 := by
  intro kw hkw hak hne
  simp only [process_htmlCore]
  have hle2 : docCnt (selMetaName "keywords") (stepFontAwesome cfg (stepTitle cfg d0)) ≤ 1 := by
    rw [docCnt_stepFontAwesome_other (cnt_mName_fa _),
      docCnt_stepTitle_other (fun v => by simpa using cnt_mName_mkName "keywords" "title" v)]
    exact hle
  have hstep : stepKeywords cfg (stepFontAwesome cfg (stepTitle cfg d0)) =
      docUpsertMeta (selMetaName "keywords") (mkMetaName "keywords" kw) kw
        (stepFontAwesome cfg (stepTitle cfg d0)) := by
    unfold stepKeywords
    rw [hkw]
    simp [hak, hne]
  have hc3 : docCnt (selMetaName "keywords")
      (stepKeywords cfg (stepFontAwesome cfg (stepTitle cfg d0))) = 1 := by
    rw [hstep]
    exact docUpsertMeta_count_one (childBlind_selMetaName _) (contentBlind_selMetaName _)
      (by simpa using cnt_mName_mkName "keywords" "keywords" kw) hle2
  have hb3 : docCnt (badSel (selMetaName "keywords") kw)
      (stepKeywords cfg (stepFontAwesome cfg (stepTitle cfg d0))) = 0 := by
    rw [hstep]
    exact docUpsertMeta_establishes (childBlind_selMetaName _) hle2
      (cnt_badSelfName_mkName "keywords" kw)
  constructor
  · rw [docCnt_mName_tail,
      docCnt_stepDescription_other (childBlind_selMetaName _) (contentBlind_selMetaName _)
        (fun v => by simpa using cnt_mName_mkName "keywords" "description" v)]
    exact hc3
  · have hb4 : docCnt (badSel (selMetaName "keywords") kw)
        (stepDescription cfg (extractMeta cfg d0)
          (stepKeywords cfg (stepFontAwesome cfg (stepTitle cfg d0)))) = 0 :=
      badSel_name_stepDescription_other "keywords" kw (by decide) cfg (extractMeta cfg d0) hb3
    have hnp4 : docCnt selNameAndProp
        (stepDescription cfg (extractMeta cfg d0)
          (stepKeywords cfg (stepFontAwesome cfg (stepTitle cfg d0)))) = 0 := by
      rw [docCnt_nameProp_pre]
      exact hnp
    exact docCnt_badSel_name_tail "keywords" kw cfg env git (extractMeta cfg d0) _ _ _ hb4 hnp4

/-- After one pass with an extracted description, the document carries
exactly one description tag, whose content is the extracted text. -/
theorem desc_run1 (cfg : Cfg) (env : Env) (git : GitInfo) (d0 : SoupDoc)
    (hle : docCnt (selMetaName "description") d0 ≤ 1)
    (hnp : docCnt selNameAndProp d0 = 0) :
    ∀ ds, (extractMeta cfg d0).description = some ds →
      docCnt (selMetaName "description") (process_htmlCore cfg env git d0) = 1 ∧
      docCnt (badSel (selMetaName "description") ds) (process_htmlCore cfg env git d0) = 0 := by
  intro ds hds
  have had : cfg.add_desc = true := by
    by_cases h : cfg.add_desc
    · exact h
    · have hds' := hds
      simp only [extractMeta] at hds'
      simp [extractDescription, h] at hds'
  simp only [process_htmlCore]
  have hle3 : docCnt (selMetaName "description")
      (stepKeywords cfg (stepFontAwesome cfg (stepTitle cfg d0))) ≤ 1 := by
    rw [docCnt_stepKeywords_other (childBlind_selMetaName _) (contentBlind_selMetaName _)
        (fun v => by simpa using cnt_mName_mkName "description" "keywords" v),
      docCnt_stepFontAwesome_other (cnt_mName_fa _),
      docCnt_stepTitle_other (fun v => by simpa using cnt_mName_mkName "description" "title" v)]
    exact hle
  have hstep : stepDescription cfg (extractMeta cfg d0)
      (stepKeywords cfg (stepFontAwesome cfg (stepTitle cfg d0))) =
      docUpsertMeta (selMetaName "description") (mkMetaName "description" ds) ds
        (stepKeywords cfg (stepFontAwesome cfg (stepTitle cfg d0))) := by
    unfold stepDescription
    rw [hds, had]
    simp
  have hc4 : docCnt (selMetaName "description")
      (stepDescription cfg (extractMeta cfg d0)
        (stepKeywords cfg (stepFontAwesome cfg (stepTitle cfg d0)))) = 1 := by
    rw [hstep]
    exact docUpsertMeta_count_one (childBlind_selMetaName _) (contentBlind_selMetaName _)
      (by simpa using cnt_mName_mkName "description" "description" ds) hle3
  have hb4 : docCnt (badSel (selMetaName "description") ds)
      (stepDescription cfg (extractMeta cfg d0)
        (stepKeywords cfg (stepFontAwesome cfg (stepTitle cfg d0)))) = 0 := by
    rw [hstep]
    exact docUpsertMeta_establishes (childBlind_selMetaName _) hle3
      (cnt_badSelfName_mkName "description" ds)
  have hnp4 : docCnt selNameAndProp
      (stepDescription cfg (extractMeta cfg d0)
        (stepKeywords cfg (stepFontAwesome cfg (stepTitle cfg d0)))) = 0 := by
    rw [docCnt_nameProp_pre]
    exact hnp
  constructor
  · rw [docCnt_mName_tail]
    exact hc4
  · exact docCnt_badSel_name_tail "description" ds cfg env git (extractMeta cfg d0)
      _ _ _ hb4 hnp4

/-- After one pass with an image signal, the document carries exactly one
`og:image` tag holding that image. -/
theorem ogimage_run1 (cfg : Cfg) (env : Env) (git : GitInfo) (d0 : SoupDoc)
    (hle : docCnt (selMetaProp "og:image") d0 ≤ 1) :
    ∀ im, (extractMeta cfg d0).image = some im → cfg.add_image = true →
      docCnt (selMetaProp "og:image") (process_htmlCore cfg env git d0) = 1 ∧
      docCnt (badSel (selMetaProp "og:image") im) (process_htmlCore cfg env git d0) = 0 := by
  intro im him hai
  simp only [process_htmlCore]
  have hle5 : docCnt (selMetaProp "og:image")
      (upsertPropPairs (ogPairs cfg (extractMeta cfg d0))
        (stepDescription cfg (extractMeta cfg d0)
          (stepKeywords cfg (stepFontAwesome cfg (stepTitle cfg d0))))) ≤ 1 := by
    rw [docCnt_mProp_upsertPropPairs_other "og:image" _
        (ogPairs_key_ne cfg (extractMeta cfg d0) "og:image" (by decide)) _,
      docCnt_mProp_pre]
    exact hle
  have hstep : stepOgImage cfg (extractMeta cfg d0)
      (upsertPropPairs (ogPairs cfg (extractMeta cfg d0))
        (stepDescription cfg (extractMeta cfg d0)
          (stepKeywords cfg (stepFontAwesome cfg (stepTitle cfg d0))))) =
      docUpsertMeta (selMetaProp "og:image") (mkMetaProp "og:image" im) im
        (upsertPropPairs (ogPairs cfg (extractMeta cfg d0))
          (stepDescription cfg (extractMeta cfg d0)
            (stepKeywords cfg (stepFontAwesome cfg (stepTitle cfg d0))))) := by
    unfold stepOgImage
    rw [him, hai]
    simp
  have hc6 : docCnt (selMetaProp "og:image")
      (stepOgImage cfg (extractMeta cfg d0)
        (upsertPropPairs (ogPairs cfg (extractMeta cfg d0))
          (stepDescription cfg (extractMeta cfg d0)
            (stepKeywords cfg (stepFontAwesome cfg (stepTitle cfg d0)))))) = 1 := by
    rw [hstep]
    exact docUpsertMeta_count_one (childBlind_selMetaProp _) (contentBlind_selMetaProp _)
      (by rw [cnt_mProp_mkProp]; simp) hle5
  have hb6 : docCnt (badSel (selMetaProp "og:image") im)
      (stepOgImage cfg (extractMeta cfg d0)
        (upsertPropPairs (ogPairs cfg (extractMeta cfg d0))
          (stepDescription cfg (extractMeta cfg d0)
            (stepKeywords cfg (stepFontAwesome cfg (stepTitle cfg d0)))))) = 0 := by
    rw [hstep]
    exact docUpsertMeta_establishes (childBlind_selMetaProp _) hle5
      (cnt_badSelfProp_mkProp "og:image" im)
  constructor
  · rw [docCnt_mProp_tail8,
      docCnt_stepTwitterImage_other (fun v => by rw [cnt_mProp_mkProp]; simp),
      docCnt_mProp_upsertPropPairs_other "og:image" _
        (twPairs_key_ne cfg (extractMeta cfg d0) "og:image" (by decide)) _]
    exact hc6
  · rw [docCnt_badSel_prop_tail8,
      docCnt_stepTwitterImage_other
        (fun v => cnt_badSel_zero im (by rw [cnt_mProp_mkProp]; simp))]
    exact badSel_prop_upsertPropPairs_other "og:image" im _
      (twPairs_key_ne cfg (extractMeta cfg d0) "og:image" (by decide)) _ hb6

/-- After one pass with an image signal, the document carries exactly one
`twitter:image` tag. -/
theorem twimage_run1 (cfg : Cfg) (env : Env) (git : GitInfo) (d0 : SoupDoc)
    (hle : docCnt (selMetaProp "twitter:image") d0 ≤ 1) :
    ∀ im, (extractMeta cfg d0).image = some im → cfg.add_image = true →
      docCnt (selMetaProp "twitter:image") (process_htmlCore cfg env git d0) = 1 := by
  intro im him hai
  simp only [process_htmlCore]
  rw [docCnt_mProp_tail8]
  set D7 := upsertPropPairs (twPairs cfg (extractMeta cfg d0))
      (stepOgImage cfg (extractMeta cfg d0)
        (upsertPropPairs (ogPairs cfg (extractMeta cfg d0))
          (stepDescription cfg (extractMeta cfg d0)
            (stepKeywords cfg (stepFontAwesome cfg (stepTitle cfg d0)))))) with hD7
  have hle7 : docCnt (selMetaProp "twitter:image") D7 ≤ 1 := by
    rw [hD7,
      docCnt_mProp_upsertPropPairs_other "twitter:image" _
        (twPairs_key_ne cfg (extractMeta cfg d0) "twitter:image" (by decide)) _,
      docCnt_stepOgImage_other (childBlind_selMetaProp _) (contentBlind_selMetaProp _)
        (fun v => by rw [cnt_mProp_mkProp]; simp),
      docCnt_mProp_upsertPropPairs_other "twitter:image" _
        (ogPairs_key_ne cfg (extractMeta cfg d0) "twitter:image" (by decide)) _,
      docCnt_mProp_pre]
    exact hle
  unfold stepTwitterImage
  rw [him]
  by_cases hh : docHas (selMetaProp "twitter:image") D7
  · have hcond : (cfg.add_image && !docHas (selMetaProp "twitter:image") D7) = false := by
      simp [hh]
    simp only [hcond, Bool.false_eq_true, if_false]
    have := (docHas_iff (selMetaProp "twitter:image") D7).mp hh
    omega
  · have hhf : docHas (selMetaProp "twitter:image") D7 = false := by simpa using hh
    have hcond : (cfg.add_image && !docHas (selMetaProp "twitter:image") D7) = true := by
      simp [hai, hhf]
    simp only [hcond, if_true]
    rw [docCnt_appendHead, (docHas_eq_false_iff _ _).mp hhf, cnt_mProp_mkProp]
    simp

/-- After one pass the font-awesome stylesheet link count stays at most
one, and the link exists whenever share buttons are enabled. -/
theorem fa_run1 (cfg : Cfg) (env : Env) (git : GitInfo) (d0 : SoupDoc)
    (hle : docCnt selLinkFA d0 ≤ 1)
    (hoff : rendersFooter cfg env git = false) :
    docCnt selLinkFA (process_htmlCore cfg env git d0) ≤ 1 ∧
    (cfg.add_share_buttons = true →
      docHas selLinkFA (process_htmlCore cfg env git d0) = true) := by
  simp only [process_htmlCore]
  have hchain : ∀ d, docCnt selLinkFA
      (stepShare cfg (stepJsonLd cfg env git (extractMeta cfg d0) (stepFooter cfg env git
        (stepCopyLlm cfg (stepTwitterImage cfg (extractMeta cfg d0)
          (upsertPropPairs (twPairs cfg (extractMeta cfg d0))
            (stepOgImage cfg (extractMeta cfg d0)
              (upsertPropPairs (ogPairs cfg (extractMeta cfg d0))
                (stepDescription cfg (extractMeta cfg d0)
                  (stepKeywords cfg d)))))))))) = docCnt selLinkFA d := by
    intro d
    rw [docCnt_stepShare_other childBlind_selLinkFA (cnt_fa_share cfg),
      docCnt_stepJsonLd_other (fun T => cnt_fa_ldScript T),
      stepFooter_off hoff,
      docCnt_stepCopyLlm_other childBlind_selLinkFA cnt_fa_copyBtn cnt_fa_copyScript,
      docCnt_stepTwitterImage_other (fun v => cnt_fa_mkProp "twitter:image" v),
      docCnt_upsertPropPairs_other childBlind_selLinkFA contentBlind_selLinkFA
        (fun k v => cnt_fa_mkProp k v),
      docCnt_stepOgImage_other childBlind_selLinkFA contentBlind_selLinkFA
        (fun v => cnt_fa_mkProp "og:image" v),
      docCnt_upsertPropPairs_other childBlind_selLinkFA contentBlind_selLinkFA
        (fun k v => cnt_fa_mkProp k v),
      docCnt_stepDescription_other childBlind_selLinkFA contentBlind_selLinkFA
        (fun v => cnt_fa_mkName "description" v),
      docCnt_stepKeywords_other childBlind_selLinkFA contentBlind_selLinkFA
        (fun v => cnt_fa_mkName "keywords" v)]
  have h1 : docCnt selLinkFA (stepTitle cfg d0) = docCnt selLinkFA d0 :=
    docCnt_stepTitle_other (fun v => cnt_fa_mkName "title" v) cfg d0
  have hfa2 : docCnt selLinkFA (stepFontAwesome cfg (stepTitle cfg d0)) ≤ 1 ∧
      (cfg.add_share_buttons = true →
        docHas selLinkFA (stepFontAwesome cfg (stepTitle cfg d0)) = true) := by
    unfold stepFontAwesome
    by_cases hs : cfg.add_share_buttons
    · by_cases hh : docHas selLinkFA (stepTitle cfg d0)
      · have hcond : (cfg.add_share_buttons && !docHas selLinkFA (stepTitle cfg d0)) =
            false := by simp [hh]
        simp only [hcond, Bool.false_eq_true, if_false]
        refine ⟨?_, fun _ => hh⟩
        rw [h1]
        exact hle
      · have hhf : docHas selLinkFA (stepTitle cfg d0) = false := by simpa using hh
        have hcond : (cfg.add_share_buttons && !docHas selLinkFA (stepTitle cfg d0)) =
            true := by simp [hs, hhf]
        simp only [hcond, if_true]
        have hcnt : docCnt selLinkFA (appendHead faLinkDom (stepTitle cfg d0)) = 1 := by
          rw [docCnt_appendHead, (docHas_eq_false_iff _ _).mp hhf, cnt_fa_fa]
        exact ⟨by omega, fun _ => docHas_of_docCnt_one hcnt⟩
    · have hsf : cfg.add_share_buttons = false := by simpa using hs
      have hcond : (cfg.add_share_buttons && !docHas selLinkFA (stepTitle cfg d0)) =
          false := by simp [hsf]
      simp only [hcond, Bool.false_eq_true, if_false]
      refine ⟨?_, fun hs' => absurd hs' hs⟩
      rw [h1]
      exact hle
  constructor
  · rw [hchain]
    exact hfa2.1
  · intro hs
    have := hfa2.2 hs
    rw [docHas_iff] at this ⊢
    rw [hchain]
    exact this

/-- After one pass the JSON-LD script count stays at most one, and the
script exists whenever JSON-LD is enabled. -/
theorem jsonld_run1 (cfg : Cfg) (env : Env) (git : GitInfo) (d0 : SoupDoc)
    (hle : docCnt selJsonLd d0 ≤ 1)
    (hoff : rendersFooter cfg env git = false) :
    docCnt selJsonLd (process_htmlCore cfg env git d0) ≤ 1 ∧
    (cfg.add_json_ld = true →
      docHas selJsonLd (process_htmlCore cfg env git d0) = true) := by
  simp only [process_htmlCore]
  set DF := stepFooter cfg env git
      (stepCopyLlm cfg (stepTwitterImage cfg (extractMeta cfg d0)
        (upsertPropPairs (twPairs cfg (extractMeta cfg d0))
          (stepOgImage cfg (extractMeta cfg d0)
            (upsertPropPairs (ogPairs cfg (extractMeta cfg d0))
              (stepDescription cfg (extractMeta cfg d0)
                (stepKeywords cfg (stepFontAwesome cfg (stepTitle cfg d0))))))))) with hDF
  have hpre : docCnt selJsonLd DF = docCnt selJsonLd d0 := by
    rw [hDF, stepFooter_off hoff,
      docCnt_stepCopyLlm_other childBlind_selJsonLd cnt_jsonld_copyBtn cnt_jsonld_copyScript,
      docCnt_stepTwitterImage_other (fun v => cnt_jsonld_mkProp "twitter:image" v),
      docCnt_upsertPropPairs_other childBlind_selJsonLd contentBlind_selJsonLd
        (fun k v => cnt_jsonld_mkProp k v),
      docCnt_stepOgImage_other childBlind_selJsonLd contentBlind_selJsonLd
        (fun v => cnt_jsonld_mkProp "og:image" v),
      docCnt_upsertPropPairs_other childBlind_selJsonLd contentBlind_selJsonLd
        (fun k v => cnt_jsonld_mkProp k v),
      docCnt_stepDescription_other childBlind_selJsonLd contentBlind_selJsonLd
        (fun v => cnt_jsonld_mkName "description" v),
      docCnt_stepKeywords_other childBlind_selJsonLd contentBlind_selJsonLd
        (fun v => cnt_jsonld_mkName "keywords" v),
      docCnt_stepFontAwesome_other cnt_jsonld_fa,
      docCnt_stepTitle_other (fun v => cnt_jsonld_mkName "title" v)]
  by_cases hj : cfg.add_json_ld
  · by_cases hh : docHas selJsonLd DF
    · have hcond : (cfg.add_json_ld && !docHas selJsonLd DF) = false := by simp [hh]
      have hstep : stepJsonLd cfg env git (extractMeta cfg d0) DF = DF := by
        unfold stepJsonLd
        simp only [hcond, Bool.false_eq_true, if_false]
      constructor
      · rw [hstep, docCnt_stepShare_other childBlind_selJsonLd (cnt_jsonld_share cfg), hpre]
        exact hle
      · intro _
        rw [docHas_iff, hstep,
          docCnt_stepShare_other childBlind_selJsonLd (cnt_jsonld_share cfg)]
        exact (docHas_iff selJsonLd DF).mp hh
    · have hhf : docHas selJsonLd DF = false := by simpa using hh
      have hcond : (cfg.add_json_ld && !docHas selJsonLd DF) = true := by simp [hj, hhf]
      have hstep : stepJsonLd cfg env git (extractMeta cfg d0) DF =
          appendHead (.elem "script" [("type", "application/ld+json")]
            (.txt (ldJsonText cfg (effGitInfo cfg env git) (extractMeta cfg d0)
              (parse_faq DF)) .nil) .nil) DF := by
        unfold stepJsonLd
        simp only [hcond, if_true]
      have hcnt : docCnt selJsonLd (stepJsonLd cfg env git (extractMeta cfg d0) DF) = 1 := by
        rw [hstep, docCnt_appendHead, (docHas_eq_false_iff _ _).mp hhf, cnt_jsonld_ldScript]
      constructor
      · rw [docCnt_stepShare_other childBlind_selJsonLd (cnt_jsonld_share cfg), hcnt]
      · intro _
        rw [docHas_iff, docCnt_stepShare_other childBlind_selJsonLd (cnt_jsonld_share cfg),
          hcnt]
        exact one_ne_zero
  · have hjf : cfg.add_json_ld = false := by simpa using hj
    have hcond : (cfg.add_json_ld && !docHas selJsonLd DF) = false := by simp [hjf]
    have hstep : stepJsonLd cfg env git (extractMeta cfg d0) DF = DF := by
      unfold stepJsonLd
      simp only [hcond, Bool.false_eq_true, if_false]
    refine ⟨?_, fun hj' => absurd hj' hj⟩
    rw [hstep, docCnt_stepShare_other childBlind_selJsonLd (cnt_jsonld_share cfg), hpre]
    exact hle

/-- Through the footer, JSON-LD and share steps, once the copy button has
been handled its gate can never fire again. -/
theorem copy_after_tail (cfg : Cfg) (env : Env) (git : GitInfo) (meta : ExtractedMeta)
    (d8 : SoupDoc) (hoff : rendersFooter cfg env git = false)
    (ha : cfg.add_copy_llm = true)
    (href : containsSubstr cfg.page_url "/reference/" = false)
    (hedit : docHas selEditBtn (stepShare cfg (stepJsonLd cfg env git meta
      (stepFooter cfg env git (stepCopyLlm cfg d8)))) = true) :
    docHas selCopyBtn (stepShare cfg (stepJsonLd cfg env git meta
      (stepFooter cfg env git (stepCopyLlm cfg d8)))) = true := by
  have hEeq : docCnt selEditBtn (stepShare cfg (stepJsonLd cfg env git meta
      (stepFooter cfg env git (stepCopyLlm cfg d8)))) = docCnt selEditBtn d8 := by
    rw [docCnt_stepShare_other childBlind_selEditBtn (cnt_edit_share cfg),
      docCnt_stepJsonLd_other (fun T => cnt_edit_ldScript T),
      stepFooter_off hoff,
      docCnt_stepCopyLlm_other childBlind_selEditBtn cnt_edit_copyBtn cnt_edit_copyScript]
  have hCeq : docCnt selCopyBtn (stepShare cfg (stepJsonLd cfg env git meta
      (stepFooter cfg env git (stepCopyLlm cfg d8)))) =
      docCnt selCopyBtn (stepCopyLlm cfg d8) := by
    rw [docCnt_stepShare_other childBlind_selCopyBtn (cnt_copyBtn_share cfg),
      docCnt_stepJsonLd_other (fun T => cnt_copyBtn_ldScript T),
      stepFooter_off hoff]
  have heditd8 : docHas selEditBtn d8 = true := by
    rw [docHas_iff] at hedit ⊢
    rw [hEeq] at hedit
    exact hedit
  rw [docHas_iff, hCeq]
  unfold stepCopyLlm
  by_cases hg : (cfg.add_copy_llm && !containsSubstr cfg.page_url "/reference/" &&
      docHas selEditBtn d8 && !docHas selCopyBtn d8) = true
  · rw [if_pos hg, docCnt_stepCopyScript_other cnt_copyBtn_copyScript,
      docCnt_docSplice childBlind_selCopyBtn, if_pos heditd8, cnt_copyBtn_copyBtn]
    omega
  · rw [if_neg hg]
    have hcb8 : docHas selCopyBtn d8 = true := by
      cases hx : docHas selCopyBtn d8 with
      | true => rfl
      | false =>
        exact absurd (by simp [ha, href, heditd8, hx]) hg
    exact (docHas_iff selCopyBtn d8).mp hcb8

/-- When the copy-button gate conditions hold of the processed document,
the button is already there. -/
theorem copy_run1 (cfg : Cfg) (env : Env) (git : GitInfo) (d0 : SoupDoc)
    (hoff : rendersFooter cfg env git = false) :
    cfg.add_copy_llm = true → containsSubstr cfg.page_url "/reference/" = false →
    docHas selEditBtn (process_htmlCore cfg env git d0) = true →
    docHas selCopyBtn (process_htmlCore cfg env git d0) = true := by
  intro ha href hedit
  simp only [process_htmlCore] at hedit ⊢
  exact copy_after_tail cfg env git (extractMeta cfg d0) _ hoff ha href hedit

/-! ### The second pass is the identity -/

theorem upsertPropPairs_noop (ps : List (String × String)) (d : SoupDoc)
    (h : ∀ kv ∈ ps, docHas (selMetaProp kv.1) d = true ∧
      docCnt (badSel (selMetaProp kv.1) kv.2) d = 0) :
    upsertPropPairs ps d = d := by
  induction ps with
  | nil => rfl
  | cons a rest ih =>
    rw [upsertPropPairs_cons, docUpsertMeta_noop (h a (by simp)).1 (h a (by simp)).2]
    exact ih (fun kv hkv => h kv (by simp [hkv]))

theorem process_htmlCore_eq (cfg : Cfg) (env : Env) (git : GitInfo) (d : SoupDoc) :
    process_htmlCore cfg env git d =
      stepShare cfg (stepJsonLd cfg env git (extractMeta cfg d) (stepFooter cfg env git
        (stepCopyLlm cfg (stepTwitterImage cfg (extractMeta cfg d)
          (upsertPropPairs (twPairs cfg (extractMeta cfg d))
            (stepOgImage cfg (extractMeta cfg d)
              (upsertPropPairs (ogPairs cfg (extractMeta cfg d))
                (stepDescription cfg (extractMeta cfg d)
                  (stepKeywords cfg (stepFontAwesome cfg (stepTitle cfg d))))))))))) := rfl

/-- Running the pipeline a second time on its own output changes nothing,
provided the input held at most one match per upserted selector, no meta
element carried both `name` and `property`, the git footer does not render,
and the first pass left the extraction signals unchanged. -/
theorem process_htmlCore_idem (cfg : Cfg) (env : Env) (git : GitInfo) (d0 : SoupDoc)
    (hdup : ∀ s ∈ injectorSels, docCnt (MetaSel.sel s) d0 ≤ 1)
    (hfa : docCnt selLinkFA d0 ≤ 1)
    (hjl : docCnt selJsonLd d0 ≤ 1)
    (hnp : docCnt selNameAndProp d0 = 0)
    (hoff : rendersFooter cfg env git = false)
    (hsig : extractMeta cfg (process_htmlCore cfg env git d0) = extractMeta cfg d0) :
    process_htmlCore cfg env git (process_htmlCore cfg env git d0) =
      process_htmlCore cfg env git d0 := by
  have e1 : stepTitle cfg (process_htmlCore cfg env git d0) =
      process_htmlCore cfg env git d0 :=
    stepTitle_noop (docHas_of_docCnt_one
      (title_run1 cfg env git d0 (hdup (.byName "title") (by decide))))
  have e2 : stepFontAwesome cfg (process_htmlCore cfg env git d0) =
      process_htmlCore cfg env git d0 :=
    stepFontAwesome_noop (fa_run1 cfg env git d0 hfa hoff).2
  have e3 : stepKeywords cfg (process_htmlCore cfg env git d0) =
      process_htmlCore cfg env git d0 :=
    stepKeywords_noop (fun kw hkw hak hne =>
      have hkf := keywords_run1 cfg env git d0 (hdup (.byName "keywords") (by decide))
        hnp kw hkw hak hne
      ⟨docHas_of_docCnt_one hkf.1, hkf.2⟩)
  have e4 : stepDescription cfg (extractMeta cfg d0) (process_htmlCore cfg env git d0) =
      process_htmlCore cfg env git d0 :=
    stepDescription_noop (fun ds hds _ =>
      have hdf := desc_run1 cfg env git d0 (hdup (.byName "description") (by decide))
        hnp ds hds
      ⟨docHas_of_docCnt_one hdf.1, hdf.2⟩)
  have e5 : upsertPropPairs (ogPairs cfg (extractMeta cfg d0))
      (process_htmlCore cfg env git d0) = process_htmlCore cfg env git d0 :=
    upsertPropPairs_noop _ _ (fun kv hkv =>
      have hp := props_run1 cfg env git d0 hdup kv (List.mem_append_left _ hkv)
      ⟨docHas_of_docCnt_one hp.1, hp.2⟩)
  have e6 : stepOgImage cfg (extractMeta cfg d0) (process_htmlCore cfg env git d0) =
      process_htmlCore cfg env git d0 :=
    stepOgImage_noop (fun im him hai =>
      have hif := ogimage_run1 cfg env git d0 (hdup (.byProp "og:image") (by decide))
        im him hai
      ⟨docHas_of_docCnt_one hif.1, hif.2⟩)
  have e7 : upsertPropPairs (twPairs cfg (extractMeta cfg d0))
      (process_htmlCore cfg env git d0) = process_htmlCore cfg env git d0 :=
    upsertPropPairs_noop _ _ (fun kv hkv =>
      have hp := props_run1 cfg env git d0 hdup kv (List.mem_append_right _ hkv)
      ⟨docHas_of_docCnt_one hp.1, hp.2⟩)
  have e8 : stepTwitterImage cfg (extractMeta cfg d0) (process_htmlCore cfg env git d0) =
      process_htmlCore cfg env git d0 :=
    stepTwitterImage_noop (fun im him hai =>
      docHas_of_docCnt_one
        (twimage_run1 cfg env git d0 (hdup (.byProp "twitter:image") (by decide)) im him hai))
  have e9 : stepCopyLlm cfg (process_htmlCore cfg env git d0) =
      process_htmlCore cfg env git d0 :=
    stepCopyLlm_noop (copy_run1 cfg env git d0 hoff)
  have e10 : stepFooter cfg env git (process_htmlCore cfg env git d0) =
      process_htmlCore cfg env git d0 :=
    stepFooter_off hoff _
  have e11 : stepJsonLd cfg env git (extractMeta cfg d0)
      (process_htmlCore cfg env git d0) = process_htmlCore cfg env git d0 :=
    stepJsonLd_noop (jsonld_run1 cfg env git d0 hjl hoff).2
  have hlast : stepShare cfg (process_htmlCore cfg env git d0) =
      process_htmlCore cfg env git d0 := by
    rw [process_htmlCore_eq cfg env git d0]
    exact stepShare_idem cfg _
  rw [process_htmlCore_eq cfg env git (process_htmlCore cfg env git d0),
    hsig, e1, e2, e3, e4, e5, e6, e7, e8, e9, e10, e11, hlast]

theorem process_html_some (cfg : Cfg) (env : Env) (git : GitInfo) (h b : Dom) :
    process_html cfg env git ⟨some h, b⟩ =
      ⟨some (process_htmlCore cfg env git ⟨h, b⟩).hd,
       (process_htmlCore cfg env git ⟨h, b⟩).bd⟩ := rfl

/-- Claim C1 as corrected: the shared processor is idempotent only on pages
that start with at most one element per upserted selector and no meta tag
carrying both `name` and `property`, when the git footer does not render
and the first pass leaves the description/image signals unchanged.  Under
those preconditions the second pass is the identity, the processed page
carries exactly one title tag and exactly one tag per Open-Graph/Twitter
`(prop, value)` pair with the loop value as content, and the icon link and
JSON-LD script counts stay at most one.  (On a page with two pre-existing
`meta name="title"` tags both passes keep both, so the unconditional
exactly-once claim fails.) -/
theorem injector_idempotence_amended (cfg : Cfg) (env : Env) (git : GitInfo) (pg : Page)
    (h0 : Dom) (hhead : pg.head = some h0)
    (hdup : ∀ s ∈ injectorSels, docCnt (MetaSel.sel s) (pageDoc pg) ≤ 1)
    (hfa : docCnt selLinkFA (pageDoc pg) ≤ 1)
    (hjl : docCnt selJsonLd (pageDoc pg) ≤ 1)
    (hnp : docCnt selNameAndProp (pageDoc pg) = 0)
    (hoff : rendersFooter cfg env git = false)
    (hsig : extractMeta cfg (pageDoc (process_html cfg env git pg)) =
      extractMeta cfg (pageDoc pg)) :
    process_html cfg env git (process_html cfg env git pg) = process_html cfg env git pg ∧
    docCnt (selMetaName "title") (pageDoc (process_html cfg env git pg)) = 1 ∧
    (∀ kv ∈ ogPairs cfg (extractMeta cfg (pageDoc pg)) ++
        twPairs cfg (extractMeta cfg (pageDoc pg)),
      docCnt (selMetaProp kv.1) (pageDoc (process_html cfg env git pg)) = 1 ∧
      docCnt (badSel (selMetaProp kv.1) kv.2) (pageDoc (process_html cfg env git pg)) = 0) ∧
    docCnt selLinkFA (pageDoc (process_html cfg env git pg)) ≤ 1 ∧
    docCnt selJsonLd (pageDoc (process_html cfg env git pg)) ≤ 1 := by
  have hpd : pageDoc pg = ⟨h0, pg.body⟩ := by simp [pageDoc, hhead]
  have hout : pageDoc (process_html cfg env git pg) =
      process_htmlCore cfg env git ⟨h0, pg.body⟩ := by
    unfold process_html
    rw [hhead]
    rfl
  rw [hpd] at hdup hfa hjl hnp
  rw [hout, hpd] at hsig
  have hfst : process_html cfg env git pg =
      ⟨some (process_htmlCore cfg env git ⟨h0, pg.body⟩).hd,
       (process_htmlCore cfg env git ⟨h0, pg.body⟩).bd⟩ := by
    unfold process_html
    rw [hhead]
  have hidem := process_htmlCore_idem cfg env git ⟨h0, pg.body⟩ hdup hfa hjl hnp hoff hsig
  refine ⟨?_, ?_, ?_, ?_, ?_⟩
  · have heta : (⟨(process_htmlCore cfg env git ⟨h0, pg.body⟩).hd,
        (process_htmlCore cfg env git ⟨h0, pg.body⟩).bd⟩ : SoupDoc) =
        process_htmlCore cfg env git ⟨h0, pg.body⟩ := rfl
    rw [hfst, process_html_some, heta, hidem]
  · rw [hout]
    exact title_run1 cfg env git ⟨h0, pg.body⟩ (hdup (.byName "title") (by decide))
  · rw [hpd, hout]
    exact props_run1 cfg env git ⟨h0, pg.body⟩ hdup
  · rw [hout]
    exact (fa_run1 cfg env git ⟨h0, pg.body⟩ hfa hoff).1
  · rw [hout]
    exact (jsonld_run1 cfg env git ⟨h0, pg.body⟩ hjl hoff).1

set_option maxRecDepth 1000000 in
/-- Counterexample to claim C1 as stated: on a page whose head already
holds two `meta name="title"` tags, applying the injector twice leaves two
title tags, not exactly one per upserted selector. -/
theorem injector_idempotence_counterexample :
    docCnt (selMetaName "title")
      (pageDoc (process_html cfgEx envEx gitEx
        (process_html cfgEx envEx gitEx pageDupTitle))) = 2 ∧ (2 : Nat) ≠ 1 :=
  ⟨by decide, by decide⟩

set_option maxRecDepth 1000000 in
/-- Witness for the amended idempotence theorem at a concrete page. -/
theorem injector_idempotence_amended_witness :
    process_html cfgEx envEx gitEx (process_html cfgEx envEx gitEx pageHello) =
      process_html cfgEx envEx gitEx pageHello ∧
    docCnt (selMetaName "title") (pageDoc (process_html cfgEx envEx gitEx pageHello)) = 1 ∧
    (∀ kv ∈ ogPairs cfgEx (extractMeta cfgEx (pageDoc pageHello)) ++
        twPairs cfgEx (extractMeta cfgEx (pageDoc pageHello)),
      docCnt (selMetaProp kv.1) (pageDoc (process_html cfgEx envEx gitEx pageHello)) = 1 ∧
      docCnt (badSel (selMetaProp kv.1) kv.2)
        (pageDoc (process_html cfgEx envEx gitEx pageHello)) = 0) ∧
    docCnt selLinkFA (pageDoc (process_html cfgEx envEx gitEx pageHello)) ≤ 1 ∧
    docCnt selJsonLd (pageDoc (process_html cfgEx envEx gitEx pageHello)) ≤ 1 :=
  injector_idempotence_amended cfgEx envEx gitEx pageHello .nil rfl
    (by decide) (by decide) (by decide) (by decide) (by decide) (by decide)
